import Mathlib

/-! # Aurora CLI: manifest validation, extension authoring and command wrappers

A shallow embedding of `src/utils/extensionManifest.js`, `src/utils/authorUtils.js`,
`src/utils/errorHandler.js`, `src/utils/osUtils.js` and of the commands of
`src/commands/ExtensionCommands.js` and `src/commands/ProjectCommands.js`.

JavaScript values are modelled by `JSValue`; objects are association lists in
insertion order, property reads take the first binding of a key.  Numbers are
modelled as integers: no code path embedded here computes with a number, they
only need to be told apart from strings, arrays and objects.

The schema of `validateExtensionManifest` is kept as data (`schema`) and is
interpreted by `Ajv.validate`, a model of the Ajv 8 validator as the source
configures it (`allErrors: true`, `useDefaults: true`, formats of `ajv-formats`).

Commands are state transformers on a `World` (a file system tree and the list of
observable events); what they read from the platform, from `JSON` and from external
programs is a parameter (`Env`), and the answers of the interactive prompts are
arguments.
-/

namespace Aurora

/-! ## JavaScript values -/

/-- A JavaScript value as far as the embedded code can observe it. -/
inductive JSValue where
  | undefined
  | null
  | bool (b : Bool)
  | number (n : Int)
  | string (s : String)
  | array (xs : List JSValue)
  | object (kvs : List (String × JSValue))

namespace JSValue

instance : Inhabited JSValue := ⟨undefined⟩

/-- The test `v === undefined`. -/
def isUndefined : JSValue → Bool
  | undefined => true
  | _ => false

/-- JavaScript truthiness (`!!v`). -/
def truthy : JSValue → Bool
  | undefined => false
  | null => false
  | bool b => b
  | number n => n != 0
  | string s => s != ""
  | array _ => true
  | object _ => true

/-- The expression `a || b`. -/
def or (a b : JSValue) : JSValue := if a.truthy then a else b

/-- The property read `kvs[key]` on the bindings of an object. -/
def lookupProp (kvs : List (String × JSValue)) (key : String) : JSValue :=
  (kvs.lookup key).getD undefined

/-- The property read `v[key]` (`v.key`); only own properties of objects are modelled. -/
def getProp : JSValue → String → JSValue
  | object kvs, key => lookupProp kvs key
  | _, _ => undefined

/-- The assignment `kvs[key] = v`: an existing key keeps its position, a new key goes last. -/
def setProp : List (String × JSValue) → String → JSValue → List (String × JSValue)
  | [], key, v => [(key, v)]
  | (k, w) :: rest, key, v =>
    if k = key then (k, v) :: rest else (k, w) :: setProp rest key v

/-- The statement `delete kvs[key]`. -/
def deleteProp (kvs : List (String × JSValue)) (key : String) : List (String × JSValue) :=
  kvs.filter (fun kv => kv.1 != key)

/-- The keys a `for (key in obj)` loop visits. -/
def keys (kvs : List (String × JSValue)) : List String := kvs.map Prod.fst

mutual
/-- Deep strict equality, as `===` on primitives and `fast-deep-equal` on containers. -/
def equal : JSValue → JSValue → Bool
  | undefined, undefined => true
  | null, null => true
  | bool a, bool b => a == b
  | number a, number b => a == b
  | string a, string b => a == b
  | array xs, array ys => equalList xs ys
  | object xs, object ys => equalProps xs ys
  | _, _ => false
/-- Pointwise deep equality of array elements. -/
def equalList : List JSValue → List JSValue → Bool
  | [], [] => true
  | x :: xs, y :: ys => equal x y && equalList xs ys
  | _, _ => false
/-- Pointwise deep equality of object bindings. -/
def equalProps : List (String × JSValue) → List (String × JSValue) → Bool
  | [], [] => true
  | (k, x) :: xs, (l, y) :: ys => k == l && equal x y && equalProps xs ys
  | _, _ => false
end

end JSValue

/-! ## Regular expressions used by the schema -/

/-- A character class `[...]` listing its members. -/
def charClass (members : String) : RegularExpression Char :=
  (members.toList.map RegularExpression.char).foldr (· + ·) 0

/-- The quantifier `r+`. -/
def rxPlus (r : RegularExpression Char) : RegularExpression Char :=
  r * RegularExpression.star r

/-- The quantifier `r?`. -/
def rxOpt (r : RegularExpression Char) : RegularExpression Char :=
  1 + r

/-- The class `\d`. -/
def rxDigit : RegularExpression Char := charClass "0123456789"

/-- A pattern keeps the source text (it appears in error messages) next to the
expression between the anchors `^` and `$`. -/
structure Pattern where
  source : String
  body : RegularExpression Char

/-- The test `new RegExp(source, "u").test(s)` for a pattern anchored at both ends. -/
def Pattern.test (p : Pattern) (s : String) : Bool :=
  p.body.rmatch s.toList

/-- The pattern `"^\\d+\\.\\d+\\.\\d+$"` of `version` and of the items of `editor`. -/
def versionPattern : Pattern where
  source := "^\\d+\\.\\d+\\.\\d+$"
  body := rxPlus rxDigit * RegularExpression.char '.' * rxPlus rxDigit
            * RegularExpression.char '.' * rxPlus rxDigit

/-- The class `[a-z0-9]` under the flag `i`. -/
def rxAlnum : RegularExpression Char :=
  charClass "abcdefghijklmnopqrstuvwxyzABCDEFGHIJKLMNOPQRSTUVWXYZ0123456789"

/-- The class `[a-z0-9-]` under the flag `i`. -/
def rxAlnumHyphen : RegularExpression Char :=
  charClass "abcdefghijklmnopqrstuvwxyzABCDEFGHIJKLMNOPQRSTUVWXYZ0123456789-"

/-- The class of the local part of an address under the flag `i`:
letters, digits and the punctuation of the `ajv-formats` expression. -/
def rxAtext : RegularExpression Char :=
  charClass "abcdefghijklmnopqrstuvwxyzABCDEFGHIJKLMNOPQRSTUVWXYZ0123456789!#$%&\x27*+/=?^_\x60\x7b|\x7d~-"

/-- One domain label `[a-z0-9](?:[a-z0-9-]*[a-z0-9])?`. -/
def rxLabel : RegularExpression Char :=
  rxAlnum * rxOpt (RegularExpression.star rxAlnumHyphen * rxAlnum)

/-- The `email` format of `ajv-formats` (full mode, the default of `addFormats(ajv)`):
`atext+(\.atext+)*@(label\.)+label`, anchored, case-insensitive. -/
def emailRegex : RegularExpression Char :=
  rxPlus rxAtext
    * RegularExpression.star (RegularExpression.char '.' * rxPlus rxAtext)
    * RegularExpression.char '@'
    * rxPlus (rxLabel * RegularExpression.char '.')
    * rxLabel

/-- The formats the schema refers to. -/
inductive Format where
  | email
  deriving DecidableEq

/-- The name of a format, as written in the schema. -/
def Format.name : Format → String
  | .email => "email"

/-- The check a format runs on a string. -/
def Format.test : Format → String → Bool
  | .email, s => emailRegex.rmatch s.toList

/-! ## JSON Schema and the Ajv validator -/

/-- The values of the keyword `type`. -/
inductive JSONType where
  | number | integer | string | boolean | array | object | null
  deriving DecidableEq

/-- The name of a type, as written in the schema and in error messages. -/
def JSONType.name : JSONType → String
  | .number => "number"
  | .integer => "integer"
  | .string => "string"
  | .boolean => "boolean"
  | .array => "array"
  | .object => "object"
  | .null => "null"

/-- The keywords of a schema object that do not contain a subschema.
An absent keyword is `none`. -/
structure Keywords where
  type : Option JSONType := none
  enum : Option (List JSValue) := none
  minLength : Option Nat := none
  pattern : Option Pattern := none
  format : Option Format := none
  minItems : Option Nat := none
  required : Option (List String) := none
  additionalProperties : Option Bool := none
  default : Option JSValue := none

/-- A schema object: its keywords, `items` and `properties`. -/
inductive Schema where
  | mk (kw : Keywords) (items : Option Schema) (properties : Option (List (String × Schema)))

/-- The keywords of a schema that hold no subschema. -/
def Schema.kw : Schema → Keywords
  | .mk kw _ _ => kw

/-- The keyword `properties` of a schema. -/
def Schema.properties : Schema → Option (List (String × Schema))
  | .mk _ _ properties => properties

/-- An entry of `validate.errors`; the source reads `instancePath` and `message`. -/
structure ErrorObject where
  instancePath : String
  keyword : String
  message : String
  deriving DecidableEq, Repr

namespace Ajv

/-- The run-time type test Ajv generates for a `type` (numbers are finite integers here). -/
def checkDataType : JSONType → JSValue → Bool
  | .number, .number _ => true
  | .integer, .number _ => true
  | .string, .string _ => true
  | .boolean, .bool _ => true
  | .array, .array _ => true
  | .object, .object _ => true
  | .null, .null => true
  | _, _ => false

/-- Escaping of a property name inside a JSON pointer. -/
def escapeJsonPointer (key : String) : String :=
  String.mk (key.toList.flatMap fun c =>
    if c = '~' then ['~', '0'] else if c = '/' then ['~', '1'] else [c])

/-- The error of the keyword `type`. -/
def typeError (path : String) (t : JSONType) : ErrorObject :=
  ⟨path, "type", "must be " ++ t.name⟩

/-- Whether the schema has a keyword of the rule group of type `t`
(`schemaHasRulesForType`); only then is the type test moved into that group. -/
def hasRulesForType (kw : Keywords) (items : Option Schema)
    (properties : Option (List (String × Schema))) : JSONType → Bool
  | .string => kw.minLength.isSome || kw.pattern.isSome || kw.format.isSome
  | .array => kw.minItems.isSome || items.isSome
  | .object => kw.required.isSome || kw.additionalProperties.isSome || properties.isSome
  | _ => false

/-- The type test emitted before all keyword groups. -/
def upFrontType (kw : Keywords) (items : Option Schema)
    (properties : Option (List (String × Schema))) (path : String) (data : JSValue) :
    List ErrorObject :=
  match kw.type with
  | none => []
  | some t =>
    if hasRulesForType kw items properties t then []
    else if checkDataType t data then [] else [typeError path t]

/-- The `else` branch of the group of type `t`: the type error that was not emitted up front. -/
def groupTypeError (kw : Keywords) (path : String) (t : JSONType) : List ErrorObject :=
  if kw.type = some t then [typeError path t] else []

/-- The keyword `enum`. -/
def enumErrors (kw : Keywords) (path : String) (data : JSValue) : List ErrorObject :=
  match kw.enum with
  | none => []
  | some allowed =>
    if allowed.any (fun a => JSValue.equal data a) then []
    else [⟨path, "enum", "must be equal to one of the allowed values"⟩]

/-- The keyword `minLength`. -/
def minLengthErrors (kw : Keywords) (path : String) (s : String) : List ErrorObject :=
  match kw.minLength with
  | none => []
  | some n =>
    if s.length < n then
      [⟨path, "minLength", "must NOT have fewer than " ++ toString n ++ " characters"⟩]
    else []

/-- The keyword `pattern`. -/
def patternErrors (kw : Keywords) (path : String) (s : String) : List ErrorObject :=
  match kw.pattern with
  | none => []
  | some p =>
    if p.test s then []
    else [⟨path, "pattern", "must match pattern \"" ++ p.source ++ "\""⟩]

/-- The keyword `format`. -/
def formatErrors (kw : Keywords) (path : String) (s : String) : List ErrorObject :=
  match kw.format with
  | none => []
  | some f =>
    if f.test s then []
    else [⟨path, "format", "must match format \"" ++ f.name ++ "\""⟩]

/-- The keyword `minItems`. -/
def minItemsErrors (kw : Keywords) (path : String) (xs : List JSValue) : List ErrorObject :=
  match kw.minItems with
  | none => []
  | some n =>
    if xs.length < n then
      [⟨path, "minItems", "must NOT have fewer than " ++ toString n ++ " items"⟩]
    else []

/-- The keyword `required` with `allErrors`: one error for each listed property
whose value is `undefined`, in the order of the list. -/
def requiredErrors (kw : Keywords) (path : String) (kvs : List (String × JSValue)) :
    List ErrorObject :=
  match kw.required with
  | none => []
  | some props =>
    (props.filter (fun p => (JSValue.lookupProp kvs p).isUndefined)).map
      (fun p => ⟨path, "required", "must have required property \x27" ++ p ++ "\x27"⟩)

/-- The names declared under `properties`. -/
def declared (properties : Option (List (String × Schema))) : List String :=
  match properties with
  | none => []
  | some ps => ps.map Prod.fst

/-- The keyword `additionalProperties`: with `false`, one error for each key of the
data that `properties` does not declare; with `true` nothing is checked. -/
def additionalErrors (kw : Keywords) (properties : Option (List (String × Schema)))
    (path : String) (kvs : List (String × JSValue)) : List ErrorObject :=
  match kw.additionalProperties with
  | some false =>
    ((JSValue.keys kvs).filter (fun k => !(declared properties).contains k)).map
      (fun _ => ⟨path, "additionalProperties", "must NOT have additional properties"⟩)
  | _ => []

mutual
/-- The errors Ajv collects for `data` against a schema, in the order the generated
code pushes them: the up-front type test, then the untyped keywords, then the
groups of string, array and object keywords. -/
def errorsOf : Schema → String → JSValue → List ErrorObject
  | .mk kw items properties, path, data =>
    upFrontType kw items properties path data
      ++ enumErrors kw path data
      ++ (if hasRulesForType kw items properties .string then
            match data with
            | .string s =>
              minLengthErrors kw path s ++ patternErrors kw path s ++ formatErrors kw path s
            | _ => groupTypeError kw path .string
          else [])
      ++ (if hasRulesForType kw items properties .array then
            match data with
            | .array xs => minItemsErrors kw path xs ++ itemsErrors items path 0 xs
            | _ => groupTypeError kw path .array
          else [])
      ++ (if hasRulesForType kw items properties .object then
            match data with
            | .object kvs =>
              requiredErrors kw path kvs ++ additionalErrors kw properties path kvs
                ++ propertiesErrors properties path kvs
            | _ => groupTypeError kw path .object
          else [])
/-- The keyword `items`: every element against the one item schema. -/
def itemsErrors : Option Schema → String → Nat → List JSValue → List ErrorObject
  | none, _, _, _ => []
  | some s, path, i, xs =>
    (xs.enumFrom i).flatMap (fun ix => errorsOf s (path ++ "/" ++ toString ix.1) ix.2)
/-- The keyword `properties`. -/
def propertiesErrors : Option (List (String × Schema)) → String →
    List (String × JSValue) → List ErrorObject
  | none, _, _ => []
  | some ps, path, kvs => propertyListErrors ps path kvs
/-- Each declared property whose value is not `undefined` against its schema,
in the order of declaration. -/
def propertyListErrors : List (String × Schema) → String →
    List (String × JSValue) → List ErrorObject
  | [], _, _ => []
  | (k, s) :: rest, path, kvs =>
    (if (JSValue.lookupProp kvs k).isUndefined then []
     else errorsOf s (path ++ "/" ++ escapeJsonPointer k) (JSValue.lookupProp kvs k))
      ++ propertyListErrors rest path kvs
end

/-- Writes the `default` of each declared property whose value is `undefined`. -/
def assignDefaults : List (String × Schema) → List (String × JSValue) → List (String × JSValue)
  | [], kvs => kvs
  | (k, s) :: rest, kvs =>
    match s.kw.default with
    | some d =>
      if (JSValue.lookupProp kvs k).isUndefined then
        assignDefaults rest (JSValue.setProp kvs k d)
      else assignDefaults rest kvs
    | none => assignDefaults rest kvs

mutual
/-- The data after validation with `useDefaults`: defaults are written into objects
where a declared property is `undefined`, recursively through `properties` and
`items`.  Ajv does this in place while it validates; the errors it reports are
those of the data with the defaults filled in. -/
def withDefaults : Schema → JSValue → JSValue
  | .mk _ _ (some ps), .object kvs => .object (propsWithDefaults ps (assignDefaults ps kvs))
  | .mk _ (some s) _, .array xs => .array (xs.map (withDefaults s))
  | _, data => data
/-- The recursive step of `withDefaults` through the declared properties. -/
def propsWithDefaults : List (String × Schema) → List (String × JSValue) →
    List (String × JSValue)
  | [], kvs => kvs
  | (k, s) :: rest, kvs =>
    if (JSValue.lookupProp kvs k).isUndefined then propsWithDefaults rest kvs
    else propsWithDefaults rest
      (JSValue.setProp kvs k (withDefaults s (JSValue.lookupProp kvs k)))
end

/-- The options the source passes to `new Ajv(...)`. -/
structure Options where
  allErrors : Bool
  useDefaults : Bool

/-- The call `validate(data)` of a compiled schema: the data as the call leaves it
and the content of `validate.errors` (empty when the call returns `true`). -/
def validate (opts : Options) (s : Schema) (data : JSValue) : JSValue × List ErrorObject :=
  let data1 := if opts.useDefaults then withDefaults s data else data
  let errors := errorsOf s "" data1
  (data1, if opts.allErrors then errors else errors.take 1)

end Ajv

/-! ## `src/utils/extensionManifest.js` -/

/-- The module-level instance `new Ajv({ allErrors: true, useDefaults: true })`. -/
def ajv : Ajv.Options where
  allErrors := true
  useDefaults := true

/-- The schema `{ type: "string", minLength: 1 }` of `name`, `description`, `license`
and `author.name`. -/
def nonEmptyStringSchema : Schema :=
  .mk { type := some .string, minLength := some 1 } none none

/-- The schema `{ type: "string" }` of `icon`, `author.company` and the items of `categories`. -/
def stringSchema : Schema :=
  .mk { type := some .string } none none

/-- The schema of `version` and of the items of `editor`. -/
def versionSchema : Schema :=
  .mk { type := some .string, pattern := some versionPattern } none none

/-- The schema `{ type: "string", format: "email" }` of `author.email`. -/
def emailSchema : Schema :=
  .mk { type := some .string, format := some .email } none none

/-- The schema of `type`. -/
def typeSchema : Schema :=
  .mk { type := some .string,
        enum := some [.string "swift", .string "javascript", .string "typescript"] }
    none none

/-- The schema `{ type: "array", items: ..., minItems: 1 }` of `categories` and `editor`. -/
def nonEmptyArraySchema (items : Schema) : Schema :=
  .mk { type := some .array, minItems := some 1 } (some items) none

/-- The schema of `author`. -/
def authorSchema : Schema :=
  .mk { type := some .object, required := some ["name"], additionalProperties := some false }
    none
    (some [
      ("name", nonEmptyStringSchema),
      ("email", emailSchema),
      ("company", stringSchema)])

/-- The constant `schema` of `validateExtensionManifest`. -/
def schema : Schema :=
  .mk { type := some .object,
        required := some ["name", "description", "icon", "categories", "version", "type",
                          "author", "license", "editor"],
        additionalProperties := some true }
    none
    (some [
      ("name", nonEmptyStringSchema),
      ("description", nonEmptyStringSchema),
      ("icon", stringSchema),
      ("categories", nonEmptyArraySchema stringSchema),
      ("version", versionSchema),
      ("type", typeSchema),
      ("author", authorSchema),
      ("license", nonEmptyStringSchema),
      ("editor", nonEmptyArraySchema versionSchema)])

/-- The text of the thrown error: every `instancePath` and `message`, joined by `", "`. -/
def errorText (errors : List ErrorObject) : String :=
  ", ".intercalate (errors.map fun err => err.instancePath ++ " " ++ err.message)

/-- The function `validateExtensionManifest(extensionData)`: the manifest object as the
call leaves it, and `ok` when the call returns or `error msg` when it throws
`new Error(msg)`. -/
def validateExtensionManifest (extensionData : JSValue) : JSValue × Except String Unit :=
  let run := Ajv.validate ajv schema extensionData
  if run.2.isEmpty then (run.1, .ok ()) else (run.1, .error (errorText run.2))

/-! ## The data model of the specification -/

/-- A non-empty run of decimal digits. -/
def IsDigits (l : List Char) : Prop := l ≠ [] ∧ ∀ c ∈ l, c.isDigit = true

/-- Three dot-separated non-empty runs of decimal digits. -/
def IsVersion (v : String) : Prop :=
  ∃ a b c : List Char, IsDigits a ∧ IsDigits b ∧ IsDigits c ∧ v.toList = a ++ '.' :: (b ++ '.' :: c)

/-- A string that is not empty. -/
def IsNonEmptyString (v : JSValue) : Prop := ∃ s, v = .string s ∧ s ≠ ""

/-- Any string, the empty one included. -/
def IsString (v : JSValue) : Prop := ∃ s, v = .string s

/-- A string matching `\d+\.\d+\.\d+`. -/
def IsVersionValue (v : JSValue) : Prop := ∃ s, v = .string s ∧ IsVersion s

/-- A non-empty array whose elements all satisfy `P`. -/
def IsNonEmptyArrayOf (P : JSValue → Prop) (v : JSValue) : Prop :=
  ∃ xs, v = .array xs ∧ xs ≠ [] ∧ ∀ x ∈ xs, P x

/-- A valid email address: the data model names the `email` format and gives no
other definition, so this is the format of the validator's format library. -/
def IsEmailAddress (s : String) : Prop := Format.test .email s = true

/-- One of `swift`, `javascript`, `typescript`. -/
def IsExtensionType (v : JSValue) : Prop :=
  v = .string "swift" ∨ v = .string "javascript" ∨ v = .string "typescript"

/-- The `author` of the data model: an object with a non-empty string `name`, an
optional `email` that is a valid address when present, an optional string `company`,
and no other key. -/
def IsAuthor (v : JSValue) : Prop :=
  ∃ kvs, v = .object kvs ∧
    IsNonEmptyString (JSValue.lookupProp kvs "name") ∧
    (JSValue.lookupProp kvs "email" = .undefined ∨
      ∃ e, JSValue.lookupProp kvs "email" = .string e ∧ IsEmailAddress e) ∧
    (JSValue.lookupProp kvs "company" = .undefined ∨ IsString (JSValue.lookupProp kvs "company")) ∧
    ∀ k ∈ JSValue.keys kvs, k = "name" ∨ k = "email" ∨ k = "company"

/-- The field constraints of the Manifest of the data model, on the bindings of a
manifest object; `homepage` and unknown fields are not constrained. -/
def SatisfiesDataModel (kvs : List (String × JSValue)) : Prop :=
  IsNonEmptyString (JSValue.lookupProp kvs "name") ∧
  IsNonEmptyString (JSValue.lookupProp kvs "description") ∧
  IsString (JSValue.lookupProp kvs "icon") ∧
  IsNonEmptyArrayOf IsString (JSValue.lookupProp kvs "categories") ∧
  IsVersionValue (JSValue.lookupProp kvs "version") ∧
  IsExtensionType (JSValue.lookupProp kvs "type") ∧
  IsAuthor (JSValue.lookupProp kvs "author") ∧
  IsNonEmptyString (JSValue.lookupProp kvs "license") ∧
  IsNonEmptyArrayOf IsVersionValue (JSValue.lookupProp kvs "editor")

/-- The required top-level fields of a manifest. -/
def requiredFields : List String :=
  ["name", "description", "icon", "categories", "version", "type", "author", "license",
   "editor"]

/-- The author of the sample manifest. -/
def sampleAuthor : List (String × JSValue) :=
  [("name", .string "A"), ("email", .string "a@example.org"), ("company", .string "")]

/-- The bindings of a manifest as `createExtension` builds it from the answers of the
first end-to-end scenario and an author who has an email address. -/
def sampleManifest : List (String × JSValue) :=
  [("name", .string "demo"), ("description", .string "d"), ("icon", .string ""),
   ("categories", .array [.string "Snippets"]), ("version", .string "0.0.1"),
   ("type", .string "javascript"), ("author", .object sampleAuthor),
   ("license", .string "MIT"), ("editor", .array [.string "1.0.0"]),
   ("homepage", .undefined)]

/-! ## Paths and the file system

Paths are absolute and normalised: the list of their components below the root.
The file system is a tree; symbolic links, permissions and case-insensitive names
are not modelled.  Errors of the file system carry their code as message. -/

/-- An absolute, normalised path. -/
abbrev Path := List String

/-- The components of a path string, split at every `/`. -/
def splitPath (s : String) : List String :=
  (s.toList.foldr
    (fun c acc =>
      if c = '/' then [] :: acc
      else match acc with
        | [] => [[c]]
        | seg :: rest => (c :: seg) :: rest)
    [[]]).map String.mk

/-- Normalisation of `path.join`: empty components and `.` vanish, `..` removes the
component before it (and nothing at the root). -/
def normalize (base : Path) (components : List String) : Path :=
  components.foldl
    (fun acc c =>
      if c = "" ∨ c = "." then acc
      else if c = ".." then acc.dropLast
      else acc ++ [c])
    base

/-- The call `path.join(base, ...parts)` for an absolute `base`. -/
def pathJoin (base : Path) (parts : List String) : Path :=
  normalize base (parts.flatMap splitPath)

/-- The path a string denotes for the file system: absolute when it starts with `/`,
otherwise relative to the working directory. -/
def resolvePath (cwd : Path) (s : String) : Path :=
  match s.toList with
  | '/' :: _ => pathJoin [] [s]
  | _ => pathJoin cwd [s]

/-- The call `path.dirname(p)`. -/
def dirname (p : Path) : Path := p.dropLast

/-- The call `path.basename(p)`. -/
def basename (p : Path) : String := p.getLast?.getD ""

/-- The text of a path, as it appears in messages. -/
def pathString (p : Path) : String := "/" ++ "/".intercalate p

/-- A node of the file system tree. -/
inductive Node where
  | file (content : String)
  | dir (entries : List (String × Node))

namespace FS

/-- Binds `name` in a directory: an existing entry is replaced in place, a new one goes last. -/
def setEntry : List (String × Node) → String → Node → List (String × Node)
  | [], name, n => [(name, n)]
  | (k, m) :: rest, name, n =>
    if k = name then (k, n) :: rest else (k, m) :: setEntry rest name n

/-- The node at a path, if there is one. -/
def lookup : Node → Path → Option Node
  | n, [] => some n
  | .file _, _ :: _ => none
  | .dir es, c :: rest =>
    match es.lookup c with
    | some n => lookup n rest
    | none => none

/-- The tests `fs.existsSync(p)` and `fs.pathExists(p)`. -/
def pathExists (fs : Node) (p : Path) : Bool := (lookup fs p).isSome

/-- Recursive directory creation (`fs.mkdirp`, `fs.ensureDir`,
`fs.mkdirSync(p, { recursive: true })`): fails when a component is a file. -/
def mkdirp : Node → Path → Except String Node
  | .dir es, [] => .ok (.dir es)
  | .file _, [] => .error "EEXIST"
  | .file _, _ :: _ => .error "ENOTDIR"
  | .dir es, c :: rest =>
    match mkdirp ((es.lookup c).getD (.dir [])) rest with
    | .ok n => .ok (.dir (setEntry es c n))
    | .error e => .error e

/-- Rewrites the node at a path whose parent directory exists. -/
def modify (f : Option Node → Except String Node) : Node → Path → Except String Node
  | n, [] => f (some n)
  | .file _, _ :: _ => .error "ENOTDIR"
  | .dir es, [c] =>
    match f (es.lookup c) with
    | .ok n => .ok (.dir (setEntry es c n))
    | .error e => .error e
  | .dir es, c :: d :: rest =>
    match es.lookup c with
    | some n =>
      match modify f n (d :: rest) with
      | .ok m => .ok (.dir (setEntry es c m))
      | .error e => .error e
    | none => .error "ENOENT"

/-- The call `fs.writeFileSync(p, content)`: creates or replaces a file; the parent
directory must exist and `p` must not be a directory. -/
def writeFile (fs : Node) (p : Path) (content : String) : Except String Node :=
  modify (fun old =>
    match old with
    | some (.dir _) => .error "EISDIR"
    | _ => .ok (.file content)) fs p

/-- The call `fs.appendFileSync(p, content)`. -/
def appendFile (fs : Node) (p : Path) (content : String) : Except String Node :=
  modify (fun old =>
    match old with
    | some (.dir _) => .error "EISDIR"
    | some (.file c) => .ok (.file (c ++ content))
    | none => .ok (.file content)) fs p

/-- The call `fs.readFileSync(p, "utf8")`. -/
def readFile (fs : Node) (p : Path) : Except String String :=
  match lookup fs p with
  | some (.file c) => .ok c
  | some (.dir _) => .error "EISDIR"
  | none => .error "ENOENT"

/-- The call `fs.readdirSync(p)`. -/
def readdir (fs : Node) (p : Path) : Except String (List String) :=
  match lookup fs p with
  | some (.dir es) => .ok (es.map Prod.fst)
  | some (.file _) => .error "ENOTDIR"
  | none => .error "ENOENT"

/-- The call `fs.removeSync(p)`: removes the node at `p` with everything below it, and
does nothing when there is none.  At the root it empties the tree. -/
def remove : Node → Path → Node
  | .file c, _ => .file c
  | .dir _, [] => .dir []
  | .dir es, [c] => .dir (es.filter (fun e => e.1 != c))
  | .dir es, c :: d :: rest =>
    match es.lookup c with
    | some n => .dir (setEntry es c (remove n (d :: rest)))
    | none => .dir es

/-- The call `fs.rmdirSync(p)`: removes an empty directory. -/
def rmdir (fs : Node) (p : Path) : Except String Node :=
  match lookup fs p with
  | some (.dir []) => .ok (remove fs p)
  | some (.dir _) => .error "ENOTEMPTY"
  | some (.file _) => .error "ENOTDIR"
  | none => .error "ENOENT"

mutual
/-- The copy of a source node onto what is at the destination (`none`: nothing), with
the default `overwrite: true` of `fs-extra`: files replace files, directories are
merged entry by entry, a file never replaces a directory nor a directory a file.
The result is the destination node and the error that stopped the copy, if any;
what was copied before the error stays. -/
def copyNode : Node → Option Node → Node × Option String
  | .file c, none => (.file c, none)
  | .file c, some (.file _) => (.file c, none)
  | .file _, some (.dir ds) => (.dir ds, some "Cannot overwrite directory with non-directory")
  | .dir es, none => let r := copyEntries es []; (.dir r.1, r.2)
  | .dir _, some (.file c) => (.file c, some "Cannot overwrite non-directory with directory")
  | .dir es, some (.dir ds) => let r := copyEntries es ds; (.dir r.1, r.2)
/-- The entries of a source directory copied in order into the entries of the destination. -/
def copyEntries : List (String × Node) → List (String × Node) →
    List (String × Node) × Option String
  | [], ds => (ds, none)
  | (name, s) :: rest, ds =>
    match copyNode s (ds.lookup name) with
    | (n, none) => copyEntries rest (setEntry ds name n)
    | (n, some e) => (setEntry ds name n, some e)
end

/-- Puts a node at a path whose parent directory exists; the tree is unchanged otherwise. -/
def place (fs : Node) (p : Path) (n : Node) : Node :=
  match modify (fun _ => .ok n) fs p with
  | .ok fs1 => fs1
  | .error _ => fs

/-- The calls `fs.copy(src, dest)` and `fs.copySync(src, dest)` of `fs-extra`: the file
system after the call and the error it throws, if any.  The source is read before the
destination is written, which is what the library does whenever the destination is
not an ancestor of the source. -/
def copy (fs : Node) (src dest : Path) : Node × Option String :=
  match lookup fs src with
  | none => (fs, some "ENOENT")
  | some s =>
    if src = dest then (fs, some "Source and destination must not be the same.")
    else if src.isPrefixOf dest then (fs, some "Cannot copy to a subdirectory of itself")
    else
      match s, lookup fs dest with
      | .dir _, some (.file _) => (fs, some "Cannot overwrite non-directory with directory")
      | .file _, some (.dir _) => (fs, some "Cannot overwrite directory with non-directory")
      | _, _ =>
        match mkdirp fs (dirname dest) with
        | .error e => (fs, some e)
        | .ok fs1 =>
          let r := copyNode s (lookup fs1 dest)
          (place fs1 dest r.1, r.2)

end FS

/-! ## The process: environment, observable events, thrown values -/

/-- What a command does that can be observed besides the file system. -/
inductive Event where
  | log (text : String)
  | error (text : String)
  | prompt (questions : List String)
  | exec (command : String) (cwd : Path)
  deriving DecidableEq, Repr

/-- The state a command runs in: the file system and the events so far, oldest first. -/
structure World where
  fs : Node
  trace : List Event

/-- The call `console.log(text)`; colours are not modelled. -/
def World.log (w : World) (text : String) : World :=
  { w with trace := w.trace ++ [Event.log text] }

/-- The call `console.error(text)`. -/
def World.err (w : World) (text : String) : World :=
  { w with trace := w.trace ++ [Event.error text] }

/-- The call `inquirer.prompt(questions)`, recorded by the names of the questions. -/
def World.ask (w : World) (questions : List String) : World :=
  { w with trace := w.trace ++ [Event.prompt questions] }

/-- The launch of an external process. -/
def World.spawn (w : World) (command : String) (cwd : Path) : World :=
  { w with trace := w.trace ++ [Event.exec command cwd] }

/-- Replaces the file system. -/
def World.setFs (w : World) (fs : Node) : World :=
  { w with fs := fs }

/-- The classes `withErrorHandling` tells apart with `instanceof`. -/
inductive ErrorClass where
  | userCancelled | tty | other
  deriving DecidableEq

/-- A thrown value (or the reason of a rejected promise) with the class of the
object, when it is one.  Error objects carry `message` and `stack`. -/
structure Thrown where
  cls : ErrorClass
  value : JSValue

/-- The test `error instanceof C`; it is false of every value that is not an object. -/
def Thrown.instanceOf (t : Thrown) (c : ErrorClass) : Bool :=
  match t.value with
  | .object _ => t.cls == c
  | _ => false

/-- What the code reads from its platform, its libraries and external programs. -/
structure Env where
  /-- The value of `process.cwd()`. -/
  cwd : Path
  /-- The value of `os.homedir()`. -/
  home : Path
  /-- The value of `os.platform()`. -/
  platform : String
  /-- The value of `__dirname` in `src/commands`. -/
  commandsDir : Path
  /-- The value of `new Date().toISOString()`. -/
  now : String
  /-- The function `JSON.stringify(value, null, spaces)`. -/
  stringify : JSValue → Nat → String
  /-- The function `JSON.parse(text)`; `none` when it throws. -/
  parse : String → Option JSValue
  /-- The stack trace the runtime attaches to an error with the given message. -/
  stack : String → String
  /-- The dynamic `await import("execa")` of `initializeGitRepository`: `none` when the
  module loads, the message of the error the promise rejects with otherwise. -/
  execaImport : Option String
  /-- The call `execa(file, args, { cwd })`: the file system the process leaves and,
  when the promise rejects (non-zero exit, program not found), the error message. -/
  execa : String → List String → Path → Node → Node × Option String
  /-- The call `exec(command, { cwd })` of `child_process`: the file system the
  process leaves and its exit code. -/
  shell : String → Path → Node → Node × Nat

/-- An `Error` created by the runtime or a library, with its message. -/
def Env.mkError (env : Env) (message : String) : Thrown :=
  ⟨.other, .object [("message", .string message), ("stack", .string (env.stack message))]⟩

/-- The member read `v.key`: it throws a `TypeError` on `null` and `undefined`. -/
def member (env : Env) (v : JSValue) (key : String) : Except Thrown JSValue :=
  match v with
  | .undefined =>
    .error (env.mkError ("Cannot read properties of undefined (reading \x27" ++ key ++ "\x27)"))
  | .null =>
    .error (env.mkError ("Cannot read properties of null (reading \x27" ++ key ++ "\x27)"))
  | _ => .ok (v.getProp key)

mutual
/-- The conversion of a value inside a template literal, `String(v)`. -/
def toJSString : JSValue → String
  | .undefined => "undefined"
  | .null => "null"
  | .bool true => "true"
  | .bool false => "false"
  | .number n => toString n
  | .string s => s
  | .array xs => ",".intercalate (elementStrings xs)
  | .object _ => "[object Object]"
/-- The elements of an array as `Array.prototype.join` converts them. -/
def elementStrings : List JSValue → List String
  | [] => []
  | .undefined :: xs => "" :: elementStrings xs
  | .null :: xs => "" :: elementStrings xs
  | x :: xs => toJSString x :: elementStrings xs
end

/-- The method `String.prototype.toLowerCase` on ASCII letters. -/
def toLowerCase (s : String) : String := String.mk (s.toList.map Char.toLower)

/-- The own enumerable properties a spread `...v` copies. -/
def spreadProps : JSValue → List (String × JSValue)
  | .object kvs => kvs
  | .array xs => xs.enum.map (fun ix => (toString ix.1, ix.2))
  | .string s => s.toList.enum.map (fun ix => (toString ix.1, .string (String.mk [ix.2])))
  | _ => []

/-- The object literal `{ ...a, ...b }`. -/
def spread (a b : JSValue) : JSValue :=
  .object ((spreadProps b).foldl (fun acc kv => JSValue.setProp acc kv.1 kv.2)
    ((spreadProps a).foldl (fun acc kv => JSValue.setProp acc kv.1 kv.2) []))

/-- The calls `fs.readJSON(p)` and `fs.readJsonSync(p)`. -/
def readJSON (env : Env) (fs : Node) (p : Path) : Except Thrown JSValue :=
  match FS.readFile fs p with
  | .error e => .error (env.mkError e)
  | .ok text =>
    match env.parse text with
    | some v => .ok v
    | none => .error (env.mkError "Unexpected token in JSON")

/-- The calls `fs.writeJSON(p, value, { spaces })` and `fs.writeJsonSync`: the text is
`JSON.stringify(value, null, spaces)` followed by a newline. -/
def writeJSON (env : Env) (fs : Node) (p : Path) (value : JSValue) (spaces : Nat) :
    Except String Node :=
  FS.writeFile fs p (env.stringify value spaces ++ "\n")

/-! ## `src/utils/osUtils.js` and `src/utils/errorHandler.js` -/

/-- The function `isMacOS()`. -/
def isMacOS (env : Env) : Bool := env.platform == "darwin"

/-- The function `logErrorToFile(error)`; `error.log` is relative to the working directory. -/
def logErrorToFile (env : Env) (error : JSValue) (w : World) : World × Except Thrown Unit :=
  match member env error "stack", member env error "message" with
  | .ok stack, .ok message =>
    let logMessage := "[" ++ env.now ++ "] " ++ toJSString (stack.or message) ++ "\n"
    match FS.appendFile w.fs (pathJoin env.cwd ["error.log"]) logMessage with
    | .ok fs => (w.setFs fs, .ok ())
    | .error e => (w, .error (env.mkError e))
  | .error t, _ => (w, .error t)
  | _, .error t => (w, .error t)

/-- The function `withErrorHandling(command)` applied to the arguments: the state the
returned function leaves and `error` when its promise rejects. -/
def withErrorHandling (env : Env) (command : World → World × Except Thrown Unit)
    (w : World) : World × Except Thrown Unit :=
  match command w with
  | (w1, .ok ()) => (w1, .ok ())
  | (w1, .error t) =>
    if t.instanceOf .userCancelled then
      (w1.log "Operation cancelled by the user.", .ok ())
    else if t.instanceOf .tty then
      (w1.err "Prompt couldn’t be rendered in the current environment.", .ok ())
    else
      match member env t.value "message" with
      | .error t2 => (w1, .error t2)
      | .ok message =>
        logErrorToFile env t.value
          (w1.err ("An unexpected error occurred: " ++ toJSString message))

/-! ## `src/utils/authorUtils.js` -/

/-- The constant `AUTHOR_FILE_PATH`. -/
def AUTHOR_FILE_PATH (env : Env) : Path := pathJoin env.home [".aurora", "author.json"]

/-- The record loaded by the `try` block of `getAuthorInfo`, with the message it prints:
the content of the author file, or `{}` when the file is absent or unreadable. -/
def loadAuthorInfo (env : Env) (w : World) : JSValue × World :=
  if FS.pathExists w.fs (AUTHOR_FILE_PATH env) then
    match readJSON env w.fs (AUTHOR_FILE_PATH env) with
    | .ok v =>
      (v, w.log ("Loaded author information from " ++ pathString (AUTHOR_FILE_PATH env)))
    | .error t =>
      (.object [], w.err ("Error reading author information: "
        ++ toJSString (t.value.getProp "message")))
  else
    (.object [], w.log ("Author information file not found at "
      ++ pathString (AUTHOR_FILE_PATH env)))

/-- The names of the questions `getAuthorInfo` pushes for a loaded record: a field is
asked when `!authorInfo.field` holds. -/
def authorQuestions (authorInfo : JSValue) : List String :=
  (if !(authorInfo.getProp "name").truthy then ["name"] else [])
    ++ (if !(authorInfo.getProp "email").truthy then ["email"] else [])
    ++ (if !(authorInfo.getProp "company").truthy then ["company"] else [])

/-- The block of `getAuthorInfo` that saves the merged record when the user confirms. -/
def saveAuthorInfo (env : Env) (authorInfo : JSValue) (w : World) : World :=
  match FS.mkdirp w.fs (dirname (AUTHOR_FILE_PATH env)) with
  | .error e => w.err ("Error saving author information: " ++ e)
  | .ok fs1 =>
    match writeJSON env fs1 (AUTHOR_FILE_PATH env) authorInfo 2 with
    | .error e => (w.setFs fs1).err ("Error saving author information: " ++ e)
    | .ok fs2 =>
      (w.setFs fs2).log ("Author information saved to " ++ pathString (AUTHOR_FILE_PATH env))

/-- The function `getAuthorInfo()`.  `answers` is what the prompt for the missing fields
settles to and `saveAuthor` what the confirmation prompt settles to, were they issued. -/
def getAuthorInfo (env : Env) (answers saveAuthor : Except Thrown JSValue) (w : World) :
    World × Except Thrown JSValue :=
  let loaded := loadAuthorInfo env w
  match member env loaded.1 "name" with
  | .error t => (loaded.2, .error t)
  | .ok _ =>
    if (authorQuestions loaded.1).length > 0 then
      match answers with
      | .error t => (loaded.2.ask (authorQuestions loaded.1), .error t)
      | .ok a =>
        match saveAuthor with
        | .error t => ((loaded.2.ask (authorQuestions loaded.1)).ask ["save"], .error t)
        | .ok s =>
          if (s.getProp "save").truthy then
            (saveAuthorInfo env (spread loaded.1 a)
              ((loaded.2.ask (authorQuestions loaded.1)).ask ["save"]),
             .ok (spread loaded.1 a))
          else
            ((loaded.2.ask (authorQuestions loaded.1)).ask ["save"], .ok (spread loaded.1 a))
    else (loaded.2, .ok loaded.1)

/-! ## `src/commands/ExtensionCommands.js` -/

/-- The object `extensionData` that `createExtension` prepares from the answers and the
author record. -/
def extensionData (answers authorInfo : JSValue) : JSValue :=
  .object [
    ("name", answers.getProp "name"),
    ("description", answers.getProp "description"),
    ("icon", .string ""),
    ("categories", answers.getProp "categories"),
    ("version", .string "0.0.1"),
    ("type", answers.getProp "type"),
    ("author", .object [
      ("name", authorInfo.getProp "name"),
      ("email", (authorInfo.getProp "email").or (.string "")),
      ("company", (authorInfo.getProp "company").or (.string ""))]),
    ("license", answers.getProp "license"),
    ("editor", answers.getProp "editorVersion"),
    ("homepage", answers.getProp "homepage")]

/-- The names of the questions of `createExtension`. -/
def extensionQuestions : List String :=
  ["type", "name", "description", "categories", "license", "editorVersion", "gitSupport"]

/-- The function `initializeGitRepository(directory)`.  The dynamic import of `execa`
stands before the `try`: when it rejects, the function rejects with that error and no
process is started; a rejection of `execa` itself is caught and printed. -/
def initializeGitRepository (env : Env) (directory : Path) (w : World) :
    World × Except Thrown Unit :=
  match env.execaImport with
  | some message => (w, .error (env.mkError message))
  | none =>
    match env.execa "git" ["init"] directory w.fs with
    | (fs1, none) =>
      (((w.spawn "git init" directory).setFs fs1).log
        "Git repository initialized successfully in the directory.", .ok ())
    | (fs1, some message) =>
      (((w.spawn "git init" directory).setFs fs1).err
        ("Failed to initialize Git repository: " ++ message), .ok ())

/-- The final success message of `createExtension`. -/
def createdMessage (answers : JSValue) (dest : Path) : String :=
  "Extension \"" ++ toJSString (answers.getProp "name") ++ "\" created successfully at "
    ++ pathString dest ++ "."

/-- The last steps of `createExtension`: the optional version-control step and the
final message. -/
def finishExtension (env : Env) (answers : JSValue) (dest : Path) (w : World) :
    World × Except Thrown Unit :=
  if (answers.getProp "gitSupport").truthy then
    match initializeGitRepository env dest w with
    | (w1, .error t) => (w1, .error t)
    | (w1, .ok ()) => (w1.log (createdMessage answers dest), .ok ())
  else
    (w.log (createdMessage answers dest), .ok ())

/-- The constant `templatePath` of `createExtension` for the chosen type. -/
def templatePath (env : Env) (type : String) : Path :=
  pathJoin env.commandsDir ["..", "..", "templates", toLowerCase type]

/-- The steps of `createExtension` after the manifest was written: the template copy,
then `finishExtension`. -/
def copyTemplate (env : Env) (answers : JSValue) (dest : Path) (w : World) :
    World × Except Thrown Unit :=
  match answers.getProp "type" with
  | .string type =>
    let w1 := w.log (pathString (templatePath env type))
    if FS.pathExists w1.fs (templatePath env type) then
      match FS.copy w1.fs (templatePath env type) dest with
      | (fs1, some e) => (w1.setFs fs1, .error (env.mkError e))
      | (fs1, none) =>
        finishExtension env answers dest
          ((w1.setFs fs1).log ("Template for " ++ type ++ " copied successfully."))
    else
      finishExtension env answers dest (w1.log ("Template for " ++ type ++ " not found."))
  | _ => (w, .error (env.mkError "answers.type.toLowerCase is not a function"))

/-- The steps of `createExtension` from the validation of the manifest on, for the
answers of the prompt and the author record the resolver returned. -/
def materialize (env : Env) (answers authorInfo : JSValue) (w : World) :
    World × Except Thrown Unit :=
  match validateExtensionManifest (extensionData answers authorInfo) with
  | (_, .error message) => (w.err ("Validation failed: " ++ message), .ok ())
  | (manifest, .ok ()) =>
    match answers.getProp "name" with
    | .string name =>
      let w1 := w.log "Extension manifest is valid."
      let dest := pathJoin env.cwd [name]
      if FS.pathExists w1.fs dest then
        (w1.log ("Directory \"" ++ name ++ "\" already exists in the current path."), .ok ())
      else
        match FS.mkdirp w1.fs dest with
        | .error e => (w1, .error (env.mkError e))
        | .ok fs1 =>
          match writeJSON env fs1 (pathJoin dest ["extension.json"]) manifest 2 with
          | .error e => (w1.setFs fs1, .error (env.mkError e))
          | .ok fs2 =>
            copyTemplate env answers dest
              ((w1.setFs fs2).log "extension.json file created successfully.")
    | _ =>
      (w.log "Extension manifest is valid.",
       .error (env.mkError "The \"path\" argument must be of type string"))

/-- The command `createExtension`.  `authorAnswers` and `saveAuthor` are what the
prompts of the author resolver settle to, `answers` what the prompt of the command
settles to. -/
def createExtension (env : Env) (authorAnswers saveAuthor answers : Except Thrown JSValue) :
    World → World × Except Thrown Unit :=
  withErrorHandling env fun w =>
    match getAuthorInfo env authorAnswers saveAuthor w with
    | (w1, .error t) => (w1, .error t)
    | (w1, .ok authorInfo) =>
      match answers with
      | .error t => (w1.ask extensionQuestions, .error t)
      | .ok a => materialize env a authorInfo (w1.ask extensionQuestions)

/-- The command `listExtensions`. -/
def listExtensions (env : Env) : World → World × Except Thrown Unit :=
  withErrorHandling env fun w =>
    if !FS.pathExists w.fs (pathJoin env.cwd ["extensions"]) then
      (w.log "No extensions directory found.", .ok ())
    else
      match FS.readdir w.fs (pathJoin env.cwd ["extensions"]) with
      | .error e => (w, .error (env.mkError e))
      | .ok [] => (w.log "No extensions found.", .ok ())
      | .ok extensions =>
        ((extensions.enum.foldl
            (fun acc ix => acc.log (toString (ix.1 + 1) ++ ". " ++ ix.2))
            (w.log "Created extensions:")), .ok ())

/-- The command `removeExtension(extensionId)`. -/
def removeExtension (env : Env) (extensionId : String) : World → World × Except Thrown Unit :=
  withErrorHandling env fun w =>
    let extensionPath := pathJoin (pathJoin env.cwd ["extensions"]) [extensionId]
    if !FS.pathExists w.fs extensionPath then
      (w.log ("Extension with ID " ++ extensionId ++ " does not exist."), .ok ())
    else
      ((w.setFs (FS.remove w.fs extensionPath)).log
        ("Extension with ID " ++ extensionId ++ " has been removed."), .ok ())

/-- The path `installExtension` computes for validated manifest data. -/
def installPath (env : Env) (data : JSValue) : Path :=
  pathJoin env.home
    ["Library", "Application Support", "com.auroraeditor", "Extensions",
     toJSString (data.getProp "name") ++ "."
       ++ (if JSValue.equal (data.getProp "language") (.string "swift") then "AEext"
           else "JSext")]

/-- The command `installExtension`. -/
def installExtension (env : Env) : World → World × Except Thrown Unit :=
  withErrorHandling env fun w =>
    if !isMacOS env then
      (w.log "The install command is only supported on macOS.", .ok ())
    else if !FS.pathExists w.fs (pathJoin env.cwd ["extension.json"]) then
      (w.log "extension.json file not found in the current directory.", .ok ())
    else
      match readJSON env w.fs (pathJoin env.cwd ["extension.json"]) with
      | .error t =>
        (w.log ("Error reading or validating extension.json: "
          ++ toJSString (t.value.getProp "message")), .ok ())
      | .ok parsed =>
        match validateExtensionManifest parsed with
        | (_, .error message) =>
          (w.log ("Error reading or validating extension.json: " ++ message), .ok ())
        | (data, .ok ()) =>
          match FS.mkdirp w.fs (dirname (installPath env data)) with
          | .error e => (w, .error (env.mkError e))
          | .ok fs1 =>
            match FS.copy fs1 env.cwd (installPath env data) with
            | (fs2, some e) => (w.setFs fs2, .error (env.mkError e))
            | (fs2, none) =>
              ((w.setFs fs2).log ("Extension \"" ++ toJSString (data.getProp "name")
                ++ "\" installed successfully to " ++ pathString (installPath env data)
                ++ "."), .ok ())

/-! ## `src/commands/ProjectCommands.js` -/

/-- The function `runCommand(command, cwd)`: resolves when the process exits with
code 0 and rejects otherwise.  The streamed output of the process is not recorded. -/
def runCommand (env : Env) (command : String) (cwd : Path) (w : World) :
    World × Except Thrown Unit :=
  match env.shell command cwd w.fs with
  | (fs1, 0) => ((w.spawn command cwd).setFs fs1, .ok ())
  | (fs1, code) =>
    ((w.spawn command cwd).setFs fs1,
     .error (env.mkError
       ("Command \"" ++ command ++ "\" exited with code " ++ toString code)))

/-- The function `openInEditor(command, projectPath)`: the editor is launched and not
awaited; what its callback prints later is not recorded. -/
def openInEditor (command : String) (projectPath : Path) (w : World) : World :=
  w.spawn (command ++ " \"" ++ pathString projectPath ++ "\"") projectPath

/-- The `package.json` of a Node or JavaScript project. -/
def nodePackageJson (projectPath : Path) : JSValue :=
  .object [
    ("name", .string (basename projectPath)),
    ("version", .string "1.0.0"),
    ("main", .string "index.js"),
    ("scripts", .object [("start", .string "node index.js")]),
    ("dependencies", .object [])]

/-- The `package.json` of a TypeScript project. -/
def typeScriptPackageJson (projectPath : Path) : JSValue :=
  .object [
    ("name", .string (basename projectPath)),
    ("version", .string "1.0.0"),
    ("main", .string "dist/index.js"),
    ("scripts", .object [("build", .string "tsc"), ("start", .string "node dist/index.js")]),
    ("dependencies", .object []),
    ("devDependencies", .object [("typescript", .string "^4.0.0")])]

/-- The `tsconfig.json` of a TypeScript project. -/
def tsconfigJson : JSValue :=
  .object [
    ("compilerOptions", .object [
      ("target", .string "ES6"),
      ("module", .string "commonjs"),
      ("outDir", .string "dist"),
      ("rootDir", .string "src"),
      ("strict", .bool true)])]

/-- The script written to `index.js` and `src/index.ts`. -/
def helloScript (projectPath : Path) : String :=
  "console.log(\x27Hello, " ++ basename projectPath ++ "!\x27);\n"

/-- The functions `initializeNodeProject(projectPath)` and
`initializeJavaScriptProject(projectPath)`, which have the same body. -/
def initializeNodeProject (env : Env) (projectPath : Path) (w : World) :
    World × Except Thrown Unit :=
  match writeJSON env w.fs (pathJoin projectPath ["package.json"])
      (nodePackageJson projectPath) 2 with
  | .error e => (w, .error (env.mkError e))
  | .ok fs1 =>
    match FS.writeFile fs1 (pathJoin projectPath ["index.js"]) (helloScript projectPath) with
    | .error e => (w.setFs fs1, .error (env.mkError e))
    | .ok fs2 =>
      runCommand env "npm install" projectPath
        ((w.setFs fs2).log "Installing dependencies...")

/-- The function `initializeSwiftProject(projectPath)`. -/
def initializeSwiftProject (env : Env) (projectPath : Path) (w : World) :
    World × Except Thrown Unit :=
  runCommand env "swift package init --type executable" projectPath
    (w.log "Initializing Swift package...")

/-- The function `initializeTypeScriptProject(projectPath)`. -/
def initializeTypeScriptProject (env : Env) (projectPath : Path) (w : World) :
    World × Except Thrown Unit :=
  match writeJSON env w.fs (pathJoin projectPath ["package.json"])
      (typeScriptPackageJson projectPath) 2 with
  | .error e => (w, .error (env.mkError e))
  | .ok fs1 =>
    match FS.writeFile fs1 (pathJoin projectPath ["src/index.ts"])
        (helloScript projectPath) with
    | .error e => (w.setFs fs1, .error (env.mkError e))
    | .ok fs2 =>
      match writeJSON env fs2 (pathJoin projectPath ["tsconfig.json"]) tsconfigJson 2 with
      | .error e => (w.setFs fs2, .error (env.mkError e))
      | .ok fs3 =>
        match runCommand env "npm install" projectPath
            ((w.setFs fs3).log "Installing dependencies...") with
        | (w4, .error t) => (w4, .error t)
        | (w4, .ok ()) =>
          runCommand env "npm run build" projectPath (w4.log "Building project...")

/-- The names of the questions of `createProject`. -/
def projectQuestions : List String := ["projectName", "projectType", "directory"]

/-- The `switch` of `createProject` on the project type, with what follows it. -/
def initializeProject (env : Env) (projectName : String) (projectType : JSValue)
    (projectPath : Path) (w : World) : World × Except Thrown Unit :=
  let finish := fun (r : World × Except Thrown Unit) =>
    match r with
    | (w1, .error t) => (w1, Except.error t)
    | (w1, .ok ()) =>
      (openInEditor "auroraeditor" projectPath
        (w1.log ("Project \"" ++ projectName ++ "\" created successfully at "
          ++ pathString projectPath)), Except.ok ())
  if JSValue.equal projectType (.string "Node") then
    finish (initializeNodeProject env projectPath w)
  else if JSValue.equal projectType (.string "Swift") then
    finish (initializeSwiftProject env projectPath w)
  else if JSValue.equal projectType (.string "TypeScript") then
    finish (initializeTypeScriptProject env projectPath w)
  else if JSValue.equal projectType (.string "JavaScript") then
    finish (initializeNodeProject env projectPath w)
  else
    match FS.rmdir (w.log "Unsupported project type.").fs projectPath with
    | .ok fs1 => ((w.log "Unsupported project type.").setFs fs1, .ok ())
    | .error e => (w.log "Unsupported project type.", .error (env.mkError e))

/-- The command `createProject`; `answers` is what its prompt settles to.  The
directory the user enters is resolved against the working directory. -/
def createProject (env : Env) (answers : Except Thrown JSValue) :
    World → World × Except Thrown Unit :=
  withErrorHandling env fun w =>
    if !isMacOS env then
      (w.log "The create project command is only supported on macOS.", .ok ())
    else
      match answers with
      | .error t => (w.ask projectQuestions, .error t)
      | .ok a =>
        match a.getProp "directory", a.getProp "projectName" with
        | .string directory, .string projectName =>
          let projectPath := pathJoin (resolvePath env.cwd directory) [projectName]
          if FS.pathExists w.fs projectPath then
            ((w.ask projectQuestions).log ("A directory named \"" ++ projectName
              ++ "\" already exists in the specified location."), .ok ())
          else
            match FS.mkdirp w.fs projectPath with
            | .error e => (w.ask projectQuestions, .error (env.mkError e))
            | .ok fs1 =>
              initializeProject env projectName (a.getProp "projectType") projectPath
                (((w.ask projectQuestions).setFs fs1).log
                  ("Creating " ++ toJSString (a.getProp "projectType") ++ " project \""
                    ++ projectName ++ "\" in " ++ directory ++ "..."))
        | _, _ =>
          (w.ask projectQuestions,
           .error (env.mkError "The \"path\" argument must be of type string"))

/-- The names of the questions of `deleteProject`. -/
def deleteQuestions : List String := ["projectName", "confirmDelete"]

/-- The command `deleteProject`; `answers` is what its prompt settles to. -/
def deleteProject (env : Env) (answers : Except Thrown JSValue) :
    World → World × Except Thrown Unit :=
  withErrorHandling env fun w =>
    if !isMacOS env then
      (w.log "The delete project command is only supported on macOS.", .ok ())
    else
      match answers with
      | .error t => (w.ask deleteQuestions, .error t)
      | .ok a =>
        if !(a.getProp "projectName").truthy then (w.ask deleteQuestions, .ok ())
        else
          match a.getProp "projectName" with
          | .string projectName =>
            if !FS.pathExists w.fs (pathJoin env.cwd [projectName]) then
              ((w.ask deleteQuestions).log
                ("Project \"" ++ projectName ++ "\" does not exist."), .ok ())
            else
              (((w.ask deleteQuestions).setFs
                  (FS.remove w.fs (pathJoin env.cwd [projectName]))).log
                ("Project \"" ++ projectName ++ "\" has been deleted."), .ok ())
          | _ =>
            (w.ask deleteQuestions,
             .error (env.mkError "The \"path\" argument must be of type string"))

/-! ## Sample inputs -/

/-- The answers of the first end-to-end scenario of the specification. -/
def scenarioAnswers : JSValue :=
  .object [
    ("type", .string "javascript"),
    ("name", .string "demo"),
    ("description", .string "d"),
    ("categories", .array [.string "Snippets"]),
    ("license", .string "MIT"),
    ("editorVersion", .array [.string "1.0.0"]),
    ("gitSupport", .bool false)]

/-- The author record `{ name: "A" }` of the first end-to-end scenario. -/
def scenarioAuthor : JSValue := .object [("name", .string "A")]

/-- An author record with an email address. -/
def emailAuthor : JSValue :=
  .object [("name", .string "A"), ("email", .string "a@example.org"),
    ("website", .string "https://example.org")]

/-- An author record saved after the user skipped the optional email. -/
def emptyEmailAuthor : JSValue :=
  .object [("name", .string "A"), ("email", .string ""), ("company", .string "C")]

/-- An author record with the three fields filled in and a website. -/
def fullAuthor : JSValue :=
  .object [("name", .string "A"), ("email", .string "a@example.org"),
    ("company", .string "C"), ("website", .string "https://example.org")]

/-- A manifest of type `swift` that validates, as `createExtension` writes it. -/
def swiftManifest : JSValue :=
  .object (JSValue.setProp sampleManifest "type" (.string "swift"))

/-- A sample environment: macOS, working directory `/work`, home `/home/u`, the tool
installed in `/tool`; the module `execa` loads, external programs succeed and leave
the file system alone. -/
def sampleEnv : Env where
  cwd := ["work"]
  home := ["home", "u"]
  platform := "darwin"
  commandsDir := ["tool", "src", "commands"]
  now := "2024-01-01T00:00:00.000Z"
  stringify := fun v _ => toJSString (v.getProp "name")
  parse := fun text =>
    if text = "swift" then some swiftManifest
    else if text = "empty email" then some emptyEmailAuthor
    else if text = "full" then some fullAuthor
    else none
  stack := fun message => "Error: " ++ message
  execaImport := none
  execa := fun _ _ _ fs => (fs, none)
  shell := fun _ _ fs => (fs, 0)

/-- A file system with an empty working directory and a JavaScript template that
ships its own `extension.json`. -/
def sampleFs : Node :=
  .dir [
    ("work", .dir []),
    ("home", .dir [("u", .dir [])]),
    ("tool", .dir [("templates", .dir [("javascript", .dir [
      ("extension.json", .file "template"),
      ("index.js", .file "main")])])])]

/-- A world with the sample file system and no event yet. -/
def sampleWorld : World := ⟨sampleFs, []⟩

/-- What the author resolver can hold in `email` or `company`: nothing, a string
(possibly empty, as typed at the prompt), or a truthy value loaded from the file. -/
def IsResolvedField (v : JSValue) : Prop :=
  v = .undefined ∨ IsString v ∨ v.truthy = true

/-- What the author prompt settles to when the user types a name and skips the rest. -/
def typedAuthor : JSValue :=
  .object [("name", .string "A"), ("email", .string ""), ("company", .string "")]

/-- What the author prompt settles to when the user also types an email address. -/
def typedAuthorWithEmail : JSValue :=
  .object [("name", .string "A"), ("email", .string "a@example.org"),
    ("company", .string "")]

/-- The confirmation prompt answered with no. -/
def declined : JSValue := .object [("save", .bool false)]

/-- The confirmation prompt answered with yes. -/
def confirmed : JSValue := .object [("save", .bool true)]

/-- The sample world with `/work/demo` already present. -/
def occupiedWorld : World :=
  ⟨.dir [("work", .dir [("demo", .dir [("keep.txt", .file "kept")])]),
         ("home", .dir [("u", .dir [])])], []⟩

/-- A world whose JavaScript template has no `extension.json` of its own. -/
def plainTemplateWorld : World :=
  ⟨.dir [
    ("work", .dir []),
    ("home", .dir [("u", .dir [])]),
    ("tool", .dir [("templates", .dir [("javascript", .dir [
      ("index.js", .file "main")])])])], []⟩

/-- The sample environment with a `git` that fails. -/
def failingGitEnv : Env :=
  { sampleEnv with execa := fun _ _ _ fs => (fs, some "Command failed with ENOENT: git init") }

/-- Answers of the first scenario with `gitSupport` switched on. -/
def gitAnswers : JSValue :=
  .object (JSValue.setProp (spreadProps scenarioAnswers) "gitSupport" (.bool true))

/-- A world whose working directory holds the `extension.json` of a swift extension. -/
def installWorld : World :=
  ⟨.dir [
    ("work", .dir [("extension.json", .file "swift"), ("main.swift", .file "code")]),
    ("home", .dir [("u", .dir [])])], []⟩

/-- A world whose author file holds a record with an empty email. -/
def emptyEmailWorld : World :=
  ⟨.dir [
    ("work", .dir []),
    ("home", .dir [("u", .dir [(".aurora", .dir [("author.json", .file "empty email")])])])],
   []⟩

/-- A world whose author file holds a record with all three fields. -/
def fullAuthorWorld : World :=
  ⟨.dir [
    ("work", .dir []),
    ("home", .dir [("u", .dir [(".aurora", .dir [("author.json", .file "full")])])])],
   []⟩

/-- A world in which `error.log` of the working directory is a directory. -/
def logDirWorld : World :=
  ⟨.dir [("work", .dir [("error.log", .dir [])]), ("home", .dir [("u", .dir [])])], []⟩

/-- Whether a path lies at or below another. -/
def isBelow (root p : Path) : Prop := root <+: p

/-- The answers that make `createProject` set up a TypeScript project `/work/app`. -/
def typeScriptProjectAnswers : JSValue :=
  .object [("projectName", .string "app"), ("projectType", .string "TypeScript"),
    ("directory", .string "/work")]

/-- What `fs.statSync(p)` and a read of the file tell about a path: `none` when nothing
is there, `some none` for a directory, `some (some text)` for a file with its text. -/
def FS.stat (fs : Node) (p : Path) : Option (Option String) :=
  match FS.lookup fs p with
  | none => none
  | some (.dir _) => some none
  | some (.file c) => some (some c)

/-- The path `extensionPath` of `removeExtension`. -/
def extensionPath (env : Env) (extensionId : String) : Path :=
  pathJoin (pathJoin env.cwd ["extensions"]) [extensionId]

/-- A world with one extension in `/work/extensions` and a file next to that directory. -/
def extensionsWorld : World :=
  ⟨.dir [
    ("work", .dir [
      ("extensions", .dir [("first", .dir [("extension.json", .file "manifest")])]),
      ("notes.txt", .file "notes")]),
    ("home", .dir [("u", .dir [])])], []⟩

/-- The sample environment with a `git` that succeeds and creates the directory `.git`,
holding a `HEAD` file, in the directory it is started in. -/
def workingGitEnv : Env :=
  { sampleEnv with
    execa := fun _ _ cwd fs =>
      (FS.place fs (cwd ++ [".git"]) (.dir [("HEAD", .file "ref: refs/heads/main\n")]), none) }

/-- The sample environment in which the module `execa` cannot be loaded. -/
def missingExecaEnv : Env :=
  { sampleEnv with execaImport := some "Cannot find package \x27execa\x27" }

/-- The state a run of `createExtension` on `plainTemplateWorld` is in when it comes to
the version-control step: the manifest is written and the template copied, the final
message is not yet printed. -/
def gitStepWorld : World :=
  ⟨(createExtension sampleEnv (.ok typedAuthorWithEmail) (.ok declined) (.ok scenarioAnswers)
      plainTemplateWorld).1.fs,
   (createExtension sampleEnv (.ok typedAuthorWithEmail) (.ok declined) (.ok scenarioAnswers)
      plainTemplateWorld).1.trace.dropLast⟩

/-- The sample environment started in `/home`. -/
def homeEnv : Env := { sampleEnv with cwd := ["home"] }

/-- Answers of the first scenario for an extension named `u`. -/
def homeAnswers : JSValue :=
  .object (JSValue.setProp (spreadProps scenarioAnswers) "name" (.string "u"))

/-- A world in which `.aurora` of the home directory is a file, so that the directory
of the author file cannot be created. -/
def blockedAuthorWorld : World :=
  ⟨.dir [("work", .dir []), ("home", .dir [("u", .dir [(".aurora", .file "x")])])], []⟩

/-! ## Theorems -/

theorem charClass_rmatch_iff (members : List Char) (x : List Char) :
    ((members.map RegularExpression.char).foldr (· + ·) 0).rmatch x = true ↔
      ∃ c ∈ members, x = [c] := by
  induction members with
  | nil => simp [RegularExpression.zero_rmatch]
  | cons m ms ih =>
    simp only [List.map_cons, List.foldr_cons, RegularExpression.add_rmatch_iff,
      RegularExpression.char_rmatch_iff, ih, List.mem_cons]
    constructor
    · rintro (h | ⟨c, hc, h⟩)
      · exact ⟨m, Or.inl rfl, h⟩
      · exact ⟨c, Or.inr hc, h⟩
    · rintro ⟨c, (rfl | hc), h⟩
      · exact Or.inl h
      · exact Or.inr ⟨c, hc, h⟩

theorem mem_digits_iff (c : Char) : c ∈ "0123456789".toList ↔ c.isDigit = true := by
  constructor
  · intro h
    simp only [String.toList, List.mem_cons, List.mem_singleton] at h
    rcases h with h | h | h | h | h | h | h | h | h | h | h <;> first | (subst h; rfl) | (simp at h)
  · intro h
    have h1 : 48 ≤ c.toNat ∧ c.toNat ≤ 57 := by
      simp only [Char.isDigit, Bool.and_eq_true, decide_eq_true_eq] at h
      exact ⟨h.1, h.2⟩
    have h2 : c = Char.ofNat c.toNat := (Char.ofNat_toNat c).symm
    obtain ⟨lo, hi⟩ := h1
    rw [h2]
    interval_cases c.toNat <;> decide

theorem rxDigit_rmatch_iff (x : List Char) :
    rxDigit.rmatch x = true ↔ ∃ c, c.isDigit = true ∧ x = [c] := by
  unfold rxDigit charClass
  rw [charClass_rmatch_iff]
  constructor
  · rintro ⟨c, hc, h⟩; exact ⟨c, (mem_digits_iff c).mp hc, h⟩
  · rintro ⟨c, hc, h⟩; exact ⟨c, (mem_digits_iff c).mpr hc, h⟩

theorem rxPlus_rxDigit_rmatch_iff (x : List Char) :
    (rxPlus rxDigit).rmatch x = true ↔ IsDigits x := by
  unfold rxPlus IsDigits
  rw [RegularExpression.mul_rmatch_iff]
  constructor
  · rintro ⟨t, u, rfl, ht, hu⟩
    obtain ⟨c, hc, rfl⟩ := (rxDigit_rmatch_iff t).mp ht
    obtain ⟨S, rfl, hS⟩ := (RegularExpression.star_rmatch_iff _ _).mp hu
    refine ⟨by simp, ?_⟩
    intro d hd
    simp only [List.singleton_append, List.mem_cons, List.mem_flatten] at hd
    rcases hd with rfl | ⟨l, hl, hdl⟩
    · exact hc
    · obtain ⟨e, he, rfl⟩ := (rxDigit_rmatch_iff l).mp (hS l hl).2
      simp only [List.mem_singleton] at hdl
      subst hdl; exact he
  · rintro ⟨hne, hall⟩
    cases x with
    | nil => exact absurd rfl hne
    | cons c rest =>
      refine ⟨[c], rest, rfl, (rxDigit_rmatch_iff _).mpr ⟨c, hall c (List.mem_cons_self _ _), rfl⟩, ?_⟩
      rw [RegularExpression.star_rmatch_iff]
      refine ⟨rest.map (fun d => [d]), ?_, ?_⟩
      · clear hall hne
        induction rest with
        | nil => rfl
        | cons d ds ih => simpa [List.flatten] using ih
      · intro t ht
        simp only [List.mem_map] at ht
        obtain ⟨d, hd, rfl⟩ := ht
        exact ⟨by simp, (rxDigit_rmatch_iff _).mpr ⟨d, hall d (List.mem_cons_of_mem _ hd), rfl⟩⟩

theorem versionPattern_test_iff (v : String) : versionPattern.test v = true ↔ IsVersion v := by
  unfold Pattern.test versionPattern IsVersion
  simp only [RegularExpression.mul_rmatch_iff, RegularExpression.char_rmatch_iff,
    rxPlus_rxDigit_rmatch_iff]
  constructor
  · rintro ⟨t, c, hv, ⟨t2, d2, rfl, ⟨t3, b, rfl, ⟨a, d1, rfl, ha, rfl⟩, hb⟩, rfl⟩, hc⟩
    exact ⟨a, b, c, ha, hb, hc, by rw [hv]; simp⟩
  · rintro ⟨a, b, c, ha, hb, hc, hv⟩
    exact ⟨a ++ ['.'] ++ b ++ ['.'], c, by rw [hv]; simp,
      ⟨a ++ ['.'] ++ b, ['.'], rfl, ⟨a ++ ['.'], b, rfl, ⟨a, ['.'], rfl, ha, rfl⟩, hb⟩, rfl⟩, hc⟩

theorem string_length_eq_zero (s : String) : s.length = 0 ↔ s = "" := by
  constructor
  · intro h
    cases s with
    | mk l =>
      have : l = [] := List.length_eq_zero.mp h
      subst this; rfl
  · rintro rfl; rfl

theorem errorsOf_nonEmptyString (p : String) (v : JSValue) :
    Ajv.errorsOf nonEmptyStringSchema p v = [] ↔ ∃ s, v = .string s ∧ s ≠ "" := by
  cases v <;>
    simp [nonEmptyStringSchema, Ajv.errorsOf, Ajv.upFrontType, Ajv.hasRulesForType,
      Ajv.enumErrors, Ajv.minLengthErrors, Ajv.patternErrors, Ajv.formatErrors,
      Ajv.groupTypeError, string_length_eq_zero]

theorem errorsOf_string (p : String) (v : JSValue) :
    Ajv.errorsOf stringSchema p v = [] ↔ ∃ s, v = .string s := by
  cases v <;>
    simp [stringSchema, Ajv.errorsOf, Ajv.upFrontType, Ajv.hasRulesForType,
      Ajv.enumErrors, Ajv.checkDataType]

theorem errorsOf_version (p : String) (v : JSValue) :
    Ajv.errorsOf versionSchema p v = [] ↔ ∃ s, v = .string s ∧ versionPattern.test s = true := by
  cases v <;>
    simp [versionSchema, Ajv.errorsOf, Ajv.upFrontType, Ajv.hasRulesForType,
      Ajv.enumErrors, Ajv.minLengthErrors, Ajv.patternErrors, Ajv.formatErrors,
      Ajv.groupTypeError]

theorem isUndefined_iff (v : JSValue) : v.isUndefined = true ↔ v = .undefined := by
  cases v <;> simp [JSValue.isUndefined]

theorem isUndefined_eq_false_iff (v : JSValue) : v.isUndefined = false ↔ v ≠ .undefined := by
  cases v <;> simp [JSValue.isUndefined]

theorem errorsOf_email (p : String) (v : JSValue) :
    Ajv.errorsOf emailSchema p v = [] ↔
      ∃ e, v = .string e ∧ IsEmailAddress e := by
  cases v <;>
    simp [emailSchema, Ajv.errorsOf, Ajv.upFrontType, Ajv.hasRulesForType,
      Ajv.enumErrors, Ajv.minLengthErrors, Ajv.patternErrors, Ajv.formatErrors,
      Ajv.groupTypeError, IsEmailAddress]

theorem errorsOf_type (p : String) (v : JSValue) :
    Ajv.errorsOf typeSchema p v = [] ↔ IsExtensionType v := by
  cases v <;>
    simp [typeSchema, Ajv.errorsOf, Ajv.upFrontType, Ajv.hasRulesForType, Ajv.checkDataType,
      Ajv.enumErrors, JSValue.equal, IsExtensionType]
  tauto

theorem itemsErrors_eq_nil (s : Schema) (p : String) (xs : List JSValue) (i : Nat)
    (P : JSValue → Prop) (h : ∀ q v, Ajv.errorsOf s q v = [] ↔ P v) :
    Ajv.itemsErrors (some s) p i xs = [] ↔ ∀ x ∈ xs, P x := by
  induction xs generalizing i with
  | nil => simp [Ajv.itemsErrors]
  | cons x xs ih =>
    have ih2 := ih (i + 1)
    simp only [Ajv.itemsErrors, List.enumFrom_cons, List.flatMap_cons, List.append_eq_nil,
      List.mem_cons, forall_eq_or_imp, h] at ih2 ⊢
    rw [ih2]

theorem errorsOf_array (s : Schema) (p : String) (v : JSValue)
    (P : JSValue → Prop) (h : ∀ q w, Ajv.errorsOf s q w = [] ↔ P w) :
    Ajv.errorsOf (nonEmptyArraySchema s) p v = [] ↔
      IsNonEmptyArrayOf P v := by
  cases v with
  | array xs =>
    have hi := itemsErrors_eq_nil s p xs 0 P h
    have hu : Ajv.errorsOf (nonEmptyArraySchema s) p (.array xs)
        = Ajv.minItemsErrors { type := some .array, minItems := some 1 } p xs
            ++ Ajv.itemsErrors (some s) p 0 xs := by
      simp [nonEmptyArraySchema, Ajv.errorsOf, Ajv.upFrontType, Ajv.hasRulesForType,
        Ajv.enumErrors]
    rw [hu, List.append_eq_nil, hi]
    cases xs <;> simp [Ajv.minItemsErrors, IsNonEmptyArrayOf]
  | _ =>
    simp [nonEmptyArraySchema, Ajv.errorsOf, Ajv.upFrontType, Ajv.hasRulesForType,
      Ajv.enumErrors, Ajv.groupTypeError, IsNonEmptyArrayOf]
theorem map_eq_nil_of_filter {α β : Type} (l : List α) (q : α → Bool) (f : α → β) :
    (l.filter q).map f = [] ↔ ∀ a ∈ l, q a = false := by
  simp [List.filter_eq_nil_iff]

theorem errorsOf_author_object (p : String) (kvs : List (String × JSValue)) :
    Ajv.errorsOf authorSchema p (.object kvs)
      = Ajv.requiredErrors authorSchema.kw p kvs
        ++ Ajv.additionalErrors authorSchema.kw authorSchema.properties p kvs
        ++ ((if (JSValue.lookupProp kvs "name").isUndefined then []
             else Ajv.errorsOf nonEmptyStringSchema (p ++ "/" ++ Ajv.escapeJsonPointer "name")
               (JSValue.lookupProp kvs "name"))
          ++ ((if (JSValue.lookupProp kvs "email").isUndefined then []
             else Ajv.errorsOf emailSchema (p ++ "/" ++ Ajv.escapeJsonPointer "email")
               (JSValue.lookupProp kvs "email"))
          ++ ((if (JSValue.lookupProp kvs "company").isUndefined then []
             else Ajv.errorsOf stringSchema (p ++ "/" ++ Ajv.escapeJsonPointer "company")
               (JSValue.lookupProp kvs "company")) ++ []))) := by
  simp [authorSchema, Schema.kw, Schema.properties, Ajv.errorsOf, Ajv.upFrontType,
    Ajv.hasRulesForType, Ajv.enumErrors, Ajv.propertiesErrors, Ajv.propertyListErrors]

theorem errorsOf_author (p : String) (v : JSValue) :
    Ajv.errorsOf authorSchema p v = [] ↔ IsAuthor v := by
  cases v with
  | object kvs =>
    rw [errorsOf_author_object]
    simp only [List.append_eq_nil, Ajv.requiredErrors, Ajv.additionalErrors, Ajv.declared,
      map_eq_nil_of_filter, IsAuthor, authorSchema, Schema.kw, Schema.properties]
    constructor
    · rintro ⟨⟨hreq, hadd⟩, hn, he, hc, -⟩
      have hname : (JSValue.lookupProp kvs "name").isUndefined = false := by
        simpa using hreq
      rw [hname] at hn
      refine ⟨kvs, rfl, (errorsOf_nonEmptyString _ _).mp (by simpa using hn), ?_, ?_, ?_⟩
      · by_cases hu : (JSValue.lookupProp kvs "email").isUndefined = true
        · exact Or.inl ((isUndefined_iff _).mp hu)
        · simp only [hu] at he
          exact Or.inr ((errorsOf_email _ _).mp (by simpa using he))
      · by_cases hu : (JSValue.lookupProp kvs "company").isUndefined = true
        · exact Or.inl ((isUndefined_iff _).mp hu)
        · simp only [hu] at hc
          exact Or.inr ((errorsOf_string _ _).mp (by simpa using hc))
      · intro k hk
        have := hadd k hk
        simp at this
        tauto
    · rintro ⟨kvs2, h, hn, he, hc, hk⟩
      cases h
      have hname : (JSValue.lookupProp kvs "name").isUndefined = false := by
        obtain ⟨s, hs, -⟩ := hn
        rw [hs]; rfl
      refine ⟨⟨by simpa using hname, ?_⟩, ?_, ?_, ?_, trivial⟩
      · intro k hk'
        have := hk k hk'
        simp
        tauto
      · rw [hname]; simpa using (errorsOf_nonEmptyString _ _).mpr hn
      · rcases he with he | he
        · rw [he]; rfl
        · have hu : (JSValue.lookupProp kvs "email").isUndefined = false := by
            obtain ⟨s, hs, -⟩ := he
            rw [hs]; rfl
          rw [hu]; simpa using (errorsOf_email _ _).mpr he
      · rcases hc with hc | hc
        · rw [hc]; rfl
        · have hu : (JSValue.lookupProp kvs "company").isUndefined = false := by
            obtain ⟨s, hs⟩ := hc
            rw [hs]; rfl
          rw [hu]; simpa using (errorsOf_string _ _).mpr hc
  | _ =>
    simp [authorSchema, Ajv.errorsOf, Ajv.upFrontType, Ajv.hasRulesForType, Ajv.enumErrors,
      Ajv.groupTypeError, IsAuthor]
theorem lookupProp_cons (k key : String) (w : JSValue) (rest : List (String × JSValue)) :
    JSValue.lookupProp ((k, w) :: rest) key
      = if key = k then w else JSValue.lookupProp rest key := by
  unfold JSValue.lookupProp
  by_cases h : key = k
  · subst h; simp [List.lookup]
  · have : (key == k) = false := by simpa using h
    simp [List.lookup, this, h]

theorem setProp_lookupProp_self (kvs : List (String × JSValue)) (key : String)
    (h : (JSValue.lookupProp kvs key).isUndefined = false) :
    JSValue.setProp kvs key (JSValue.lookupProp kvs key) = kvs := by
  induction kvs with
  | nil => simp [JSValue.lookupProp, JSValue.isUndefined] at h
  | cons kv rest ih =>
    obtain ⟨k, w⟩ := kv
    rw [lookupProp_cons] at h ⊢
    by_cases hk : key = k
    · subst hk; simp [JSValue.setProp]
    · have hk2 : ¬ k = key := fun e => hk e.symm
      simp only [hk, if_false] at h ⊢
      simp [JSValue.setProp, hk2, ih h]

theorem propsWithDefaults_id (ps : List (String × Schema))
    (h : ∀ ks ∈ ps, ∀ v, Ajv.withDefaults ks.2 v = v) (kvs : List (String × JSValue)) :
    Ajv.propsWithDefaults ps kvs = kvs := by
  induction ps generalizing kvs with
  | nil => simp [Ajv.propsWithDefaults]
  | cons ks rest ih =>
    obtain ⟨k, s⟩ := ks
    have hrest : ∀ ks ∈ rest, ∀ v, Ajv.withDefaults ks.2 v = v :=
      fun ks hks => h ks (List.mem_cons_of_mem _ hks)
    have hs : ∀ v, Ajv.withDefaults s v = v := h (k, s) (List.mem_cons_self _ _)
    rw [Ajv.propsWithDefaults]
    by_cases hu : (JSValue.lookupProp kvs k).isUndefined = true
    · simp [hu, ih hrest]
    · have hu2 : (JSValue.lookupProp kvs k).isUndefined = false := by simpa using hu
      simp [hu2, hs, setProp_lookupProp_self kvs k hu2, ih hrest]

theorem withDefaults_leaf (kw : Keywords) (v : JSValue) :
    Ajv.withDefaults (.mk kw none none) v = v := by
  cases v <;> simp [Ajv.withDefaults]

theorem withDefaults_array_of_leaf (kw kw2 : Keywords) (v : JSValue) :
    Ajv.withDefaults (.mk kw (some (.mk kw2 none none)) none) v = v := by
  cases v with
  | array xs =>
    simp only [Ajv.withDefaults]
    congr 1
    induction xs with
    | nil => rfl
    | cons x xs ih => simp [withDefaults_leaf, ih]
  | _ => simp [Ajv.withDefaults]

theorem withDefaults_author (v : JSValue) : Ajv.withDefaults authorSchema v = v := by
  cases v with
  | object kvs =>
    simp only [authorSchema, Ajv.withDefaults]
    congr 1
    have ha : Ajv.assignDefaults [("name", nonEmptyStringSchema), ("email", emailSchema),
        ("company", stringSchema)] kvs = kvs := by
      simp [Ajv.assignDefaults, nonEmptyStringSchema, emailSchema, stringSchema, Schema.kw]
    rw [ha]
    apply propsWithDefaults_id
    intro ks hks v
    simp only [List.mem_cons, List.mem_singleton, List.not_mem_nil, or_false] at hks
    rcases hks with rfl | rfl | rfl
    · exact withDefaults_leaf _ v
    · exact withDefaults_leaf _ v
    · exact withDefaults_leaf _ v
  | _ => simp [authorSchema, Ajv.withDefaults]

theorem withDefaults_schema (v : JSValue) : Ajv.withDefaults schema v = v := by
  cases v with
  | object kvs =>
    simp only [schema, Ajv.withDefaults]
    congr 1
    have ha : Ajv.assignDefaults [("name", nonEmptyStringSchema),
        ("description", nonEmptyStringSchema), ("icon", stringSchema),
        ("categories", nonEmptyArraySchema stringSchema), ("version", versionSchema),
        ("type", typeSchema), ("author", authorSchema), ("license", nonEmptyStringSchema),
        ("editor", nonEmptyArraySchema versionSchema)] kvs = kvs := by
      simp [Ajv.assignDefaults, nonEmptyStringSchema, emailSchema, stringSchema, Schema.kw,
        nonEmptyArraySchema, versionSchema, typeSchema, authorSchema]
    rw [ha]
    apply propsWithDefaults_id
    intro ks hks v
    simp only [List.mem_cons, List.mem_singleton, List.not_mem_nil, or_false] at hks
    rcases hks with rfl | rfl | rfl | rfl | rfl | rfl | rfl | rfl | rfl
    · exact withDefaults_leaf _ v
    · exact withDefaults_leaf _ v
    · exact withDefaults_leaf _ v
    · exact withDefaults_array_of_leaf _ _ v
    · exact withDefaults_leaf _ v
    · exact withDefaults_leaf _ v
    · exact withDefaults_author v
    · exact withDefaults_leaf _ v
    · exact withDefaults_array_of_leaf _ _ v
  | _ => simp [schema, Ajv.withDefaults]

theorem validate_ajv_schema (m : JSValue) :
    Ajv.validate ajv schema m = (m, Ajv.errorsOf schema "" m) := by
  simp [Ajv.validate, ajv, withDefaults_schema]

theorem validateExtensionManifest_eq (m : JSValue) :
    validateExtensionManifest m
      = (m, if (Ajv.errorsOf schema "" m).isEmpty then .ok ()
            else .error (errorText (Ajv.errorsOf schema "" m))) := by
  unfold validateExtensionManifest
  rw [validate_ajv_schema]
  by_cases h : (Ajv.errorsOf schema "" m).isEmpty = true <;> simp [h]

theorem validateExtensionManifest_ok (m : JSValue) :
    (validateExtensionManifest m).2 = .ok () ↔ Ajv.errorsOf schema "" m = [] := by
  rw [validateExtensionManifest_eq]
  by_cases h : (Ajv.errorsOf schema "" m).isEmpty = true
  · simp only [h, if_true, true_iff]
    exact List.isEmpty_iff.mp h
  · simp only [h]
    constructor
    · intro h2; simp at h2
    · intro h2; rw [h2] at h; simp at h

/-- The property list of `schema`. -/
theorem schema_properties : schema.properties = some [("name", nonEmptyStringSchema),
    ("description", nonEmptyStringSchema), ("icon", stringSchema),
    ("categories", nonEmptyArraySchema stringSchema), ("version", versionSchema),
    ("type", typeSchema), ("author", authorSchema), ("license", nonEmptyStringSchema),
    ("editor", nonEmptyArraySchema versionSchema)] := rfl

theorem errorsOf_schema_object (kvs : List (String × JSValue)) :
    Ajv.errorsOf schema "" (.object kvs)
      = Ajv.requiredErrors schema.kw "" kvs
        ++ Ajv.propertiesErrors schema.properties "" kvs := by
  simp [schema, Schema.kw, Schema.properties, Ajv.errorsOf, Ajv.upFrontType,
    Ajv.hasRulesForType, Ajv.enumErrors, Ajv.additionalErrors]

theorem errorsOf_schema_not_object (m : JSValue) (h : ∀ kvs, m ≠ .object kvs) :
    Ajv.errorsOf schema "" m = [⟨"", "type", "must be object"⟩] := by
  cases m with
  | object kvs => exact absurd rfl (h kvs)
  | _ =>
    simp [schema, Ajv.errorsOf, Ajv.upFrontType, Ajv.hasRulesForType, Ajv.enumErrors,
      Ajv.groupTypeError, Ajv.typeError, JSONType.name]

theorem property_ok_iff (s : Schema) (P : JSValue → Prop)
    (h : ∀ q v, Ajv.errorsOf s q v = [] ↔ P v) (hP : ¬ P .undefined) (q : String)
    (v : JSValue) :
    (v.isUndefined = false ∧ (if v.isUndefined = true then [] else Ajv.errorsOf s q v) = [])
      ↔ P v := by
  constructor
  · rintro ⟨hu, he⟩
    rw [hu] at he
    exact (h q v).mp (by simpa using he)
  · intro hp
    have hu : v.isUndefined = false := by
      cases v <;> first | rfl | exact absurd hp hP
    exact ⟨hu, by rw [hu]; simpa using (h q v).mpr hp⟩

theorem errorsOf_versionValue (p : String) (v : JSValue) :
    Ajv.errorsOf versionSchema p v = [] ↔ IsVersionValue v := by
  rw [errorsOf_version]
  unfold IsVersionValue
  constructor
  · rintro ⟨s, hs, ht⟩; exact ⟨s, hs, (versionPattern_test_iff s).mp ht⟩
  · rintro ⟨s, hs, ht⟩; exact ⟨s, hs, (versionPattern_test_iff s).mpr ht⟩

theorem errorsOf_schema_eq_nil (kvs : List (String × JSValue)) :
    Ajv.errorsOf schema "" (.object kvs) = [] ↔ SatisfiesDataModel kvs := by
  rw [errorsOf_schema_object, schema_properties]
  have h1 := fun q => property_ok_iff nonEmptyStringSchema IsNonEmptyString
    errorsOf_nonEmptyString (by rintro ⟨s, hs, -⟩; cases hs) q
  have h2 := fun q => property_ok_iff stringSchema IsString
    errorsOf_string (by rintro ⟨s, hs⟩; cases hs) q
  have h3 := fun q => property_ok_iff (nonEmptyArraySchema stringSchema)
    (IsNonEmptyArrayOf IsString)
    (fun q v => errorsOf_array stringSchema q v IsString errorsOf_string)
    (by rintro ⟨s, hs, -⟩; cases hs) q
  have h4 := fun q => property_ok_iff versionSchema IsVersionValue
    errorsOf_versionValue (by rintro ⟨s, hs, -⟩; cases hs) q
  have h5 := fun q => property_ok_iff typeSchema IsExtensionType
    errorsOf_type (by rintro (h | h | h) <;> cases h) q
  have h6 := fun q => property_ok_iff authorSchema IsAuthor
    errorsOf_author (by rintro ⟨s, hs, -⟩; cases hs) q
  have h7 := fun q => property_ok_iff (nonEmptyArraySchema versionSchema)
    (IsNonEmptyArrayOf IsVersionValue)
    (fun q v => errorsOf_array versionSchema q v IsVersionValue errorsOf_versionValue)
    (by rintro ⟨s, hs, -⟩; cases hs) q
  simp only [List.append_eq_nil, Ajv.requiredErrors, schema, Schema.kw, map_eq_nil_of_filter,
    Ajv.propertiesErrors, Ajv.propertyListErrors, List.mem_cons, List.mem_singleton,
    forall_eq_or_imp, forall_eq, List.not_mem_nil, SatisfiesDataModel]
  rw [← h1 ("" ++ "/" ++ Ajv.escapeJsonPointer "name") (JSValue.lookupProp kvs "name"),
    ← h1 ("" ++ "/" ++ Ajv.escapeJsonPointer "description")
      (JSValue.lookupProp kvs "description"),
    ← h2 ("" ++ "/" ++ Ajv.escapeJsonPointer "icon") (JSValue.lookupProp kvs "icon"),
    ← h3 ("" ++ "/" ++ Ajv.escapeJsonPointer "categories")
      (JSValue.lookupProp kvs "categories"),
    ← h4 ("" ++ "/" ++ Ajv.escapeJsonPointer "version") (JSValue.lookupProp kvs "version"),
    ← h5 ("" ++ "/" ++ Ajv.escapeJsonPointer "type") (JSValue.lookupProp kvs "type"),
    ← h6 ("" ++ "/" ++ Ajv.escapeJsonPointer "author") (JSValue.lookupProp kvs "author"),
    ← h1 ("" ++ "/" ++ Ajv.escapeJsonPointer "license") (JSValue.lookupProp kvs "license"),
    ← h7 ("" ++ "/" ++ Ajv.escapeJsonPointer "editor") (JSValue.lookupProp kvs "editor")]
  tauto

theorem validateExtensionManifest_returns_iff_dataModel_aux (kvs : List (String × JSValue)) :
    (validateExtensionManifest (.object kvs)).2 = .ok () ↔ SatisfiesDataModel kvs := by
  rw [validateExtensionManifest_ok, errorsOf_schema_eq_nil]

/-- C1: `validateExtensionManifest` returns without throwing on a manifest object
exactly when the object satisfies every field constraint of the data model. -/
theorem validateExtensionManifest_returns_iff_dataModel (kvs : List (String × JSValue)) :
    (validateExtensionManifest (.object kvs)).2 = .ok () ↔ SatisfiesDataModel kvs :=
  validateExtensionManifest_returns_iff_dataModel_aux kvs

theorem author_path : "" ++ "/" ++ Ajv.escapeJsonPointer "author" = "/author" := by decide

theorem errorText_append (xs ys : List ErrorObject) :
    errorText (xs ++ ys)
      = ", ".intercalate ((xs.map fun err => err.instancePath ++ " " ++ err.message)
          ++ (ys.map fun err => err.instancePath ++ " " ++ err.message)) := by
  simp [errorText]

theorem requiredErrors_schema_entries (kvs : List (String × JSValue)) :
    (Ajv.requiredErrors schema.kw "" kvs).map (fun err => err.instancePath ++ " " ++ err.message)
      = (requiredFields.filter (fun f => (JSValue.lookupProp kvs f).isUndefined)).map
          (fun f => " must have required property \x27" ++ f ++ "\x27") := by
  simp only [Ajv.requiredErrors, schema, Schema.kw, requiredFields, List.map_map]
  apply List.map_congr_left
  intro f _
  show "" ++ " " ++ ("must have required property \x27" ++ f ++ "\x27") = _
  rw [← String.append_assoc, ← String.append_assoc]
  rfl

theorem author_name_error_mem (kvs a : List (String × JSValue))
    (ha : JSValue.lookupProp kvs "author" = .object a)
    (hn : JSValue.lookupProp a "name" = .undefined) :
    (⟨"/author", "required", "must have required property \x27name\x27"⟩ : ErrorObject)
      ∈ Ajv.propertiesErrors schema.properties "" kvs := by
  rw [schema_properties]
  simp only [Ajv.propertiesErrors, Ajv.propertyListErrors, ha, author_path,
    errorsOf_author_object, List.mem_append]
  right; right; right; right; right; right; left
  simp [JSValue.isUndefined, authorSchema, Schema.kw, Ajv.requiredErrors, hn]

/-- C2: a manifest object lacking required top-level fields, or whose `author` object
lacks `name`, makes `validateExtensionManifest` throw; the thrown message is the
entries joined by `", "`, it starts with one entry for each missing top-level field
(in the order of the schema) and has the entry of `/author` when `author.name` is missing. -/
theorem validateExtensionManifest_reports_every_missing_field
    (kvs : List (String × JSValue))
    (h : (∃ f ∈ requiredFields, JSValue.lookupProp kvs f = .undefined) ∨
      (∃ a, JSValue.lookupProp kvs "author" = .object a ∧
        JSValue.lookupProp a "name" = .undefined)) :
    ∃ rest : List String,
      (validateExtensionManifest (.object kvs)).2
        = .error (", ".intercalate
            ((requiredFields.filter (fun f => (JSValue.lookupProp kvs f).isUndefined)).map
                (fun f => " must have required property \x27" ++ f ++ "\x27")
              ++ rest)) ∧
      (∀ a, JSValue.lookupProp kvs "author" = .object a →
        JSValue.lookupProp a "name" = .undefined →
        "/author must have required property \x27name\x27" ∈ rest) := by
  refine ⟨(Ajv.propertiesErrors schema.properties "" kvs).map
    (fun err => err.instancePath ++ " " ++ err.message), ?_, ?_⟩
  · have hne : (Ajv.errorsOf schema "" (.object kvs)).isEmpty = false := by
      rw [errorsOf_schema_object]
      rcases h with ⟨f, hf, hu⟩ | ⟨a, ha, hn⟩
      · have hmem : f ∈ requiredFields.filter
            (fun f => (JSValue.lookupProp kvs f).isUndefined) := by
          rw [List.mem_filter]
          exact ⟨hf, by rw [hu]; rfl⟩
        have : Ajv.requiredErrors schema.kw "" kvs ≠ [] := by
          intro hnil
          have := requiredErrors_schema_entries kvs
          rw [hnil] at this
          simp only [List.map_nil] at this
          have h2 := List.map_eq_nil_iff.mp this.symm
          rw [h2] at hmem
          exact absurd hmem (List.not_mem_nil _)
        cases hr : Ajv.requiredErrors schema.kw "" kvs with
        | nil => exact absurd hr this
        | cons x xs => rfl
      · have := author_name_error_mem kvs a ha hn
        cases hp : Ajv.propertiesErrors schema.properties "" kvs with
        | nil => rw [hp] at this; exact absurd this (List.not_mem_nil _)
        | cons x xs => simp
    rw [validateExtensionManifest_eq]
    simp only [hne, Bool.false_eq_true, if_false]
    rw [errorsOf_schema_object, errorText_append, requiredErrors_schema_entries]
  · intro a ha hn
    have := author_name_error_mem kvs a ha hn
    exact List.mem_map.mpr ⟨_, this, by decide⟩

/-- Witness of C2: the empty manifest object misses all nine fields. -/
theorem validateExtensionManifest_reports_every_missing_field_witness :
    ∃ rest : List String,
      (validateExtensionManifest (.object [])).2
        = .error (", ".intercalate
            ((requiredFields.filter
                (fun f => (JSValue.lookupProp [] f).isUndefined)).map
                (fun f => " must have required property \x27" ++ f ++ "\x27")
              ++ rest)) ∧
      (∀ a, JSValue.lookupProp [] "author" = .object a →
        JSValue.lookupProp a "name" = .undefined →
        "/author must have required property \x27name\x27" ∈ rest) :=
  validateExtensionManifest_reports_every_missing_field []
    (Or.inl ⟨"name", by decide, rfl⟩)

theorem lookupProp_setProp_self (kvs : List (String × JSValue)) (key : String) (v : JSValue) :
    JSValue.lookupProp (JSValue.setProp kvs key v) key = v := by
  induction kvs with
  | nil => simp [JSValue.setProp, lookupProp_cons]
  | cons kv rest ih =>
    obtain ⟨k, w⟩ := kv
    by_cases hk : k = key
    · subst hk; simp [JSValue.setProp, lookupProp_cons]
    · have hk2 : ¬ key = k := fun e => hk e.symm
      simp [JSValue.setProp, hk, lookupProp_cons, hk2, ih]

theorem lookupProp_setProp_of_ne (kvs : List (String × JSValue)) (key other : String)
    (v : JSValue) (h : other ≠ key) :
    JSValue.lookupProp (JSValue.setProp kvs key v) other = JSValue.lookupProp kvs other := by
  induction kvs with
  | nil => rw [JSValue.setProp, lookupProp_cons, if_neg h]
  | cons kv rest ih =>
    obtain ⟨k, w⟩ := kv
    by_cases hk : k = key
    · subst hk; simp [JSValue.setProp, lookupProp_cons, h]
    · simp only [JSValue.setProp, hk, if_false, lookupProp_cons, ih]

theorem mem_keys_setProp (kvs : List (String × JSValue)) (key : String) (v : JSValue) :
    key ∈ JSValue.keys (JSValue.setProp kvs key v) := by
  induction kvs with
  | nil => simp [JSValue.setProp, JSValue.keys]
  | cons kv rest ih =>
    obtain ⟨k, w⟩ := kv
    by_cases hk : k = key
    · subst hk; simp [JSValue.setProp, JSValue.keys]
    · simp only [JSValue.setProp, hk, if_false, JSValue.keys, List.map_cons, List.mem_cons]
      exact Or.inr ih

theorem deleteProp_setProp_of_not_mem (kvs : List (String × JSValue)) (key : String)
    (v : JSValue) (h : key ∉ JSValue.keys kvs) :
    JSValue.deleteProp (JSValue.setProp kvs key v) key = kvs := by
  induction kvs with
  | nil => simp [JSValue.setProp, JSValue.deleteProp]
  | cons kv rest ih =>
    obtain ⟨k, w⟩ := kv
    simp only [JSValue.keys, List.map_cons, List.mem_cons, not_or] at h
    have hk : ¬ k = key := fun e => h.1 e.symm
    have ih2 := ih h.2
    simp only [JSValue.deleteProp] at ih2 ⊢
    simp [JSValue.setProp, hk, ih2]

theorem satisfiesDataModel_congr (kvs kvs2 : List (String × JSValue))
    (h : ∀ f ∈ requiredFields, JSValue.lookupProp kvs2 f = JSValue.lookupProp kvs f) :
    SatisfiesDataModel kvs2 ↔ SatisfiesDataModel kvs := by
  unfold SatisfiesDataModel
  rw [h "name" (by decide), h "description" (by decide), h "icon" (by decide),
    h "categories" (by decide), h "version" (by decide), h "type" (by decide),
    h "author" (by decide), h "license" (by decide), h "editor" (by decide)]

theorem validateExtensionManifest_throws_iff (m : JSValue) :
    (∃ msg, (validateExtensionManifest m).2 = .error msg)
      ↔ ¬ (validateExtensionManifest m).2 = .ok () := by
  rw [validateExtensionManifest_eq]
  by_cases h : (Ajv.errorsOf schema "" m).isEmpty = true <;> simp [h]

/-- C3: on a manifest that validates, adding to `author` a key other than `name`,
`email` and `company` (with any value) makes `validateExtensionManifest` throw, and
deleting that key again makes it return; setting a top-level key that the schema does
not declare never makes the manifest fail. -/
theorem validateExtensionManifest_unknown_keys (kvs a : List (String × JSValue))
    (hvalid : (validateExtensionManifest (.object kvs)).2 = .ok ())
    (hauthor : JSValue.lookupProp kvs "author" = .object a) :
    (∀ (key : String) (v : JSValue), key ≠ "name" → key ≠ "email" → key ≠ "company" →
      (∃ msg, (validateExtensionManifest
          (.object (JSValue.setProp kvs "author"
            (.object (JSValue.setProp a key v))))).2 = .error msg) ∧
      (validateExtensionManifest
          (.object (JSValue.setProp kvs "author"
            (.object (JSValue.deleteProp (JSValue.setProp a key v) key))))).2 = .ok ()) ∧
    (∀ (key : String) (v : JSValue), key ∉ requiredFields →
      (validateExtensionManifest (.object (JSValue.setProp kvs key v))).2 = .ok ()) := by
  have hdm : SatisfiesDataModel kvs :=
    (validateExtensionManifest_returns_iff_dataModel_aux kvs).mp hvalid
  have hau : IsAuthor (.object a) := by
    have := hdm.2.2.2.2.2.2.1
    rwa [hauthor] at this
  obtain ⟨a2, ha2, -, -, -, hkeys⟩ := hau
  cases ha2
  refine ⟨?_, ?_⟩
  · intro key v h1 h2 h3
    have hnot : key ∉ JSValue.keys a := fun hm => by
      rcases hkeys key hm with h | h | h
      · exact h1 h
      · exact h2 h
      · exact h3 h
    constructor
    · rw [validateExtensionManifest_throws_iff, validateExtensionManifest_returns_iff_dataModel_aux]
      intro hsat
      have hA := hsat.2.2.2.2.2.2.1
      rw [lookupProp_setProp_self] at hA
      obtain ⟨a3, ha3, -, -, -, hk3⟩ := hA
      cases ha3
      rcases hk3 key (mem_keys_setProp a key v) with h | h | h
      · exact h1 h
      · exact h2 h
      · exact h3 h
    · rw [deleteProp_setProp_of_not_mem a key v hnot, ← hauthor,
        setProp_lookupProp_self kvs "author" (by rw [hauthor]; rfl)]
      exact hvalid
  · intro key v hkey
    rw [validateExtensionManifest_returns_iff_dataModel_aux]
    refine (satisfiesDataModel_congr kvs _ ?_).mpr hdm
    intro f hf
    exact lookupProp_setProp_of_ne kvs key f v (fun e => hkey (e ▸ hf))

theorem sampleManifest_valid : (validateExtensionManifest (.object sampleManifest)).2 = .ok () :=
  rfl

/-- Witness of C3 on the sample manifest. -/
theorem validateExtensionManifest_unknown_keys_witness :
    (∀ (key : String) (v : JSValue), key ≠ "name" → key ≠ "email" → key ≠ "company" →
      (∃ msg, (validateExtensionManifest
          (.object (JSValue.setProp sampleManifest "author"
            (.object (JSValue.setProp sampleAuthor key v))))).2 = .error msg) ∧
      (validateExtensionManifest
          (.object (JSValue.setProp sampleManifest "author"
            (.object (JSValue.deleteProp (JSValue.setProp sampleAuthor key v) key))))).2
        = .ok ()) ∧
    (∀ (key : String) (v : JSValue), key ∉ requiredFields →
      (validateExtensionManifest (.object (JSValue.setProp sampleManifest key v))).2
        = .ok ()) :=
  validateExtensionManifest_unknown_keys sampleManifest sampleAuthor rfl rfl

theorem satisfiesDataModel_setVersion (kvs : List (String × JSValue)) (v : JSValue)
    (h : SatisfiesDataModel kvs) :
    SatisfiesDataModel (JSValue.setProp kvs "version" v) ↔ IsVersionValue v := by
  unfold SatisfiesDataModel at h ⊢
  rw [lookupProp_setProp_self,
    lookupProp_setProp_of_ne kvs "version" "name" v (by decide),
    lookupProp_setProp_of_ne kvs "version" "description" v (by decide),
    lookupProp_setProp_of_ne kvs "version" "icon" v (by decide),
    lookupProp_setProp_of_ne kvs "version" "categories" v (by decide),
    lookupProp_setProp_of_ne kvs "version" "type" v (by decide),
    lookupProp_setProp_of_ne kvs "version" "author" v (by decide),
    lookupProp_setProp_of_ne kvs "version" "license" v (by decide),
    lookupProp_setProp_of_ne kvs "version" "editor" v (by decide)]
  tauto

theorem isVersionValue_string (v : String) : IsVersionValue (.string v) ↔ IsVersion v := by
  unfold IsVersionValue
  constructor
  · rintro ⟨s, hs, h⟩; cases hs; exact h
  · intro h; exact ⟨v, rfl, h⟩

/-- C4: on a manifest whose fields validate, replacing `version` by the string `v`
gives a manifest that `validateExtensionManifest` accepts exactly when `v` is three
dot-separated non-empty runs of decimal digits; `"1.0"` and `"v1.0.0"` are rejected
and `"1.0.0"` is accepted. -/
theorem validateExtensionManifest_version (kvs : List (String × JSValue))
    (hvalid : (validateExtensionManifest (.object kvs)).2 = .ok ()) :
    (∀ v : String,
      (validateExtensionManifest (.object (JSValue.setProp kvs "version" (.string v)))).2
        = .ok () ↔ IsVersion v) ∧
    (∃ msg, (validateExtensionManifest
      (.object (JSValue.setProp kvs "version" (.string "1.0")))).2 = .error msg) ∧
    (∃ msg, (validateExtensionManifest
      (.object (JSValue.setProp kvs "version" (.string "v1.0.0")))).2 = .error msg) ∧
    (validateExtensionManifest
      (.object (JSValue.setProp kvs "version" (.string "1.0.0")))).2 = .ok () := by
  have hdm := (validateExtensionManifest_returns_iff_dataModel_aux kvs).mp hvalid
  have key : ∀ v : String,
      (validateExtensionManifest (.object (JSValue.setProp kvs "version" (.string v)))).2
        = .ok () ↔ IsVersion v := by
    intro v
    rw [validateExtensionManifest_returns_iff_dataModel_aux,
      satisfiesDataModel_setVersion kvs _ hdm, isVersionValue_string]
  refine ⟨key, ?_, ?_, ?_⟩
  · rw [validateExtensionManifest_throws_iff, key, ← versionPattern_test_iff]
    decide
  · rw [validateExtensionManifest_throws_iff, key, ← versionPattern_test_iff]
    decide
  · rw [key, ← versionPattern_test_iff]
    decide

/-- Witness of C4 on the sample manifest. -/
theorem validateExtensionManifest_version_witness :
    (∀ v : String,
      (validateExtensionManifest
        (.object (JSValue.setProp sampleManifest "version" (.string v)))).2
        = .ok () ↔ IsVersion v) ∧
    (∃ msg, (validateExtensionManifest
      (.object (JSValue.setProp sampleManifest "version" (.string "1.0")))).2 = .error msg) ∧
    (∃ msg, (validateExtensionManifest
      (.object (JSValue.setProp sampleManifest "version" (.string "v1.0.0")))).2
        = .error msg) ∧
    (validateExtensionManifest
      (.object (JSValue.setProp sampleManifest "version" (.string "1.0.0")))).2 = .ok () :=
  validateExtensionManifest_version sampleManifest rfl

/-- C5: `validateExtensionManifest` leaves the manifest as it was, although the
validator is configured with `useDefaults`, and a second call on the same object
has the same outcome as the first (both return, or both throw the same message). -/
theorem validateExtensionManifest_pure_idempotent (m : JSValue) :
    (validateExtensionManifest m).1 = m ∧
    ajv.useDefaults = true ∧
    validateExtensionManifest (validateExtensionManifest m).1 = validateExtensionManifest m := by
  have h : (validateExtensionManifest m).1 = m := by rw [validateExtensionManifest_eq]
  exact ⟨h, rfl, by rw [h]⟩

theorem not_isEmailAddress_empty : ¬ IsEmailAddress "" := by
  unfold IsEmailAddress
  decide

theorem extensionData_invalid_of_no_email (answers authorInfo : JSValue)
    (h : (authorInfo.getProp "email").truthy = false) :
    ∃ msg, (validateExtensionManifest (extensionData answers authorInfo)).2 = .error msg := by
  rw [validateExtensionManifest_throws_iff]
  unfold extensionData
  rw [validateExtensionManifest_returns_iff_dataModel_aux]
  intro hsat
  have hA := hsat.2.2.2.2.2.2.1
  simp only [lookupProp_cons] at hA
  simp only [JSValue.or, h] at hA
  obtain ⟨kvs, hk, -, he, -, -⟩ := hA
  simp at hk
  subst hk
  simp only [lookupProp_cons] at he
  simp at he
  exact not_isEmailAddress_empty he

theorem scenario_validation :
    validateExtensionManifest (extensionData scenarioAnswers scenarioAuthor)
      = (extensionData scenarioAnswers scenarioAuthor,
         .error "/author/email must match format \"email\"") := by
  rw [validateExtensionManifest_eq]
  rfl

/-- C6: the first end-to-end scenario (author `{ name: "A" }`) does not pass
`validateExtensionManifest`: the built manifest has `author.email` equal to `""`,
which the `email` format rejects, and `createExtension` stops at the validation
without creating anything, in every environment and file system. -/
theorem createExtension_scenario_fails_validation :
    (validateExtensionManifest (extensionData scenarioAnswers scenarioAuthor)).2
      = .error "/author/email must match format \"email\"" ∧
    (∀ (env : Env) (w : World),
      materialize env scenarioAnswers scenarioAuthor w
        = (w.err "Validation failed: /author/email must match format \"email\"", .ok ())) ∧
    (createExtension sampleEnv (.ok typedAuthor) (.ok declined) (.ok scenarioAnswers)
        sampleWorld).1.trace.getLast?
      = some (Event.error
          "Validation failed: /author/email must match format \"email\"") ∧
    FS.pathExists (createExtension sampleEnv (.ok typedAuthor) (.ok declined)
        (.ok scenarioAnswers) sampleWorld).1.fs ["work", "demo"] = false := by
  refine ⟨by rw [scenario_validation], ?_, rfl, rfl⟩
  intro env w
  unfold materialize
  rw [scenario_validation]
  rfl

theorem withErrorHandling_ok (env : Env) (command : World → World × Except Thrown Unit)
    (w w1 : World) (h : command w = (w1, .ok ())) :
    withErrorHandling env command w = (w1, .ok ()) := by
  unfold withErrorHandling
  rw [h]

theorem or_empty_of_resolved (v : JSValue) (h : IsResolvedField v) :
    v.or (.string "") = if v.isUndefined then .string "" else v := by
  rcases h with h | ⟨s, h⟩ | h
  · subst h; rfl
  · subst h
    by_cases hs : s = ""
    · subst hs; rfl
    · simp [JSValue.or, JSValue.truthy, JSValue.isUndefined, hs]
  · cases v <;> simp_all [JSValue.or, JSValue.truthy, JSValue.isUndefined]

/-- C10: the manifest `createExtension` builds has `version` `"0.0.1"` and `icon` `""`
whatever the inputs, takes `name`, `description`, `categories`, `type`, `license` and
`editor` (from `editorVersion`) unchanged from the answers, and its `author` has exactly
the keys `name`, `email`, `company`: the resolver's name, and the resolver's email and
company or `""` when those are absent; a `website` of the record is not copied. -/
theorem extensionData_composition (answers authorInfo : JSValue)
    (hemail : IsResolvedField (authorInfo.getProp "email"))
    (hcompany : IsResolvedField (authorInfo.getProp "company")) :
    (extensionData answers authorInfo).getProp "version" = .string "0.0.1" ∧
    (extensionData answers authorInfo).getProp "icon" = .string "" ∧
    (extensionData answers authorInfo).getProp "name" = answers.getProp "name" ∧
    (extensionData answers authorInfo).getProp "description" = answers.getProp "description" ∧
    (extensionData answers authorInfo).getProp "categories" = answers.getProp "categories" ∧
    (extensionData answers authorInfo).getProp "type" = answers.getProp "type" ∧
    (extensionData answers authorInfo).getProp "license" = answers.getProp "license" ∧
    (extensionData answers authorInfo).getProp "editor" = answers.getProp "editorVersion" ∧
    (∃ kvs, (extensionData answers authorInfo).getProp "author" = .object kvs ∧
      JSValue.keys kvs = ["name", "email", "company"] ∧
      JSValue.lookupProp kvs "name" = authorInfo.getProp "name" ∧
      JSValue.lookupProp kvs "email"
        = (if (authorInfo.getProp "email").isUndefined then .string ""
           else authorInfo.getProp "email") ∧
      JSValue.lookupProp kvs "company"
        = (if (authorInfo.getProp "company").isUndefined then .string ""
           else authorInfo.getProp "company") ∧
      JSValue.lookupProp kvs "website" = .undefined) := by
  refine ⟨rfl, rfl, rfl, rfl, rfl, rfl, rfl, rfl, _, rfl, rfl, rfl, ?_, ?_, rfl⟩
  · rw [← or_empty_of_resolved _ hemail]; rfl
  · rw [← or_empty_of_resolved _ hcompany]; rfl

/-- Witness of C10: an author record with an email, no company and a website. -/
theorem extensionData_composition_witness :
    (extensionData scenarioAnswers emailAuthor).getProp "version" = .string "0.0.1" ∧
    (extensionData scenarioAnswers emailAuthor).getProp "icon" = .string "" ∧
    (extensionData scenarioAnswers emailAuthor).getProp "name"
      = scenarioAnswers.getProp "name" ∧
    (extensionData scenarioAnswers emailAuthor).getProp "description"
      = scenarioAnswers.getProp "description" ∧
    (extensionData scenarioAnswers emailAuthor).getProp "categories"
      = scenarioAnswers.getProp "categories" ∧
    (extensionData scenarioAnswers emailAuthor).getProp "type"
      = scenarioAnswers.getProp "type" ∧
    (extensionData scenarioAnswers emailAuthor).getProp "license"
      = scenarioAnswers.getProp "license" ∧
    (extensionData scenarioAnswers emailAuthor).getProp "editor"
      = scenarioAnswers.getProp "editorVersion" ∧
    (∃ kvs, (extensionData scenarioAnswers emailAuthor).getProp "author" = .object kvs ∧
      JSValue.keys kvs = ["name", "email", "company"] ∧
      JSValue.lookupProp kvs "name" = emailAuthor.getProp "name" ∧
      JSValue.lookupProp kvs "email"
        = (if (emailAuthor.getProp "email").isUndefined then .string ""
           else emailAuthor.getProp "email") ∧
      JSValue.lookupProp kvs "company"
        = (if (emailAuthor.getProp "company").isUndefined then .string ""
           else emailAuthor.getProp "company") ∧
      JSValue.lookupProp kvs "website" = .undefined) :=
  extensionData_composition scenarioAnswers emailAuthor
    (Or.inr (Or.inl ⟨"a@example.org", rfl⟩)) (Or.inl rfl)

/-- C9: when the built manifest fails validation, `createExtension` writes nothing: the
file system is the one the author resolver left before the validation, the only
events added are the prompt and the validation message, and no process is started. -/
theorem createExtension_invalid_manifest_writes_nothing (env : Env)
    (authorAnswers saveAuthor : Except Thrown JSValue) (a authorInfo : JSValue)
    (msg : String) (w : World)
    (hauthor : (getAuthorInfo env authorAnswers saveAuthor w).2 = .ok authorInfo)
    (hinvalid : (validateExtensionManifest (extensionData a authorInfo)).2 = .error msg) :
    (createExtension env authorAnswers saveAuthor (.ok a) w).1.fs
      = (getAuthorInfo env authorAnswers saveAuthor w).1.fs ∧
    (createExtension env authorAnswers saveAuthor (.ok a) w).1.trace
      = (getAuthorInfo env authorAnswers saveAuthor w).1.trace
          ++ [Event.prompt extensionQuestions, Event.error ("Validation failed: " ++ msg)] ∧
    (createExtension env authorAnswers saveAuthor (.ok a) w).2 = .ok () := by
  have hrun : createExtension env authorAnswers saveAuthor (.ok a) w
      = ((((getAuthorInfo env authorAnswers saveAuthor w).1).ask extensionQuestions).err
          ("Validation failed: " ++ msg), .ok ()) := by
    unfold createExtension
    apply withErrorHandling_ok
    cases hg : getAuthorInfo env authorAnswers saveAuthor w with
    | mk w1 r =>
      rw [hg] at hauthor
      simp only at hauthor
      subst hauthor
      simp only [materialize]
      cases hv : validateExtensionManifest (extensionData a authorInfo) with
      | mk d r2 =>
        rw [hv] at hinvalid
        simp only at hinvalid
        subst hinvalid
        rfl
  rw [hrun]
  simp [World.err, World.ask, List.append_assoc]

/-- Witness of C9: the first scenario, with the author typed at the prompt. -/
theorem createExtension_invalid_manifest_writes_nothing_witness :
    (createExtension sampleEnv (.ok typedAuthor) (.ok declined) (.ok scenarioAnswers)
        sampleWorld).1.fs
      = (getAuthorInfo sampleEnv (.ok typedAuthor) (.ok declined) sampleWorld).1.fs ∧
    (createExtension sampleEnv (.ok typedAuthor) (.ok declined) (.ok scenarioAnswers)
        sampleWorld).2 = .ok () :=
  have h := createExtension_invalid_manifest_writes_nothing sampleEnv (.ok typedAuthor)
    (.ok declined) scenarioAnswers typedAuthor "/author/email must match format \"email\""
    sampleWorld rfl rfl
  ⟨h.1, h.2.2⟩

theorem entries_lookup_setEntry_self (es : List (String × Node)) (name : String) (n : Node) :
    (FS.setEntry es name n).lookup name = some n := by
  induction es with
  | nil => simp [FS.setEntry, List.lookup]
  | cons e rest ih =>
    obtain ⟨k, m⟩ := e
    by_cases hk : k = name
    · subst hk; simp [FS.setEntry, List.lookup]
    · have hk2 : (name == k) = false := by simpa using fun e => hk e.symm
      simp [FS.setEntry, hk, List.lookup, hk2, ih]

theorem entries_lookup_setEntry_of_ne (es : List (String × Node)) (name other : String)
    (n : Node) (h : other ≠ name) :
    (FS.setEntry es name n).lookup other = es.lookup other := by
  induction es with
  | nil =>
    have : (other == name) = false := by simpa using h
    simp [FS.setEntry, List.lookup, this]
  | cons e rest ih =>
    obtain ⟨k, m⟩ := e
    by_cases hk : k = name
    · subst hk
      have : (other == k) = false := by simpa using h
      simp [FS.setEntry, List.lookup, this]
    · by_cases ho : other = k
      · subst ho; simp [FS.setEntry, hk, List.lookup]
      · have : (other == k) = false := by simpa using ho
        simp [FS.setEntry, hk, List.lookup, this, ih]

theorem setEntry_lookup_self (es : List (String × Node)) (name : String) (n : Node)
    (h : es.lookup name = some n) : FS.setEntry es name n = es := by
  induction es with
  | nil => simp [List.lookup] at h
  | cons e rest ih =>
    obtain ⟨k, m⟩ := e
    by_cases hk : k = name
    · subst hk
      simp [List.lookup] at h
      simp [FS.setEntry, h]
    · have hk2 : (name == k) = false := by simpa using fun e => hk e.symm
      simp only [List.lookup, hk2] at h
      simp [FS.setEntry, hk, ih h]

theorem lookup_append (fs : Node) (p q : Path) :
    FS.lookup fs (p ++ q) = (FS.lookup fs p).bind (fun n => FS.lookup n q) := by
  induction p generalizing fs with
  | nil => simp [FS.lookup]
  | cons c rest ih =>
    cases fs with
    | file content => cases q <;> simp [FS.lookup]
    | dir es =>
      simp only [List.cons_append, FS.lookup]
      cases es.lookup c with
      | none => simp
      | some n => simpa using ih n

theorem mkdirp_of_dir (fs : Node) (p : Path) (es : List (String × Node))
    (h : FS.lookup fs p = some (.dir es)) : FS.mkdirp fs p = .ok fs := by
  induction p generalizing fs with
  | nil =>
    simp only [FS.lookup, Option.some.injEq] at h
    subst h; rfl
  | cons c rest ih =>
    cases fs with
    | file content => simp [FS.lookup] at h
    | dir ds =>
      simp only [FS.lookup] at h
      cases hl : ds.lookup c with
      | none => rw [hl] at h; simp at h
      | some n =>
        rw [hl] at h
        simp only at h
        simp only [FS.mkdirp, hl, Option.getD_some, ih n h, setEntry_lookup_self ds c n hl]

theorem modify_lookup (f : Option Node → Except String Node) (fs fs1 : Node) (p : Path)
    (h : FS.modify f fs p = .ok fs1) :
    ∃ n, f (FS.lookup fs p) = .ok n ∧ FS.lookup fs1 p = some n := by
  induction p generalizing fs fs1 with
  | nil =>
    simp only [FS.modify] at h
    exact ⟨fs1, by simpa [FS.lookup] using h, by simp [FS.lookup]⟩
  | cons c rest ih =>
    cases fs with
    | file content => simp [FS.modify] at h
    | dir es =>
      cases rest with
      | nil =>
        simp only [FS.modify] at h
        cases hf : f (es.lookup c) with
        | error e => rw [hf] at h; simp at h
        | ok n =>
          rw [hf] at h
          simp only [Except.ok.injEq] at h
          subst h
          refine ⟨n, ?_, ?_⟩
          · simp only [FS.lookup]
            cases hl : es.lookup c with
            | none => rw [hl] at hf; simpa using hf
            | some m => rw [hl] at hf; simpa [FS.lookup] using hf
          · simp [FS.lookup, entries_lookup_setEntry_self]
      | cons d rest2 =>
        simp only [FS.modify] at h
        cases hl : es.lookup c with
        | none => rw [hl] at h; simp at h
        | some m =>
          rw [hl] at h
          simp only at h
          cases hm : FS.modify f m (d :: rest2) with
          | error e => rw [hm] at h; simp at h
          | ok m1 =>
            rw [hm] at h
            simp only [Except.ok.injEq] at h
            subst h
            obtain ⟨n, hn1, hn2⟩ := ih m m1 hm
            refine ⟨n, ?_, ?_⟩
            · simpa [FS.lookup, hl] using hn1
            · simpa [FS.lookup, entries_lookup_setEntry_self] using hn2

theorem modify_const_ok (fs : Node) (p : Path) (n m : Node) (h : FS.lookup fs p = some m) :
    ∃ fs1, FS.modify (fun _ => .ok n) fs p = .ok fs1 := by
  induction p generalizing fs with
  | nil => exact ⟨n, by simp [FS.modify]⟩
  | cons c rest ih =>
    cases fs with
    | file content => simp [FS.lookup] at h
    | dir es =>
      simp only [FS.lookup] at h
      cases hl : es.lookup c with
      | none => rw [hl] at h; simp at h
      | some k =>
        rw [hl] at h
        simp only at h
        cases rest with
        | nil => exact ⟨.dir (FS.setEntry es c n), by simp [FS.modify]⟩
        | cons d rest2 =>
          obtain ⟨k1, hk1⟩ := ih k h
          exact ⟨.dir (FS.setEntry es c k1), by simp [FS.modify, hl, hk1]⟩

theorem lookup_place (fs : Node) (p q : Path) (n m : Node) (h : FS.lookup fs p = some m) :
    FS.lookup (FS.place fs p n) (p ++ q) = FS.lookup n q := by
  obtain ⟨fs1, h1⟩ := modify_const_ok fs p n m h
  obtain ⟨n2, hn, hl⟩ := modify_lookup _ fs fs1 p h1
  simp only [Except.ok.injEq] at hn
  subst hn
  simp [FS.place, h1, lookup_append, hl]

theorem copyEntries_lookup_of_absent (es ds : List (String × Node)) (name : String)
    (habsent : es.lookup name = none) (hok : (FS.copyEntries es ds).2 = none) :
    (FS.copyEntries es ds).1.lookup name = ds.lookup name := by
  induction es generalizing ds with
  | nil => simp [FS.copyEntries]
  | cons e rest ih =>
    obtain ⟨k, s⟩ := e
    have hk : name ≠ k := by
      intro e; subst e; simp [List.lookup] at habsent
    have hk2 : (name == k) = false := by simpa using hk
    have hrest : rest.lookup name = none := by
      simpa [List.lookup, hk2] using habsent
    rw [FS.copyEntries] at hok ⊢
    cases hc : FS.copyNode s (ds.lookup k) with
    | mk n err =>
      rw [hc] at hok
      cases err with
      | some e => simp at hok
      | none =>
        simp only at hok ⊢
        rw [ih _ hrest hok, entries_lookup_setEntry_of_ne ds k name n hk]

theorem lookup_nil (fs : Node) : FS.lookup fs [] = some fs := by
  cases fs <;> rfl

theorem lookup_dir_cons (es : List (String × Node)) (c : String) (rest : Path) :
    FS.lookup (.dir es) (c :: rest) = (es.lookup c).bind (fun n => FS.lookup n rest) := by
  simp only [FS.lookup]
  cases es.lookup c <;> rfl

theorem mkdirp_lookup_new (fs fs1 : Node) (p q : Path) (x : Node)
    (h : FS.mkdirp fs p = .ok fs1) (hq : FS.lookup fs1 q = some x)
    (hnone : FS.lookup fs q = none) : q <+: p := by
  induction p generalizing fs fs1 q with
  | nil =>
    cases fs with
    | file c => simp [FS.mkdirp] at h
    | dir es =>
      simp only [FS.mkdirp, Except.ok.injEq] at h
      subst h
      rw [hnone] at hq
      cases hq
  | cons c rest ih =>
    cases fs with
    | file content => simp [FS.mkdirp] at h
    | dir es =>
      simp only [FS.mkdirp] at h
      cases hm : FS.mkdirp ((es.lookup c).getD (.dir [])) rest with
      | error e => rw [hm] at h; simp at h
      | ok n1 =>
        rw [hm] at h
        simp only [Except.ok.injEq] at h
        subst h
        cases q with
        | nil => exact List.nil_prefix
        | cons d q1 =>
          rw [lookup_dir_cons] at hq hnone
          by_cases hd : d = c
          · subst hd
            rw [entries_lookup_setEntry_self] at hq
            simp only [Option.some_bind] at hq
            have : q1 <+: rest := by
              cases hl : es.lookup d with
              | some m =>
                rw [hl] at hnone hm
                simp only [Option.some_bind] at hnone
                simp only [Option.getD] at hm
                exact ih m n1 q1 hm hq hnone
              | none =>
                rw [hl] at hm
                simp only [Option.getD] at hm
                cases q1 with
                | nil => exact List.nil_prefix
                | cons e q2 =>
                  exact ih (.dir []) n1 (e :: q2) hm hq (by simp [lookup_dir_cons, List.lookup])
            exact (List.prefix_cons_inj d).mpr this
          · rw [entries_lookup_setEntry_of_ne es c d n1 hd] at hq
            rw [hnone] at hq
            cases hq

theorem modify_lookup_new (f : Option Node → Except String Node) (fs fs1 : Node)
    (p q : Path) (x : Node) (h : FS.modify f fs p = .ok fs1)
    (hq : FS.lookup fs1 q = some x) (hnone : FS.lookup fs q = none) : p <+: q := by
  induction p generalizing fs fs1 q with
  | nil => exact List.nil_prefix
  | cons c rest ih =>
    cases fs with
    | file content => simp [FS.modify] at h
    | dir es =>
      cases q with
      | nil => rw [lookup_nil] at hnone; cases hnone
      | cons d q1 =>
        rw [lookup_dir_cons] at hnone
        cases rest with
        | nil =>
          simp only [FS.modify] at h
          cases hf : f (es.lookup c) with
          | error e => rw [hf] at h; simp at h
          | ok n =>
            rw [hf] at h
            simp only [Except.ok.injEq] at h
            subst h
            rw [lookup_dir_cons] at hq
            by_cases hd : d = c
            · subst hd
              exact (List.prefix_cons_inj d).mpr List.nil_prefix
            · rw [entries_lookup_setEntry_of_ne es c d n hd] at hq
              rw [hnone] at hq
              cases hq
        | cons e rest2 =>
          simp only [FS.modify] at h
          cases hl : es.lookup c with
          | none => rw [hl] at h; simp at h
          | some m =>
            rw [hl] at h
            simp only at h
            cases hm : FS.modify f m (e :: rest2) with
            | error err => rw [hm] at h; simp at h
            | ok m1 =>
              rw [hm] at h
              simp only [Except.ok.injEq] at h
              subst h
              rw [lookup_dir_cons] at hq
              by_cases hd : d = c
              · subst hd
                rw [entries_lookup_setEntry_self] at hq
                rw [hl] at hnone
                simp only [Option.some_bind] at hq hnone
                exact (List.prefix_cons_inj d).mpr (ih m m1 q1 hm hq hnone)
              · rw [entries_lookup_setEntry_of_ne es c d m1 hd] at hq
                rw [hnone] at hq
                cases hq

theorem lookup_below_file (fs : Node) (p r : Path) (c : String) (x : Node)
    (h : FS.lookup fs p = some (.file c)) (hx : FS.lookup fs (p ++ r) = some x) : r = [] := by
  rw [lookup_append, h] at hx
  cases r with
  | nil => rfl
  | cons d r1 => simp [FS.lookup] at hx

theorem lookup_parent_dir (fs : Node) (p : Path) (name : String) (x : Node)
    (h : FS.lookup fs (p ++ [name]) = some x) :
    ∃ es, FS.lookup fs p = some (.dir es) ∧ es.lookup name = some x := by
  rw [lookup_append] at h
  cases hp : FS.lookup fs p with
  | none => rw [hp] at h; simp at h
  | some m =>
    rw [hp] at h
    simp only [Option.some_bind] at h
    cases m with
    | file c => simp [FS.lookup] at h
    | dir es =>
      rw [lookup_dir_cons] at h
      cases hl : es.lookup name with
      | none => rw [hl] at h; simp at h
      | some n =>
        rw [hl] at h
        simp only [Option.some_bind, lookup_nil, Option.some.injEq] at h
        subst h
        exact ⟨es, rfl, hl⟩

theorem lookup_dropLast_dir (fs : Node) (p : Path) (es : List (String × Node))
    (h : FS.lookup fs p = some (.dir es)) :
    ∃ ds, FS.lookup fs p.dropLast = some (.dir ds) := by
  rcases List.eq_nil_or_concat p with hp | ⟨q, name, hp⟩
  · subst hp; exact ⟨es, h⟩
  · subst hp
    rw [List.concat_eq_append] at h ⊢
    obtain ⟨ds, hds, -⟩ := lookup_parent_dir fs q name _ h
    exact ⟨ds, by simpa using hds⟩

theorem copy_keeps_file (fs fs3 : Node) (src dest : Path) (name content : String)
    (hfile : FS.lookup fs (dest ++ [name]) = some (.file content))
    (habsent : FS.lookup fs (src ++ [name]) = none)
    (hcopy : FS.copy fs src dest = (fs3, none)) :
    FS.lookup fs3 (dest ++ [name]) = some (.file content) := by
  obtain ⟨ds, hdest, hentry⟩ := lookup_parent_dir fs dest name _ hfile
  obtain ⟨ps, hparent⟩ := lookup_dropLast_dir fs dest ds hdest
  unfold FS.copy at hcopy
  cases hs : FS.lookup fs src with
  | none => rw [hs] at hcopy; simp at hcopy
  | some s =>
    rw [hs] at hcopy
    simp only at hcopy
    by_cases h1 : src = dest
    · simp [h1] at hcopy
    · simp only [h1, if_false] at hcopy
      by_cases h2 : src.isPrefixOf dest = true
      · simp [h2] at hcopy
      · have h2b : src.isPrefixOf dest = false := by
          cases hb : src.isPrefixOf dest with
          | false => rfl
          | true => exact absurd hb h2
        simp only [h2b, Bool.false_eq_true, if_false] at hcopy
        rw [hdest] at hcopy
        cases s with
        | file c => simp at hcopy
        | dir es =>
          simp only [dirname, mkdirp_of_dir fs dest.dropLast ps hparent, hdest] at hcopy
          simp only [FS.copyNode, Prod.mk.injEq] at hcopy
          have hfs := hcopy.1
          have herr := hcopy.2
          have hes : es.lookup name = none := by
            rw [lookup_append, hs] at habsent
            simp only [Option.some_bind, lookup_dir_cons] at habsent
            cases hl : es.lookup name with
            | none => rfl
            | some n => rw [hl] at habsent; simp [lookup_nil] at habsent
          rw [← hfs, lookup_place fs dest [name] _ _ hdest, lookup_dir_cons,
            copyEntries_lookup_of_absent es ds name hes herr, hentry]
          simp [lookup_nil]

theorem pathJoin_extension_json (p : Path) :
    pathJoin p ["extension.json"] = p ++ ["extension.json"] := by
  have h : splitPath "extension.json" = ["extension.json"] := by decide
  simp [pathJoin, h, normalize]

theorem copy_fails_of_prefix (fs : Node) (src dest : Path) (h : src <+: dest) :
    (FS.copy fs src dest).2 ≠ none := by
  unfold FS.copy
  cases FS.lookup fs src with
  | none => simp
  | some s =>
    by_cases h1 : src = dest
    · simp [h1]
    · have h2 : src.isPrefixOf dest = true := List.isPrefixOf_iff_prefix.mpr h
      simp [h1, h2]

theorem template_absent_at_copy (fs0 fs1 fs2 fs3 : Node) (dest T : Path) (content : String)
    (hm : FS.mkdirp fs0 dest = .ok fs1)
    (hw : FS.writeFile fs1 (dest ++ ["extension.json"]) content = .ok fs2)
    (h0 : FS.lookup fs0 (T ++ ["extension.json"]) = none)
    (hcopy : FS.copy fs2 T dest = (fs3, none)) :
    FS.lookup fs2 (T ++ ["extension.json"]) = none := by
  cases h2 : FS.lookup fs2 (T ++ ["extension.json"]) with
  | none => rfl
  | some x =>
    exfalso
    have hfail : T <+: dest → False := fun hp => by
      have := copy_fails_of_prefix fs2 T dest hp
      rw [hcopy] at this
      exact this rfl
    cases h1 : FS.lookup fs1 (T ++ ["extension.json"]) with
    | none =>
      have hpre := modify_lookup_new _ fs1 fs2 _ _ x hw h2 h1
      obtain ⟨r, hr⟩ := hpre
      obtain ⟨n, hn1, hn2⟩ := modify_lookup _ fs1 fs2 _ hw
      have hfile : ∃ c, n = .file c := by
        cases hl : FS.lookup fs1 (dest ++ ["extension.json"]) with
        | none => rw [hl] at hn1; simp at hn1; exact ⟨_, hn1.symm⟩
        | some m =>
          rw [hl] at hn1
          cases m with
          | file c => simp at hn1; exact ⟨_, hn1.symm⟩
          | dir es => simp at hn1
      obtain ⟨c, hc⟩ := hfile
      subst hc
      rw [← hr] at h2
      have hnil := lookup_below_file fs2 _ r c x hn2 h2
      subst hnil
      simp only [List.append_nil] at hr
      have : dest = T := List.append_inj_left' hr rfl
      exact hfail (this ▸ List.prefix_refl _)
    | some y =>
      have hpre := mkdirp_lookup_new fs0 fs1 dest _ y hm h1 h0
      exact hfail ((List.prefix_append T _).trans hpre)

theorem readFile_of_lookup (fs : Node) (p : Path) (c : String)
    (h : FS.lookup fs p = some (.file c)) : FS.readFile fs p = .ok c := by
  simp [FS.readFile, h]

theorem writeFile_lookup (fs fs1 : Node) (p : Path) (content : String)
    (h : FS.writeFile fs p content = .ok fs1) : FS.lookup fs1 p = some (.file content) := by
  obtain ⟨n, hn1, hn2⟩ := modify_lookup _ fs fs1 p h
  cases hl : FS.lookup fs p with
  | none => rw [hl] at hn1; simp at hn1; rw [hn2, hn1]
  | some m =>
    rw [hl] at hn1
    cases m with
    | file c => simp at hn1; rw [hn2, hn1]
    | dir es => simp at hn1

theorem initializeGitRepository_loaded (env : Env) (d : Path) (w : World)
    (h : env.execaImport = none) :
    (initializeGitRepository env d w).2 = .ok () ∧
    (initializeGitRepository env d w).1.fs = (env.execa "git" ["init"] d w.fs).1 := by
  unfold initializeGitRepository
  rw [h]
  cases env.execa "git" ["init"] d w.fs with
  | mk fs1 r => cases r <;> exact ⟨rfl, rfl⟩

theorem initializeGitRepository_not_loaded (env : Env) (d : Path) (w : World)
    (message : String) (h : env.execaImport = some message) :
    initializeGitRepository env d w = (w, .error (env.mkError message)) := by
  unfold initializeGitRepository
  rw [h]

theorem finishExtension_loaded (env : Env) (a : JSValue) (dest : Path) (w : World)
    (hs : (a.getProp "gitSupport").truthy = true) (h : env.execaImport = none) :
    finishExtension env a dest w
      = ((initializeGitRepository env dest w).1.log (createdMessage a dest), .ok ()) := by
  unfold finishExtension
  rw [if_pos hs]
  have hok := (initializeGitRepository_loaded env dest w h).1
  cases hi : initializeGitRepository env dest w with
  | mk w1 r =>
    rw [hi] at hok
    simp only at hok
    subst hok
    rfl

theorem finishExtension_not_loaded (env : Env) (a : JSValue) (dest : Path) (w : World)
    (message : String) (hs : (a.getProp "gitSupport").truthy = true)
    (h : env.execaImport = some message) :
    finishExtension env a dest w = (w, .error (env.mkError message)) := by
  unfold finishExtension
  rw [if_pos hs, initializeGitRepository_not_loaded env dest w message h]

theorem finishExtension_lookup (env : Env) (a : JSValue) (dest p : Path) (w : World)
    (hgit : ∀ fs, FS.lookup (env.execa "git" ["init"] dest fs).1 p = FS.lookup fs p) :
    FS.lookup (finishExtension env a dest w).1.fs p = FS.lookup w.fs p := by
  by_cases hg : (a.getProp "gitSupport").truthy = true
  · cases hi : env.execaImport with
    | none =>
      rw [finishExtension_loaded env a dest w hg hi]
      simp only [World.log]
      rw [(initializeGitRepository_loaded env dest w hi).2, hgit]
    | some message => rw [finishExtension_not_loaded env a dest w message hg hi]
  · unfold finishExtension
    rw [if_neg hg]
    rfl

theorem finishExtension_error_form (env : Env) (a : JSValue) (dest : Path) (w : World)
    (t : Thrown) (h : (finishExtension env a dest w).2 = .error t) : ∃ e, t = env.mkError e := by
  by_cases hg : (a.getProp "gitSupport").truthy = true
  · cases hi : env.execaImport with
    | none =>
      rw [finishExtension_loaded env a dest w hg hi] at h
      simp at h
    | some message =>
      rw [finishExtension_not_loaded env a dest w message hg hi] at h
      simp only [Except.error.injEq] at h
      exact ⟨message, h.symm⟩
  · unfold finishExtension at h
    rw [if_neg hg] at h
    simp at h

theorem head_data_append (s t : String) (c : Char) (h : s.data.head? = some c) :
    (s ++ t).data.head? = some c := by
  rw [String.data_append]
  cases hs : s.data with
  | nil => rw [hs] at h; simp at h
  | cons d ds => rw [hs] at h; simpa using h

theorem createdMessage_ne_directory (a : JSValue) (dest : Path) (name : String) :
    "Directory \"" ++ name ++ "\" already exists in the current path."
      ≠ createdMessage a dest := by
  intro h
  have h1 : ("Directory \"" ++ name ++ "\" already exists in the current path.").data.head?
      = some 'D' := head_data_append _ _ _ (head_data_append _ _ _ rfl)
  have h2 : (createdMessage a dest).data.head? = some 'E' :=
    head_data_append _ _ _ (head_data_append _ _ _
      (head_data_append _ _ _ (head_data_append _ _ _ rfl)))
  rw [h, h2] at h1
  cases h1

theorem getLast_append_singleton (l : List Event) (e : Event) :
    (l ++ [e]).getLast? = some e := by
  simp

theorem copyTemplate_keeps_manifest (env : Env) (a : JSValue) (dest : Path) (w : World)
    (fs0 fs1 : Node) (content : String)
    (hm : FS.mkdirp fs0 dest = .ok fs1)
    (hw : FS.writeFile fs1 (dest ++ ["extension.json"]) content = .ok w.fs)
    (hok : (copyTemplate env a dest w).2 = .ok ())
    (htemplate : ∀ type, a.getProp "type" = .string type →
      FS.lookup fs0 (templatePath env type ++ ["extension.json"]) = none)
    (hgit : ∀ fs, FS.lookup (env.execa "git" ["init"] dest fs).1 (dest ++ ["extension.json"])
      = FS.lookup fs (dest ++ ["extension.json"])) :
    FS.lookup (copyTemplate env a dest w).1.fs (dest ++ ["extension.json"])
      = some (.file content) := by
  have hfile := writeFile_lookup fs1 w.fs _ content hw
  unfold copyTemplate at hok ⊢
  cases ht : a.getProp "type" with
  | string type =>
    rw [ht] at hok
    simp only at hok ⊢
    have hT := htemplate type ht
    by_cases hex : FS.pathExists (w.log (pathString (templatePath env type))).fs
        (templatePath env type) = true
    · simp only [hex, if_true] at hok ⊢
      cases hc : FS.copy (w.log (pathString (templatePath env type))).fs
          (templatePath env type) dest with
      | mk fs3 err =>
        rw [hc] at hok
        cases err with
        | some e => simp at hok
        | none =>
          simp only
          rw [finishExtension_lookup env a dest _ _ hgit]
          have hc2 : FS.copy w.fs (templatePath env type) dest = (fs3, none) := hc
          exact copy_keeps_file w.fs fs3 _ dest _ content hfile
            (template_absent_at_copy fs0 fs1 w.fs fs3 dest _ content hm hw hT hc2) hc2
    · simp only [hex] at hok ⊢
      simp only [Bool.false_eq_true, if_false]
      rw [finishExtension_lookup env a dest _ _ hgit]
      exact hfile
  | undefined => rw [ht] at hok; simp at hok
  | null => rw [ht] at hok; simp at hok
  | bool b => rw [ht] at hok; simp at hok
  | number n => rw [ht] at hok; simp at hok
  | array xs => rw [ht] at hok; simp at hok
  | object kvs => rw [ht] at hok; simp at hok

theorem materialize_keeps_manifest (env : Env) (a authorInfo : JSValue) (w : World)
    (hok : (materialize env a authorInfo w).2 = .ok ())
    (hlast : (materialize env a authorInfo w).1.trace.getLast?
      = some (Event.log (createdMessage a
          (pathJoin env.cwd [toJSString (a.getProp "name")]))))
    (htemplate : ∀ type, a.getProp "type" = .string type →
      FS.lookup w.fs (templatePath env type ++ ["extension.json"]) = none)
    (hgit : ∀ fs, FS.lookup (env.execa "git" ["init"]
        (pathJoin env.cwd [toJSString (a.getProp "name")]) fs).1
        (pathJoin (pathJoin env.cwd [toJSString (a.getProp "name")]) ["extension.json"])
      = FS.lookup fs
        (pathJoin (pathJoin env.cwd [toJSString (a.getProp "name")]) ["extension.json"])) :
    FS.readFile (materialize env a authorInfo w).1.fs
        (pathJoin (pathJoin env.cwd [toJSString (a.getProp "name")]) ["extension.json"])
      = .ok (env.stringify (extensionData a authorInfo) 2 ++ "\n") := by
  apply readFile_of_lookup
  rw [pathJoin_extension_json] at hgit ⊢
  unfold materialize at hok hlast ⊢
  rw [validateExtensionManifest_eq] at hok hlast ⊢
  by_cases hv : (Ajv.errorsOf schema "" (extensionData a authorInfo)).isEmpty = true
  · simp only [hv, if_true] at hok hlast ⊢
    cases hn : a.getProp "name" with
    | string name =>
      rw [hn] at hok hlast hgit
      simp only [toJSString] at hok hlast hgit ⊢
      by_cases hex : FS.pathExists (w.log "Extension manifest is valid.").fs
          (pathJoin env.cwd [name]) = true
      · rw [if_pos hex] at hlast
        simp only [World.log, getLast_append_singleton] at hlast
        have h2 : "Directory \"" ++ name ++ "\" already exists in the current path."
            = createdMessage a (pathJoin env.cwd [name]) := by simpa using hlast
        exact absurd h2 (createdMessage_ne_directory _ _ _)
      · simp only [hex] at hok hlast ⊢
        cases hm : FS.mkdirp (w.log "Extension manifest is valid.").fs
            (pathJoin env.cwd [name]) with
        | error e => rw [hm] at hok; simp at hok
        | ok fs1 =>
          rw [hm] at hok
          simp only at hok ⊢
          cases hw : writeJSON env fs1 (pathJoin (pathJoin env.cwd [name]) ["extension.json"])
              (extensionData a authorInfo) 2 with
          | error e => rw [hw] at hok; simp at hok
          | ok fs2 =>
            rw [hw] at hok
            simp only at hok ⊢
            rw [pathJoin_extension_json] at hw
            exact copyTemplate_keeps_manifest env a _ _ w.fs fs1 _ hm hw hok htemplate hgit
    | undefined => rw [hn] at hok; simp at hok
    | null => rw [hn] at hok; simp at hok
    | bool b => rw [hn] at hok; simp at hok
    | number n => rw [hn] at hok; simp at hok
    | array xs => rw [hn] at hok; simp at hok
    | object kvs => rw [hn] at hok; simp at hok
  · simp only [hv, World.err, getLast_append_singleton] at hlast
    simp at hlast

theorem copyTemplate_error_form (env : Env) (a : JSValue) (dest : Path) (w : World)
    (t : Thrown) (h : (copyTemplate env a dest w).2 = .error t) : ∃ e, t = env.mkError e := by
  unfold copyTemplate at h
  split at h
  · dsimp only at h
    split at h
    · split at h
      · simp only [Except.error.injEq] at h
        exact ⟨_, h.symm⟩
      · exact finishExtension_error_form env a dest _ t h
    · exact finishExtension_error_form env a dest _ t h
  · simp only [Except.error.injEq] at h
    exact ⟨_, h.symm⟩

theorem materialize_error_form (env : Env) (a authorInfo : JSValue) (w : World)
    (t : Thrown) (h : (materialize env a authorInfo w).2 = .error t) :
    ∃ e, t = env.mkError e := by
  unfold materialize at h
  split at h
  · simp at h
  · split at h
    · dsimp only at h
      split at h
      · simp at h
      · split at h
        · simp only [Except.error.injEq] at h
          exact ⟨_, h.symm⟩
        · split at h
          · simp only [Except.error.injEq] at h
            exact ⟨_, h.symm⟩
          · exact copyTemplate_error_form env a _ _ t h
    · simp only [Except.error.injEq] at h
      exact ⟨_, h.symm⟩

theorem logErrorToFile_trace (env : Env) (v : JSValue) (w : World) :
    (logErrorToFile env v w).1.trace = w.trace := by
  unfold logErrorToFile
  split
  · dsimp only
    split <;> rfl
  · rfl
  · rfl

theorem withErrorHandling_of_mkError (env : Env) (command : World → World × Except Thrown Unit)
    (w w1 : World) (e : String) (h : command w = (w1, .error (env.mkError e))) :
    (withErrorHandling env command w).1.trace
      = w1.trace ++ [Event.error ("An unexpected error occurred: " ++ e)] := by
  unfold withErrorHandling
  rw [h]
  simp only [Env.mkError, Thrown.instanceOf, member, JSValue.getProp]
  have h1 : (ErrorClass.other == ErrorClass.userCancelled) = false := by decide
  have h2 : (ErrorClass.other == ErrorClass.tty) = false := by decide
  simp only [h1, h2, Bool.false_eq_true, if_false]
  rw [logErrorToFile_trace]
  rfl

/-- C7 (as stated, refuted): with a template that ships its own `extension.json`, the
run reaches the final success message and the file `<cwd>/demo/extension.json` holds
the template's text, not the serialised manifest. -/
theorem createExtension_template_replaces_manifest :
    (createExtension sampleEnv (.ok typedAuthorWithEmail) (.ok declined) (.ok scenarioAnswers)
        sampleWorld).1.trace.getLast?
      = some (Event.log "Extension \"demo\" created successfully at /work/demo.") ∧
    FS.readFile (createExtension sampleEnv (.ok typedAuthorWithEmail) (.ok declined)
        (.ok scenarioAnswers) sampleWorld).1.fs ["work", "demo", "extension.json"]
      = .ok "template" ∧
    sampleEnv.stringify (extensionData scenarioAnswers typedAuthorWithEmail) 2 ++ "\n"
      ≠ "template" :=
  ⟨rfl, rfl, by decide⟩

/-- C7 (amended): when a run of `createExtension` ends with its final success message,
the template directory has no top-level entry `extension.json` (or is absent), and the
external `git init` leaves `extension.json` alone, then `<cwd>/<name>/extension.json`
holds the built manifest serialised with 2 spaces of indentation and a final newline,
with `version` `"0.0.1"` and `type` the chosen type. -/
theorem createExtension_manifest_file (env : Env)
    (authorAnswers saveAuthor : Except Thrown JSValue) (a authorInfo : JSValue) (w : World)
    (hauthor : (getAuthorInfo env authorAnswers saveAuthor w).2 = .ok authorInfo)
    (hsuccess : (createExtension env authorAnswers saveAuthor (.ok a) w).1.trace.getLast?
      = some (Event.log (createdMessage a
          (pathJoin env.cwd [toJSString (a.getProp "name")]))))
    (htemplate : ∀ type, a.getProp "type" = .string type →
      FS.lookup (getAuthorInfo env authorAnswers saveAuthor w).1.fs
        (templatePath env type ++ ["extension.json"]) = none)
    (hgit : ∀ fs, FS.lookup (env.execa "git" ["init"]
        (pathJoin env.cwd [toJSString (a.getProp "name")]) fs).1
        (pathJoin (pathJoin env.cwd [toJSString (a.getProp "name")]) ["extension.json"])
      = FS.lookup fs
        (pathJoin (pathJoin env.cwd [toJSString (a.getProp "name")]) ["extension.json"])) :
    FS.readFile (createExtension env authorAnswers saveAuthor (.ok a) w).1.fs
        (pathJoin (pathJoin env.cwd [toJSString (a.getProp "name")]) ["extension.json"])
      = .ok (env.stringify (extensionData a authorInfo) 2 ++ "\n") ∧
    (extensionData a authorInfo).getProp "version" = .string "0.0.1" ∧
    (extensionData a authorInfo).getProp "type" = a.getProp "type" := by
  refine ⟨?_, rfl, rfl⟩
  cases hg : getAuthorInfo env authorAnswers saveAuthor w with
  | mk w1 r =>
    rw [hg] at hauthor htemplate
    simp only at hauthor htemplate
    subst hauthor
    have hbody : createExtension env authorAnswers saveAuthor (.ok a) w
        = withErrorHandling env
            (fun _ => materialize env a authorInfo (w1.ask extensionQuestions)) w := by
      unfold createExtension withErrorHandling
      simp only [hg]
    rw [hbody] at hsuccess ⊢
    obtain ⟨w2, r2, hm⟩ : ∃ w2 r2,
        materialize env a authorInfo (w1.ask extensionQuestions) = (w2, r2) := ⟨_, _, rfl⟩
    cases r2 with
    | ok u =>
      have hw : withErrorHandling env
          (fun _ => materialize env a authorInfo (w1.ask extensionQuestions)) w
          = (w2, .ok ()) := withErrorHandling_ok env _ w w2 hm
      rw [hw] at hsuccess ⊢
      have := materialize_keeps_manifest env a authorInfo (w1.ask extensionQuestions)
        (by rw [hm]) (by rw [hm]; exact hsuccess) htemplate hgit
      rw [hm] at this
      exact this
    | error t =>
      exfalso
      obtain ⟨e, he⟩ := materialize_error_form env a authorInfo _ t (by rw [hm])
      subst he
      have htr := withErrorHandling_of_mkError env
        (fun _ => materialize env a authorInfo (w1.ask extensionQuestions)) w w2 e hm
      rw [htr, getLast_append_singleton] at hsuccess
      cases hsuccess

/-- Witness of C7 (amended): a template without `extension.json`. -/
theorem createExtension_manifest_file_witness :
    FS.readFile (createExtension sampleEnv (.ok typedAuthorWithEmail) (.ok declined)
        (.ok scenarioAnswers) plainTemplateWorld).1.fs
        (pathJoin (pathJoin sampleEnv.cwd [toJSString (scenarioAnswers.getProp "name")])
          ["extension.json"])
      = .ok (sampleEnv.stringify (extensionData scenarioAnswers typedAuthorWithEmail) 2
          ++ "\n") :=
  (createExtension_manifest_file sampleEnv (.ok typedAuthorWithEmail) (.ok declined)
    scenarioAnswers typedAuthorWithEmail plainTemplateWorld rfl rfl
    (fun type h => by cases h; rfl) (fun fs => rfl)).1

/-- C12: a manifest of type `swift` that validates and has no `language` field is
installed under `<name>.JSext`, not `<name>.AEext`: `installExtension` reads
`extensionData.language`, a field the manifest does not have. -/
theorem installExtension_swift_gets_JSext :
    (validateExtensionManifest swiftManifest).2 = .ok () ∧
    swiftManifest.getProp "type" = .string "swift" ∧
    installPath sampleEnv swiftManifest
      = ["home", "u", "Library", "Application Support", "com.auroraeditor", "Extensions",
         "demo.JSext"] ∧
    FS.readFile (installExtension sampleEnv installWorld).1.fs
        ["home", "u", "Library", "Application Support", "com.auroraeditor", "Extensions",
         "demo.JSext", "main.swift"] = .ok "code" ∧
    FS.pathExists (installExtension sampleEnv installWorld).1.fs
        ["home", "u", "Library", "Application Support", "com.auroraeditor", "Extensions",
         "demo.AEext"] = false :=
  ⟨rfl, rfl, rfl, rfl, rfl⟩

/-- C13: when a gate of `installExtension` fails (the platform is not macOS, or
`extension.json` is absent, or it cannot be read or parsed or fails validation), the
file system is unchanged, the only event is one console message (no prompt, no
process), and the call returns. -/
theorem installExtension_gates (env : Env) (w : World)
    (hgate : isMacOS env = false ∨
      FS.pathExists w.fs (pathJoin env.cwd ["extension.json"]) = false ∨
      (∀ data, readJSON env w.fs (pathJoin env.cwd ["extension.json"]) = .ok data →
        ∃ msg, (validateExtensionManifest data).2 = .error msg)) :
    (installExtension env w).1.fs = w.fs ∧
    (∃ text, (installExtension env w).1.trace = w.trace ++ [Event.log text]) ∧
    (installExtension env w).2 = .ok () := by
  have key : ∃ text, installExtension env w = (w.log text, .ok ()) := by
    unfold installExtension
    by_cases hmac : isMacOS env = true
    · by_cases hex : FS.pathExists w.fs (pathJoin env.cwd ["extension.json"]) = true
      · have hval : ∀ data, readJSON env w.fs (pathJoin env.cwd ["extension.json"]) = .ok data →
            ∃ msg, (validateExtensionManifest data).2 = .error msg := by
          rcases hgate with h | h | h
          · rw [hmac] at h; cases h
          · rw [hex] at h; cases h
          · exact h
        cases hr : readJSON env w.fs (pathJoin env.cwd ["extension.json"]) with
        | error t =>
          exact ⟨"Error reading or validating extension.json: "
              ++ toJSString (t.value.getProp "message"),
            withErrorHandling_ok env _ w _ (by simp [hmac, hex, hr])⟩
        | ok data =>
          obtain ⟨msg, hmsg⟩ := hval data hr
          obtain ⟨d, hd⟩ : ∃ d, validateExtensionManifest data = (d, .error msg) :=
            ⟨(validateExtensionManifest data).1, by rw [← hmsg]⟩
          exact ⟨"Error reading or validating extension.json: " ++ msg,
            withErrorHandling_ok env _ w _ (by simp [hmac, hex, hr, hd])⟩
      · exact ⟨"extension.json file not found in the current directory.",
          withErrorHandling_ok env _ w _ (by simp [hmac, hex])⟩
    · exact ⟨"The install command is only supported on macOS.",
        withErrorHandling_ok env _ w _ (by simp [hmac])⟩
  obtain ⟨text, h⟩ := key
  rw [h]
  exact ⟨rfl, ⟨text, rfl⟩, rfl⟩

/-- Witness of C13: no `extension.json` in the working directory. -/
theorem installExtension_gates_witness :
    (installExtension sampleEnv sampleWorld).1.fs = sampleWorld.fs ∧
    (∃ text, (installExtension sampleEnv sampleWorld).1.trace
      = sampleWorld.trace ++ [Event.log text]) ∧
    (installExtension sampleEnv sampleWorld).2 = .ok () :=
  installExtension_gates sampleEnv sampleWorld (Or.inr (Or.inl rfl))

/-- C18: without an `extensions` directory `listExtensions` only reports it, and
`removeExtension(id)` only reports that `<cwd>/extensions/<id>` does not exist; neither
changes the file system. -/
theorem extension_commands_absent_target (env : Env) (w : World) (extensionId : String) :
    (FS.pathExists w.fs (pathJoin env.cwd ["extensions"]) = false →
      listExtensions env w = (w.log "No extensions directory found.", .ok ()) ∧
      (listExtensions env w).1.fs = w.fs) ∧
    (FS.pathExists w.fs (pathJoin (pathJoin env.cwd ["extensions"]) [extensionId]) = false →
      removeExtension env extensionId w
        = (w.log ("Extension with ID " ++ extensionId ++ " does not exist."), .ok ()) ∧
      (removeExtension env extensionId w).1.fs = w.fs) := by
  constructor
  · intro h
    have : listExtensions env w = (w.log "No extensions directory found.", .ok ()) := by
      unfold listExtensions
      exact withErrorHandling_ok env _ w _ (by simp [h])
    exact ⟨this, by rw [this]; rfl⟩
  · intro h
    have : removeExtension env extensionId w
        = (w.log ("Extension with ID " ++ extensionId ++ " does not exist."), .ok ()) := by
      unfold removeExtension
      exact withErrorHandling_ok env _ w _ (by simp [h])
    exact ⟨this, by rw [this]; rfl⟩

/-- Witness of C18: the sample world has no `extensions` directory. -/
theorem extension_commands_absent_target_witness :
    (listExtensions sampleEnv sampleWorld).1.fs = sampleWorld.fs ∧
    (removeExtension sampleEnv "x" sampleWorld).1.fs = sampleWorld.fs :=
  ⟨((extension_commands_absent_target sampleEnv sampleWorld "x").1 rfl).2,
   ((extension_commands_absent_target sampleEnv sampleWorld "x").2 rfl).2⟩

theorem deleteProject_removes_regardless (env : Env) (w : World) (name : String)
    (confirm : JSValue) (hmac : isMacOS env = true) (hname : name ≠ "")
    (hex : FS.pathExists w.fs (pathJoin env.cwd [name]) = true) :
    (deleteProject env
      (.ok (.object [("projectName", .string name), ("confirmDelete", confirm)])) w).1.fs
      = FS.remove w.fs (pathJoin env.cwd [name]) := by
  have : deleteProject env
      (.ok (.object [("projectName", .string name), ("confirmDelete", confirm)])) w
      = ((((w.ask deleteQuestions).setFs (FS.remove w.fs (pathJoin env.cwd [name]))).log
          ("Project \"" ++ name ++ "\" has been deleted.")), .ok ()) := by
    unfold deleteProject
    apply withErrorHandling_ok
    simp [hmac, JSValue.getProp, lookupProp_cons, JSValue.truthy, hname, hex]
  rw [this]
  rfl

/-- C19: `deleteProject` never reads the answer to its confirmation question: on macOS,
with `confirmDelete` false, the project directory `/work/demo` and the file in it are
removed all the same. -/
theorem deleteProject_ignores_confirmation :
    isMacOS sampleEnv = true ∧
    FS.readFile occupiedWorld.fs ["work", "demo", "keep.txt"] = .ok "kept" ∧
    FS.pathExists (deleteProject sampleEnv
        (.ok (.object [("projectName", .string "demo"), ("confirmDelete", .bool false)]))
        occupiedWorld).1.fs ["work", "demo"] = false ∧
    (deleteProject sampleEnv
        (.ok (.object [("projectName", .string "demo"), ("confirmDelete", .bool false)]))
        occupiedWorld).1.trace
      = [Event.prompt deleteQuestions, Event.log "Project \"demo\" has been deleted."] :=
  ⟨rfl, rfl, rfl, rfl⟩

theorem loadAuthorInfo_fs (env : Env) (w : World) : (loadAuthorInfo env w).2.fs = w.fs := by
  unfold loadAuthorInfo
  split
  · split <;> rfl
  · rfl

theorem authorQuestions_eq_filter (L : JSValue) :
    authorQuestions L
      = ["name", "email", "company"].filter (fun f => !(L.getProp f).truthy) := by
  simp only [authorQuestions, List.filter]
  cases (L.getProp "name").truthy <;> cases (L.getProp "email").truthy <;>
    cases (L.getProp "company").truthy <;> rfl

theorem getAuthorInfo_of_no_question (env : Env) (aa sa : Except Thrown JSValue) (w : World)
    (l : List (String × JSValue)) (hL : (loadAuthorInfo env w).1 = .object l)
    (hq : authorQuestions (.object l) = []) :
    getAuthorInfo env aa sa w = ((loadAuthorInfo env w).2, .ok (.object l)) := by
  unfold getAuthorInfo
  simp [hL, member, hq]

theorem getAuthorInfo_of_questions (env : Env) (A s : JSValue) (w : World)
    (l : List (String × JSValue)) (hL : (loadAuthorInfo env w).1 = .object l)
    (hq : authorQuestions (.object l) ≠ []) :
    getAuthorInfo env (.ok A) (.ok s) w
      = (if (s.getProp "save").truthy then
           (saveAuthorInfo env (spread (.object l) A)
              (((loadAuthorInfo env w).2.ask (authorQuestions (.object l))).ask ["save"]),
            .ok (spread (.object l) A))
         else
           (((loadAuthorInfo env w).2.ask (authorQuestions (.object l))).ask ["save"],
            .ok (spread (.object l) A))) := by
  have hlen : (authorQuestions (.object l)).length > 0 := List.length_pos.mpr hq
  unfold getAuthorInfo
  simp [hL, member, hlen]

theorem saveAuthorInfo_trace (env : Env) (v : JSValue) (w : World) :
    ∃ e, (saveAuthorInfo env v w).trace = w.trace ++ [e] ∧ ∀ qs, e ≠ Event.prompt qs := by
  unfold saveAuthorInfo
  split
  · exact ⟨_, rfl, fun qs h => by cases h⟩
  · split
    · exact ⟨_, rfl, fun qs h => by cases h⟩
    · exact ⟨_, rfl, fun qs h => by cases h⟩

/-- C14 (as stated, refuted): the loaded record contains the key `email` (with the
empty string, as saved after the user skipped it) and `getAuthorInfo` asks for `email`
again, and then for the confirmation. -/
theorem getAuthorInfo_asks_present_field :
    (loadAuthorInfo sampleEnv emptyEmailWorld).1 = emptyEmailAuthor ∧
    "email" ∈ JSValue.keys (spreadProps emptyEmailAuthor) ∧
    (getAuthorInfo sampleEnv (.ok (.object [("email", .string "")])) (.ok declined)
        emptyEmailWorld).1.trace
      = [Event.log "Loaded author information from /home/u/.aurora/author.json",
         Event.prompt ["email"], Event.prompt ["save"]] :=
  ⟨rfl, by decide, rfl⟩

/-- C14 (amended): for a loaded record, `getAuthorInfo` asks for exactly those of `name`,
`email`, `company` whose value is falsy (absent, or empty, `null`, `false`, `0`), in
that order and in one prompt, followed only by the save confirmation; when all three
are truthy it issues no prompt at all and returns the record. -/
theorem getAuthorInfo_questions (env : Env) (A s : JSValue) (w : World)
    (l : List (String × JSValue)) (hL : (loadAuthorInfo env w).1 = .object l) :
    authorQuestions (.object l)
      = ["name", "email", "company"].filter (fun f => !(JSValue.lookupProp l f).truthy) ∧
    (authorQuestions (.object l) = [] →
      ∀ aa sa, getAuthorInfo env aa sa w = ((loadAuthorInfo env w).2, .ok (.object l))) ∧
    (authorQuestions (.object l) ≠ [] →
      ∃ rest, (getAuthorInfo env (.ok A) (.ok s) w).1.trace
          = (loadAuthorInfo env w).2.trace
              ++ Event.prompt (authorQuestions (.object l)) :: Event.prompt ["save"] :: rest ∧
        ∀ e ∈ rest, ∀ qs, e ≠ Event.prompt qs) := by
  refine ⟨authorQuestions_eq_filter _, ?_, ?_⟩
  · intro hq aa sa
    exact getAuthorInfo_of_no_question env aa sa w l hL hq
  · intro hq
    rw [getAuthorInfo_of_questions env A s w l hL hq]
    by_cases hs : (s.getProp "save").truthy = true
    · simp only [hs, if_true]
      obtain ⟨e, he, hne⟩ := saveAuthorInfo_trace env (spread (.object l) A)
        (((loadAuthorInfo env w).2.ask (authorQuestions (.object l))).ask ["save"])
      refine ⟨[e], ?_, ?_⟩
      · rw [he]; simp [World.ask]
      · intro e2 he2 qs
        simp only [List.mem_singleton] at he2
        subst he2
        exact hne qs
    · simp only [hs]
      exact ⟨[], by simp [World.ask], by simp⟩

/-- Witness of C14 (amended): a record with all three fields gives no prompt. -/
theorem getAuthorInfo_questions_witness :
    getAuthorInfo sampleEnv (.ok typedAuthor) (.ok declined) fullAuthorWorld
      = ((loadAuthorInfo sampleEnv fullAuthorWorld).2, .ok fullAuthor) :=
  (getAuthorInfo_questions sampleEnv typedAuthor declined fullAuthorWorld
    (spreadProps fullAuthor) rfl).2.1 rfl (.ok typedAuthor) (.ok declined)

theorem mem_keys_setProp_iff (kvs : List (String × JSValue)) (key k : String) (v : JSValue) :
    k ∈ JSValue.keys (JSValue.setProp kvs key v) ↔ k ∈ JSValue.keys kvs ∨ k = key := by
  induction kvs with
  | nil => simp [JSValue.setProp, JSValue.keys]
  | cons kv rest ih =>
    obtain ⟨k0, w⟩ := kv
    by_cases hk : k0 = key
    · subst hk
      simp only [JSValue.setProp, if_true, JSValue.keys, List.map_cons, List.mem_cons]
      tauto
    · simp only [JSValue.keys] at ih
      simp only [JSValue.setProp, hk, if_false, JSValue.keys, List.map_cons, List.mem_cons, ih]
      tauto

theorem mem_keys_foldl_setProp (a acc : List (String × JSValue)) (k : String) :
    k ∈ JSValue.keys (a.foldl (fun acc kv => JSValue.setProp acc kv.1 kv.2) acc)
      ↔ k ∈ JSValue.keys acc ∨ k ∈ JSValue.keys a := by
  induction a generalizing acc with
  | nil => simp [JSValue.keys]
  | cons kv rest ih =>
    rw [List.foldl_cons, ih, mem_keys_setProp_iff]
    simp only [JSValue.keys, List.map_cons, List.mem_cons]
    tauto

theorem lookupProp_foldl_of_not_mem (a acc : List (String × JSValue)) (k : String)
    (h : k ∉ JSValue.keys a) :
    JSValue.lookupProp (a.foldl (fun acc kv => JSValue.setProp acc kv.1 kv.2) acc) k
      = JSValue.lookupProp acc k := by
  induction a generalizing acc with
  | nil => rfl
  | cons kv rest ih =>
    simp only [JSValue.keys, List.map_cons, List.mem_cons, not_or] at h
    rw [List.foldl_cons, ih _ (by simpa [JSValue.keys] using h.2),
      lookupProp_setProp_of_ne _ _ _ _ h.1]

theorem lookupProp_foldl_of_mem (a acc : List (String × JSValue)) (k : String)
    (hnodup : (JSValue.keys a).Nodup) (h : k ∈ JSValue.keys a) :
    JSValue.lookupProp (a.foldl (fun acc kv => JSValue.setProp acc kv.1 kv.2) acc) k
      = JSValue.lookupProp a k := by
  induction a generalizing acc with
  | nil => simp [JSValue.keys] at h
  | cons kv rest ih =>
    obtain ⟨k0, v0⟩ := kv
    simp only [JSValue.keys, List.map_cons, List.nodup_cons] at hnodup
    simp only [JSValue.keys, List.map_cons, List.mem_cons] at h
    rw [List.foldl_cons, lookupProp_cons]
    by_cases hk : k = k0
    · subst hk
      rw [if_pos rfl, lookupProp_foldl_of_not_mem _ _ _ (by simpa [JSValue.keys] using hnodup.1),
        lookupProp_setProp_self]
    · rw [if_neg hk]
      rcases h with h | h
      · exact absurd h hk
      · exact ih _ (by simpa [JSValue.keys] using hnodup.2) (by simpa [JSValue.keys] using h)

theorem lookupProp_of_not_mem (l : List (String × JSValue)) (k : String)
    (h : k ∉ JSValue.keys l) : JSValue.lookupProp l k = .undefined := by
  induction l with
  | nil => rfl
  | cons kv rest ih =>
    obtain ⟨k0, v0⟩ := kv
    simp only [JSValue.keys, List.map_cons, List.mem_cons, not_or] at h
    rw [lookupProp_cons, if_neg h.1]
    exact ih (by simpa [JSValue.keys] using h.2)

theorem lookupProp_foldl_nil (l : List (String × JSValue)) (k : String)
    (hnodup : (JSValue.keys l).Nodup) :
    JSValue.lookupProp (l.foldl (fun acc kv => JSValue.setProp acc kv.1 kv.2) []) k
      = JSValue.lookupProp l k := by
  by_cases h : k ∈ JSValue.keys l
  · exact lookupProp_foldl_of_mem l [] k hnodup h
  · rw [lookupProp_foldl_of_not_mem l [] k h, lookupProp_of_not_mem l k h]
    rfl

/-- C15: on a loaded record `L` and prompt answers `A` (objects, each key once), the
record `getAuthorInfo` returns after prompting is `L` overlaid with `A`: its keys are
those of `L` and of `A`, a key of `A` has the value of `A`, any other key keeps the
value of `L` (so `website` and unknown keys are carried through); when no prompt is
issued the result is `L` itself. -/
theorem getAuthorInfo_result_overlay (env : Env) (s : JSValue) (w : World)
    (l a : List (String × JSValue)) (hL : (loadAuthorInfo env w).1 = .object l)
    (hl : (JSValue.keys l).Nodup) (ha : (JSValue.keys a).Nodup) :
    (authorQuestions (.object l) ≠ [] →
      ∃ m, (getAuthorInfo env (.ok (.object a)) (.ok s) w).2 = .ok (.object m) ∧
        (∀ k, k ∈ JSValue.keys m ↔ k ∈ JSValue.keys l ∨ k ∈ JSValue.keys a) ∧
        (∀ k, k ∈ JSValue.keys a → JSValue.lookupProp m k = JSValue.lookupProp a k) ∧
        (∀ k, k ∉ JSValue.keys a → JSValue.lookupProp m k = JSValue.lookupProp l k)) ∧
    (authorQuestions (.object l) = [] →
      ∀ aa sa, (getAuthorInfo env aa sa w).2 = .ok (.object l)) := by
  constructor
  · intro hq
    refine ⟨a.foldl (fun acc kv => JSValue.setProp acc kv.1 kv.2)
      (l.foldl (fun acc kv => JSValue.setProp acc kv.1 kv.2) []), ?_, ?_, ?_, ?_⟩
    · rw [getAuthorInfo_of_questions env (.object a) s w l hL hq]
      by_cases hs : (s.getProp "save").truthy = true <;> simp [hs, spread, spreadProps]
    · intro k
      rw [mem_keys_foldl_setProp, mem_keys_foldl_setProp]
      simp [JSValue.keys]
    · intro k hk
      exact lookupProp_foldl_of_mem a _ k ha hk
    · intro k hk
      rw [lookupProp_foldl_of_not_mem a _ k hk, lookupProp_foldl_nil l k hl]
  · intro hq aa sa
    rw [getAuthorInfo_of_no_question env aa sa w l hL hq]

/-- Witness of C15: the record with an empty email, overlaid with a typed email. -/
theorem getAuthorInfo_result_overlay_witness :
    ∃ m, (getAuthorInfo sampleEnv (.ok (.object [("email", .string "b@example.org")]))
        (.ok declined) emptyEmailWorld).2 = .ok (.object m) ∧
      (∀ k, k ∈ JSValue.keys m ↔ k ∈ JSValue.keys (spreadProps emptyEmailAuthor)
        ∨ k ∈ JSValue.keys [("email", JSValue.string "b@example.org")]) ∧
      (∀ k, k ∈ JSValue.keys [("email", JSValue.string "b@example.org")] →
        JSValue.lookupProp m k
          = JSValue.lookupProp [("email", JSValue.string "b@example.org")] k) ∧
      (∀ k, k ∉ JSValue.keys [("email", JSValue.string "b@example.org")] →
        JSValue.lookupProp m k = JSValue.lookupProp (spreadProps emptyEmailAuthor) k) :=
  (getAuthorInfo_result_overlay sampleEnv declined emptyEmailWorld
    (spreadProps emptyEmailAuthor) [("email", .string "b@example.org")] rfl
    (by decide) (by decide)).1 (by decide)

theorem member_of_defined (env : Env) (v : JSValue) (key : String)
    (h1 : v ≠ .undefined) (h2 : v ≠ .null) : member env v key = .ok (v.getProp key) := by
  cases v with
  | undefined => exact absurd rfl h1
  | null => exact absurd rfl h2
  | _ => rfl

/-- C17 (as stated, refuted): the function `withErrorHandling` returns rejects when
`error.log` cannot be appended to (here it is a directory) and when the command throws
`null`. -/
theorem withErrorHandling_can_reject :
    (∃ t, (withErrorHandling sampleEnv (fun w => (w, .error (sampleEnv.mkError "boom")))
      logDirWorld).2 = .error t) ∧
    (∃ t, (withErrorHandling sampleEnv (fun w => (w, .error ⟨.other, .null⟩))
      sampleWorld).2 = .error t) :=
  ⟨⟨_, rfl⟩, ⟨_, rfl⟩⟩

/-- C17 (amended): the function `withErrorHandling` returns resolves, without touching
the error log, when the command completes or throws a `UserCancelledError` or a
`TtyError`; for any other thrown value that is neither `null` nor `undefined` it appends
the line `[<timestamp>] <stack or message>` to `error.log` and resolves when the append
succeeds, and rejects with the error of the append otherwise; it rejects when the thrown
value is `null` or `undefined`. -/
theorem withErrorHandling_outcomes (env : Env) (command : World → World × Except Thrown Unit)
    (w w1 : World) :
    (command w = (w1, .ok ()) → withErrorHandling env command w = (w1, .ok ())) ∧
    (∀ t, command w = (w1, .error t) →
      t.instanceOf .userCancelled = true ∨ t.instanceOf .tty = true →
      (withErrorHandling env command w).2 = .ok () ∧
      (withErrorHandling env command w).1.fs = w1.fs) ∧
    (∀ t, command w = (w1, .error t) →
      t.instanceOf .userCancelled = false → t.instanceOf .tty = false →
      t.value ≠ .undefined → t.value ≠ .null →
      (∀ fs2, FS.appendFile w1.fs (pathJoin env.cwd ["error.log"])
          ("[" ++ env.now ++ "] "
            ++ toJSString ((t.value.getProp "stack").or (t.value.getProp "message")) ++ "\n")
          = .ok fs2 →
        (withErrorHandling env command w).2 = .ok () ∧
        (withErrorHandling env command w).1.fs = fs2) ∧
      (∀ e, FS.appendFile w1.fs (pathJoin env.cwd ["error.log"])
          ("[" ++ env.now ++ "] "
            ++ toJSString ((t.value.getProp "stack").or (t.value.getProp "message")) ++ "\n")
          = .error e →
        (withErrorHandling env command w).2 = .error (env.mkError e) ∧
        (withErrorHandling env command w).1.fs = w1.fs)) ∧
    (∀ t, command w = (w1, .error t) → t.value = .undefined ∨ t.value = .null →
      ∃ t2, (withErrorHandling env command w).2 = .error t2) := by
  refine ⟨withErrorHandling_ok env command w w1, ?_, ?_, ?_⟩
  · intro t h hcls
    unfold withErrorHandling
    rw [h]
    rcases hcls with hc | hc
    · simp [hc, World.log]
    · by_cases hu : t.instanceOf .userCancelled = true
      · simp [hu, World.log]
      · simp [hu, hc, World.err]
  · intro t h hu ht h1 h2
    have hm := member_of_defined env t.value "message" h1 h2
    have hs := member_of_defined env t.value "stack" h1 h2
    have hrun : withErrorHandling env command w
        = logErrorToFile env t.value
            (w1.err ("An unexpected error occurred: "
              ++ toJSString (t.value.getProp "message"))) := by
      unfold withErrorHandling
      rw [h]
      simp [hu, ht, hm]
    rw [hrun]
    unfold logErrorToFile
    simp only [hm, hs]
    constructor
    · intro fs2 ha
      have ha2 : FS.appendFile (w1.err ("An unexpected error occurred: "
          ++ toJSString (t.value.getProp "message"))).fs (pathJoin env.cwd ["error.log"])
          ("[" ++ env.now ++ "] "
            ++ toJSString ((t.value.getProp "stack").or (t.value.getProp "message")) ++ "\n")
          = .ok fs2 := ha
      simp [ha2, World.setFs]
    · intro e ha
      have ha2 : FS.appendFile (w1.err ("An unexpected error occurred: "
          ++ toJSString (t.value.getProp "message"))).fs (pathJoin env.cwd ["error.log"])
          ("[" ++ env.now ++ "] "
            ++ toJSString ((t.value.getProp "stack").or (t.value.getProp "message")) ++ "\n")
          = .error e := ha
      simp [World.err, ha]
  · intro t h hv
    unfold withErrorHandling
    rw [h]
    have hi1 : t.instanceOf .userCancelled = false := by
      rcases hv with hv | hv <;> simp [Thrown.instanceOf, hv]
    have hi2 : t.instanceOf .tty = false := by
      rcases hv with hv | hv <;> simp [Thrown.instanceOf, hv]
    rcases hv with hv | hv <;> simp [hi1, hi2, hv, member]

/-- Witness of C17 (amended): an unexpected error is logged and the call resolves. -/
theorem withErrorHandling_outcomes_witness :
    (withErrorHandling sampleEnv (fun w => (w, .error (sampleEnv.mkError "boom")))
      sampleWorld).2 = .ok () ∧
    FS.readFile (withErrorHandling sampleEnv (fun w => (w, .error (sampleEnv.mkError "boom")))
      sampleWorld).1.fs ["work", "error.log"]
      = .ok "[2024-01-01T00:00:00.000Z] Error: boom\n" :=
  ⟨((withErrorHandling_outcomes sampleEnv
      (fun w => (w, .error (sampleEnv.mkError "boom"))) sampleWorld sampleWorld).2.2.1
      (sampleEnv.mkError "boom") rfl rfl rfl (by simp [Env.mkError]) (by simp [Env.mkError])).1
      ((FS.appendFile sampleWorld.fs ["work", "error.log"]
        "[2024-01-01T00:00:00.000Z] Error: boom\n").toOption.getD sampleWorld.fs) rfl |>.1,
   rfl⟩

theorem modify_append_single (f : Option Node → Except String Node) (fs : Node) (p : Path)
    (a : String) (es : List (String × Node)) (n : Node)
    (h : FS.lookup fs p = some (.dir es)) (hf : f (es.lookup a) = .ok n) :
    ∃ fs1, FS.modify f fs (p ++ [a]) = .ok fs1 ∧
      FS.lookup fs1 p = some (.dir (FS.setEntry es a n)) := by
  induction p generalizing fs with
  | nil =>
    rw [lookup_nil] at h
    cases h
    exact ⟨.dir (FS.setEntry es a n), by simp [FS.modify, hf], lookup_nil _⟩
  | cons c rest ih =>
    cases fs with
    | file content => simp [FS.lookup] at h
    | dir ds =>
      rw [lookup_dir_cons] at h
      cases hl : ds.lookup c with
      | none => rw [hl] at h; simp at h
      | some m =>
        rw [hl] at h
        simp only [Option.some_bind] at h
        obtain ⟨m1, hm1, hm2⟩ := ih m h
        refine ⟨.dir (FS.setEntry ds c m1), ?_, ?_⟩
        · cases rest with
          | nil =>
            simp only [List.nil_append] at hm1
            simp [FS.modify, hl, hm1]
          | cons d rest2 =>
            simp only [List.cons_append] at hm1
            simp [FS.modify, hl, hm1]
        · rw [lookup_dir_cons, entries_lookup_setEntry_self]
          simpa using hm2

theorem modify_missing_parent (f : Option Node → Except String Node) (fs : Node) (p : Path)
    (a b : String) (es : List (String × Node))
    (h : FS.lookup fs p = some (.dir es)) (ha : es.lookup a = none) :
    FS.modify f fs (p ++ [a, b]) = .error "ENOENT" := by
  induction p generalizing fs with
  | nil =>
    rw [lookup_nil] at h
    cases h
    simp [FS.modify, ha]
  | cons c rest ih =>
    cases fs with
    | file content => simp [FS.lookup] at h
    | dir ds =>
      rw [lookup_dir_cons] at h
      cases hl : ds.lookup c with
      | none => rw [hl] at h; simp at h
      | some m =>
        rw [hl] at h
        simp only [Option.some_bind] at h
        have := ih m h
        cases rest with
        | nil =>
          simp only [List.nil_append] at this
          simp [FS.modify, hl, this]
        | cons d rest2 =>
          simp only [List.cons_append] at this
          simp [FS.modify, hl, this]

theorem pathJoin_package_json (p : Path) :
    pathJoin p ["package.json"] = p ++ ["package.json"] := by
  have h : splitPath "package.json" = ["package.json"] := by decide
  simp [pathJoin, h, normalize]

theorem pathJoin_src_index (p : Path) :
    pathJoin p ["src/index.ts"] = p ++ ["src", "index.ts"] := by
  have h : splitPath "src/index.ts" = ["src", "index.ts"] := by decide
  simp [pathJoin, h, normalize]

theorem writeFile_new_entry (fs : Node) (p : Path) (a content : String)
    (es : List (String × Node)) (h : FS.lookup fs p = some (.dir es))
    (ha : es.lookup a = none) :
    ∃ fs1, FS.writeFile fs (p ++ [a]) content = .ok fs1 ∧
      FS.lookup fs1 p = some (.dir (FS.setEntry es a (.file content))) := by
  unfold FS.writeFile
  exact modify_append_single _ fs p a es _ h (by rw [ha])

theorem writeFile_missing_parent (fs : Node) (p : Path) (a b content : String)
    (es : List (String × Node)) (h : FS.lookup fs p = some (.dir es))
    (ha : es.lookup a = none) :
    FS.writeFile fs (p ++ [a, b]) content = .error "ENOENT" := by
  unfold FS.writeFile
  exact modify_missing_parent _ fs p a b es h ha

theorem initializeTypeScriptProject_on_empty_directory (env : Env) (p : Path) (w : World)
    (h : FS.lookup w.fs p = some (.dir [])) :
    ∃ fs1, initializeTypeScriptProject env p w = (w.setFs fs1, .error (env.mkError "ENOENT")) ∧
      FS.lookup fs1 p = some (.dir [("package.json",
        .file (env.stringify (typeScriptPackageJson p) 2 ++ "\n"))]) := by
  obtain ⟨fs1, h1, h2⟩ := writeFile_new_entry w.fs p "package.json"
    (env.stringify (typeScriptPackageJson p) 2 ++ "\n") [] h rfl
  refine ⟨fs1, ?_, h2⟩
  have h3 := writeFile_missing_parent fs1 p "src" "index.ts" (helloScript p) _ h2 rfl
  unfold initializeTypeScriptProject
  simp only [writeJSON, pathJoin_package_json, pathJoin_src_index, h1, h3]

/-- C20: on the fresh, empty project directory `/work/app` that `createProject` makes,
`initializeTypeScriptProject` writes `package.json` and then fails with `ENOENT` on
`src/index.ts`, whose directory `src` nobody created: `src/index.ts` and
`tsconfig.json` do not exist afterwards and no install or build command is run. -/
theorem createProject_typeScript_fails :
    FS.readdir (createProject sampleEnv (.ok typeScriptProjectAnswers) sampleWorld).1.fs
        ["work", "app"] = .ok ["package.json"] ∧
    FS.pathExists (createProject sampleEnv (.ok typeScriptProjectAnswers) sampleWorld).1.fs
        ["work", "app", "src", "index.ts"] = false ∧
    FS.pathExists (createProject sampleEnv (.ok typeScriptProjectAnswers) sampleWorld).1.fs
        ["work", "app", "tsconfig.json"] = false ∧
    (createProject sampleEnv (.ok typeScriptProjectAnswers) sampleWorld).1.trace
      = [Event.prompt projectQuestions,
         Event.log "Creating TypeScript project \"app\" in /work...",
         Event.error "An unexpected error occurred: ENOENT"] ∧
    (initializeTypeScriptProject sampleEnv ["work", "app"]
        ⟨.dir [("work", .dir [("app", .dir [])])], []⟩).2
      = .error (sampleEnv.mkError "ENOENT") :=
  ⟨rfl, rfl, rfl, rfl, rfl⟩

theorem entries_lookup_filter_ne (es : List (String × Node)) (c x : String) (h : x ≠ c) :
    (es.filter (fun e => e.1 != c)).lookup x = es.lookup x := by
  induction es with
  | nil => rfl
  | cons e rest ih =>
    obtain ⟨k, n⟩ := e
    by_cases hk : k = c
    · subst hk
      have hx : (x == k) = false := by simpa using h
      simp [List.filter, List.lookup, hx, ih]
    · have hk2 : (k != c) = true := by simpa using hk
      simp only [List.filter, hk2, List.lookup, ih]

theorem stat_file (c : String) (p : Path) :
    FS.stat (.file c) p = if p = [] then some (some c) else none := by
  cases p <;> simp [FS.stat, FS.lookup]

theorem stat_dir_cons (es : List (String × Node)) (x : String) (p : Path) :
    FS.stat (.dir es) (x :: p) = (es.lookup x).bind (fun n => FS.stat n p) := by
  unfold FS.stat
  rw [lookup_dir_cons]
  cases es.lookup x <;> rfl

theorem stat_dir_nil (es : List (String × Node)) : FS.stat (.dir es) [] = some none := by
  simp [FS.stat, FS.lookup]

theorem stat_remove_of_not_below (fs : Node) (t p : Path) (h : ¬ isBelow t p) :
    FS.stat (FS.remove fs t) p = FS.stat fs p := by
  induction t generalizing fs p with
  | nil => exact absurd List.nil_prefix h
  | cons c rest ih =>
    cases fs with
    | file content => simp [FS.remove]
    | dir es =>
      cases p with
      | nil =>
        cases rest with
        | nil => simp [FS.remove, stat_dir_nil]
        | cons d rest2 =>
          simp only [FS.remove]
          cases es.lookup c <;> simp [stat_dir_nil]
      | cons x p1 =>
        cases rest with
        | nil =>
          have hx : x ≠ c := by
            intro e
            subst e
            exact h ((List.prefix_cons_inj x).mpr List.nil_prefix)
          simp only [FS.remove, stat_dir_cons, entries_lookup_filter_ne es c x hx]
        | cons d rest2 =>
          simp only [FS.remove]
          cases hl : es.lookup c with
          | none => rfl
          | some n =>
            simp only [stat_dir_cons]
            by_cases hx : x = c
            · subst hx
              rw [entries_lookup_setEntry_self, hl]
              simp only [Option.some_bind]
              exact ih n p1 (fun hp => h ((List.prefix_cons_inj x).mpr hp))
            · rw [entries_lookup_setEntry_of_ne es c x _ hx]

theorem removeExtension_eq (env : Env) (extensionId : String) (w : World) :
    removeExtension env extensionId w
      = if FS.pathExists w.fs (extensionPath env extensionId) = true then
          ((w.setFs (FS.remove w.fs (extensionPath env extensionId))).log
            ("Extension with ID " ++ extensionId ++ " has been removed."), .ok ())
        else
          (w.log ("Extension with ID " ++ extensionId ++ " does not exist."), .ok ()) := by
  unfold removeExtension extensionPath
  by_cases h : FS.pathExists w.fs
      (pathJoin (pathJoin env.cwd ["extensions"]) [extensionId]) = true
  · rw [if_pos h]
    exact withErrorHandling_ok env _ w _ (by simp [h])
  · rw [if_neg h]
    exact withErrorHandling_ok env _ w _ (by simp [h])

theorem removeExtension_stat (env : Env) (extensionId : String) (w : World) (p : Path)
    (h : ¬ isBelow (extensionPath env extensionId) p) :
    FS.stat (removeExtension env extensionId w).1.fs p = FS.stat w.fs p := by
  rw [removeExtension_eq]
  by_cases hex : FS.pathExists w.fs (extensionPath env extensionId) = true
  · simp only [hex, if_true, World.log, World.setFs]
    exact stat_remove_of_not_below w.fs _ p h
  · simp only [hex]
    rfl

/-- C21 (as stated, refuted): the id `../notes.txt` makes `removeExtension` remove a
file next to the `extensions` directory, and the id `.` removes the `extensions`
directory itself. -/
theorem removeExtension_escapes_extensions :
    FS.stat extensionsWorld.fs ["work", "notes.txt"] = some (some "notes") ∧
    FS.stat (removeExtension sampleEnv "../notes.txt" extensionsWorld).1.fs
        ["work", "notes.txt"] = none ∧
    FS.stat extensionsWorld.fs ["work", "extensions"] = some none ∧
    FS.stat (removeExtension sampleEnv "." extensionsWorld).1.fs
        ["work", "extensions"] = none :=
  ⟨rfl, rfl, rfl, rfl⟩

/-- C21 (amended): for every extension id whose joined path lies strictly inside
`<cwd>/extensions`, `removeExtension` changes nothing outside that path: every path that
is not at or below it keeps its kind and content, in particular every path outside
`<cwd>/extensions` and the `extensions` directory itself; the call returns. -/
theorem removeExtension_confined (env : Env) (extensionId : String) (w : World)
    (hinside : isBelow (pathJoin env.cwd ["extensions"]) (extensionPath env extensionId))
    (hstrict : extensionPath env extensionId ≠ pathJoin env.cwd ["extensions"]) :
    (∀ p, ¬ isBelow (extensionPath env extensionId) p →
      FS.stat (removeExtension env extensionId w).1.fs p = FS.stat w.fs p) ∧
    (∀ p, ¬ isBelow (pathJoin env.cwd ["extensions"]) p →
      FS.stat (removeExtension env extensionId w).1.fs p = FS.stat w.fs p) ∧
    FS.stat (removeExtension env extensionId w).1.fs (pathJoin env.cwd ["extensions"])
      = FS.stat w.fs (pathJoin env.cwd ["extensions"]) ∧
    (removeExtension env extensionId w).2 = .ok () := by
  refine ⟨fun p hp => removeExtension_stat env extensionId w p hp, ?_, ?_, ?_⟩
  · intro p hp
    exact removeExtension_stat env extensionId w p (fun h => hp (hinside.trans h))
  · apply removeExtension_stat
    intro h
    exact hstrict (List.Sublist.antisymm h.sublist hinside.sublist)
  · rw [removeExtension_eq]
    by_cases hex : FS.pathExists w.fs (extensionPath env extensionId) = true <;> simp [hex]

/-- Witness of C21 (amended): removing the extension `first` leaves the file next to
the `extensions` directory and the directory itself in place. -/
theorem removeExtension_confined_witness :
    FS.stat (removeExtension sampleEnv "first" extensionsWorld).1.fs ["work", "notes.txt"]
      = some (some "notes") ∧
    FS.stat (removeExtension sampleEnv "first" extensionsWorld).1.fs ["work", "extensions"]
      = some none ∧
    FS.stat (removeExtension sampleEnv "first" extensionsWorld).1.fs
        ["work", "extensions", "first"] = none :=
  have h := removeExtension_confined sampleEnv "first" extensionsWorld
    ⟨["first"], rfl⟩ (by decide)
  ⟨(h.2.1 ["work", "notes.txt"] (by unfold isBelow; decide)).trans rfl,
   h.2.2.1.trans rfl, rfl⟩

theorem normalize_of_no_parent (base : Path) (components : List String)
    (h : ∀ c ∈ components, c ≠ "..") :
    normalize base components
      = base ++ components.filter (fun c => decide (c ≠ "" ∧ c ≠ ".")) := by
  induction components generalizing base with
  | nil => simp [normalize]
  | cons c rest ih =>
    have hc : c ≠ ".." := h c (List.mem_cons_self _ _)
    have hrest : ∀ d ∈ rest, d ≠ ".." := fun d hd => h d (List.mem_cons_of_mem _ hd)
    have ih2 := fun b => ih b hrest
    simp only [normalize] at ih2 ⊢
    rw [List.foldl_cons]
    by_cases h1 : c = "" ∨ c = "."
    · have hf : decide (c ≠ "" ∧ c ≠ ".") = false := by
        simp only [decide_eq_false_iff_not, not_and_or, not_not]
        exact h1
      simp only [h1, if_true, ih2, List.filter_cons, hf]
      rfl
    · have hf : decide (c ≠ "" ∧ c ≠ ".") = true := by
        simp only [decide_eq_true_eq]
        exact not_or.mp h1
      simp only [h1, if_false, hc, ih2, List.filter_cons, hf, if_true, List.append_assoc,
        List.singleton_append]

theorem extensionPath_inside_of_plain_id (env : Env) (extensionId : String)
    (h1 : ∀ c ∈ splitPath extensionId, c ≠ "..")
    (h2 : ∃ c ∈ splitPath extensionId, c ≠ "" ∧ c ≠ ".") :
    isBelow (pathJoin env.cwd ["extensions"]) (extensionPath env extensionId) ∧
    extensionPath env extensionId ≠ pathJoin env.cwd ["extensions"] := by
  have hp : extensionPath env extensionId
      = pathJoin env.cwd ["extensions"]
          ++ (splitPath extensionId).filter (fun c => decide (c ≠ "" ∧ c ≠ ".")) := by
    unfold extensionPath
    rw [pathJoin, List.flatMap_cons, List.flatMap_nil, List.append_nil]
    exact normalize_of_no_parent _ _ h1
  rw [hp]
  refine ⟨List.prefix_append _ _, ?_⟩
  intro h
  have hnil : (splitPath extensionId).filter (fun c => decide (c ≠ "" ∧ c ≠ ".")) = [] := by
    have := congrArg List.length h
    simp only [List.length_append] at this
    exact List.length_eq_zero.mp (by omega)
  obtain ⟨c, hc, hne⟩ := h2
  have : c ∈ (splitPath extensionId).filter (fun c => decide (c ≠ "" ∧ c ≠ ".")) :=
    List.mem_filter.mpr ⟨hc, by simpa using hne⟩
  rw [hnil] at this
  exact absurd this (List.not_mem_nil _)

theorem stat_modify_of_not_below (f : Option Node → Except String Node) (fs fs1 : Node)
    (t p : Path) (h : FS.modify f fs t = .ok fs1) (hp : ¬ isBelow t p) :
    FS.stat fs1 p = FS.stat fs p := by
  induction t generalizing fs fs1 p with
  | nil => exact absurd List.nil_prefix hp
  | cons c rest ih =>
    cases fs with
    | file content => simp [FS.modify] at h
    | dir es =>
      cases rest with
      | nil =>
        simp only [FS.modify] at h
        cases hf : f (es.lookup c) with
        | error e => rw [hf] at h; simp at h
        | ok n =>
          rw [hf] at h
          simp only [Except.ok.injEq] at h
          subst h
          cases p with
          | nil => simp [stat_dir_nil]
          | cons x p1 =>
            have hx : x ≠ c := by
              intro e
              subst e
              exact hp ((List.prefix_cons_inj x).mpr List.nil_prefix)
            simp only [stat_dir_cons, entries_lookup_setEntry_of_ne es c x n hx]
      | cons d rest2 =>
        simp only [FS.modify] at h
        cases hl : es.lookup c with
        | none => rw [hl] at h; simp at h
        | some m =>
          rw [hl] at h
          simp only at h
          cases hm : FS.modify f m (d :: rest2) with
          | error err => rw [hm] at h; simp at h
          | ok m1 =>
            rw [hm] at h
            simp only [Except.ok.injEq] at h
            subst h
            cases p with
            | nil => simp [stat_dir_nil]
            | cons x p1 =>
              simp only [stat_dir_cons]
              by_cases hx : x = c
              · subst hx
                rw [entries_lookup_setEntry_self, hl]
                simp only [Option.some_bind]
                exact ih m m1 p1 hm (fun hq => hp ((List.prefix_cons_inj x).mpr hq))
              · rw [entries_lookup_setEntry_of_ne es c x m1 hx]

theorem stat_place_of_not_below (fs : Node) (t p : Path) (n : Node) (hp : ¬ isBelow t p) :
    FS.stat (FS.place fs t n) p = FS.stat fs p := by
  unfold FS.place
  cases hm : FS.modify (fun _ => .ok n) fs t with
  | error e => rfl
  | ok fs1 => exact stat_modify_of_not_below _ fs fs1 t p hm hp

theorem lookup_mkdirp_frame (fs fs1 : Node) (q p : Path)
    (h : FS.mkdirp fs q = .ok fs1) (hp : ¬ p <+: q) : FS.lookup fs1 p = FS.lookup fs p := by
  induction q generalizing fs fs1 p with
  | nil =>
    cases fs with
    | file c => simp [FS.mkdirp] at h
    | dir es =>
      simp only [FS.mkdirp, Except.ok.injEq] at h
      subst h
      rfl
  | cons c rest ih =>
    cases fs with
    | file content => simp [FS.mkdirp] at h
    | dir es =>
      simp only [FS.mkdirp] at h
      cases hm : FS.mkdirp ((es.lookup c).getD (.dir [])) rest with
      | error e => rw [hm] at h; simp at h
      | ok n1 =>
        rw [hm] at h
        simp only [Except.ok.injEq] at h
        subst h
        cases p with
        | nil => exact absurd List.nil_prefix hp
        | cons d p1 =>
          rw [lookup_dir_cons, lookup_dir_cons]
          by_cases hd : d = c
          · subst hd
            have hp1 : ¬ p1 <+: rest := fun hq => hp ((List.prefix_cons_inj d).mpr hq)
            rw [entries_lookup_setEntry_self]
            simp only [Option.some_bind]
            cases hl : es.lookup d with
            | some m =>
              rw [hl] at hm
              simp only [Option.getD] at hm
              simpa using ih m n1 p1 hm hp1
            | none =>
              rw [hl] at hm
              simp only [Option.getD] at hm
              rw [ih (.dir []) n1 p1 hm hp1]
              cases p1 with
              | nil => exact absurd List.nil_prefix hp1
              | cons e p2 => simp [lookup_dir_cons, List.lookup]
          · rw [entries_lookup_setEntry_of_ne es c d n1 hd]

theorem lookup_modify_of_apart (f : Option Node → Except String Node) (fs fs1 : Node)
    (t p : Path) (h : FS.modify f fs t = .ok fs1) (h1 : ¬ p <+: t) (h2 : ¬ t <+: p) :
    FS.lookup fs1 p = FS.lookup fs p := by
  induction t generalizing fs fs1 p with
  | nil => exact absurd List.nil_prefix h2
  | cons c rest ih =>
    cases fs with
    | file content => simp [FS.modify] at h
    | dir es =>
      cases p with
      | nil => exact absurd List.nil_prefix h1
      | cons x p1 =>
        cases rest with
        | nil =>
          simp only [FS.modify] at h
          cases hf : f (es.lookup c) with
          | error e => rw [hf] at h; simp at h
          | ok n =>
            rw [hf] at h
            simp only [Except.ok.injEq] at h
            subst h
            have hx : x ≠ c := by
              intro e
              subst e
              exact h2 ((List.prefix_cons_inj x).mpr List.nil_prefix)
            rw [lookup_dir_cons, lookup_dir_cons, entries_lookup_setEntry_of_ne es c x n hx]
        | cons d rest2 =>
          simp only [FS.modify] at h
          cases hl : es.lookup c with
          | none => rw [hl] at h; simp at h
          | some m =>
            rw [hl] at h
            simp only at h
            cases hm : FS.modify f m (d :: rest2) with
            | error err => rw [hm] at h; simp at h
            | ok m1 =>
              rw [hm] at h
              simp only [Except.ok.injEq] at h
              subst h
              rw [lookup_dir_cons, lookup_dir_cons]
              by_cases hx : x = c
              · subst hx
                rw [entries_lookup_setEntry_self, hl]
                simp only [Option.some_bind]
                exact ih m m1 p1 hm (fun hq => h1 ((List.prefix_cons_inj x).mpr hq))
                  (fun hq => h2 ((List.prefix_cons_inj x).mpr hq))
              · rw [entries_lookup_setEntry_of_ne es c x m1 hx]

theorem lookup_writeFile_frame (fs fs1 : Node) (t p : Path) (content : String)
    (h : FS.writeFile fs t content = .ok fs1) (hp : ¬ p <+: t) :
    FS.lookup fs1 p = FS.lookup fs p := by
  by_cases ht : t <+: p
  · obtain ⟨r, hr⟩ := ht
    subst hr
    have hr : r ≠ [] := by
      intro e
      subst e
      exact hp (by simp)
    obtain ⟨n, hn1, hn2⟩ := modify_lookup _ fs fs1 t h
    rw [lookup_append, lookup_append, hn2]
    cases r with
    | nil => exact absurd rfl hr
    | cons d r1 =>
      cases hl : FS.lookup fs t with
      | none =>
        rw [hl] at hn1
        simp only [Except.ok.injEq] at hn1
        subst hn1
        simp [FS.lookup]
      | some m =>
        rw [hl] at hn1
        cases m with
        | file c =>
          simp only [Except.ok.injEq] at hn1
          subst hn1
          simp [FS.lookup]
        | dir es => simp at hn1
  · exact lookup_modify_of_apart _ fs fs1 t p h hp ht
theorem pathJoin_author_file (p : Path) :
    pathJoin p [".aurora", "author.json"] = p ++ [".aurora", "author.json"] := by
  have h1 : splitPath ".aurora" = [".aurora"] := by decide
  have h2 : splitPath "author.json" = ["author.json"] := by decide
  simp [pathJoin, h1, h2, normalize]

theorem dirname_author_file (env : Env) :
    dirname (AUTHOR_FILE_PATH env) = env.home ++ [".aurora"] := by
  unfold AUTHOR_FILE_PATH dirname
  rw [pathJoin_author_file]
  have : env.home ++ [".aurora", "author.json"] = (env.home ++ [".aurora"]) ++ ["author.json"] := by
    simp
  rw [this, List.dropLast_concat]

theorem author_file_not_prefix_of_dirname (env : Env) :
    ¬ AUTHOR_FILE_PATH env <+: dirname (AUTHOR_FILE_PATH env) := by
  intro h
  have hlen := h.length_le
  rw [dirname_author_file] at hlen
  unfold AUTHOR_FILE_PATH at hlen
  rw [pathJoin_author_file] at hlen
  simp at hlen

theorem saveAuthorInfo_cases (env : Env) (v : JSValue) (w : World) :
    (∀ e, FS.mkdirp w.fs (dirname (AUTHOR_FILE_PATH env)) = .error e →
      saveAuthorInfo env v w = w.err ("Error saving author information: " ++ e)) ∧
    (∀ fs1 e, FS.mkdirp w.fs (dirname (AUTHOR_FILE_PATH env)) = .ok fs1 →
      writeJSON env fs1 (AUTHOR_FILE_PATH env) v 2 = .error e →
      saveAuthorInfo env v w
        = (w.setFs fs1).err ("Error saving author information: " ++ e)) ∧
    (∀ fs1 fs2, FS.mkdirp w.fs (dirname (AUTHOR_FILE_PATH env)) = .ok fs1 →
      writeJSON env fs1 (AUTHOR_FILE_PATH env) v 2 = .ok fs2 →
      saveAuthorInfo env v w
        = (w.setFs fs2).log
            ("Author information saved to " ++ pathString (AUTHOR_FILE_PATH env))) := by
  refine ⟨?_, ?_, ?_⟩
  · intro e h
    unfold saveAuthorInfo
    rw [h]
  · intro fs1 e h1 h2
    unfold saveAuthorInfo
    rw [h1]
    simp only
    rw [h2]
  · intro fs1 fs2 h1 h2
    unfold saveAuthorInfo
    rw [h1]
    simp only
    rw [h2]

theorem saveAuthorInfo_lookup (env : Env) (v : JSValue) (w : World) (p : Path)
    (hp : ¬ p <+: AUTHOR_FILE_PATH env) :
    FS.lookup (saveAuthorInfo env v w).fs p = FS.lookup w.fs p := by
  have hd : ¬ p <+: dirname (AUTHOR_FILE_PATH env) := fun h =>
    hp (h.trans (List.dropLast_prefix _))
  obtain ⟨c1, c2, c3⟩ := saveAuthorInfo_cases env v w
  cases hm : FS.mkdirp w.fs (dirname (AUTHOR_FILE_PATH env)) with
  | error e => rw [c1 e hm]; rfl
  | ok fs1 =>
    have h1 := lookup_mkdirp_frame w.fs fs1 _ p hm hd
    cases hw : writeJSON env fs1 (AUTHOR_FILE_PATH env) v 2 with
    | error e => rw [c2 fs1 e hm hw]; exact h1
    | ok fs2 =>
      rw [c3 fs1 fs2 hm hw]
      simp only [World.log, World.setFs]
      rw [lookup_writeFile_frame fs1 fs2 _ p _ hw hp, h1]

theorem getAuthorInfo_fs_cases (env : Env) (aa sa : Except Thrown JSValue) (w : World) :
    (getAuthorInfo env aa sa w).1.fs = w.fs ∨
    ∃ v w0, w0.fs = w.fs ∧ (getAuthorInfo env aa sa w).1.fs = (saveAuthorInfo env v w0).fs := by
  have hfs := loadAuthorInfo_fs env w
  unfold getAuthorInfo
  dsimp only
  split
  · exact Or.inl hfs
  · split
    · split
      · exact Or.inl hfs
      · split
        · exact Or.inl hfs
        · split
          · exact Or.inr ⟨_, ((loadAuthorInfo env w).2.ask
              (authorQuestions (loadAuthorInfo env w).1)).ask ["save"], hfs, rfl⟩
          · exact Or.inl hfs
    · exact Or.inl hfs

theorem getAuthorInfo_lookup (env : Env) (aa sa : Except Thrown JSValue) (w : World) (p : Path)
    (hp : ¬ p <+: AUTHOR_FILE_PATH env) :
    FS.lookup (getAuthorInfo env aa sa w).1.fs p = FS.lookup w.fs p := by
  rcases getAuthorInfo_fs_cases env aa sa w with h | ⟨v, w0, h0, h⟩
  · rw [h]
  · rw [h, saveAuthorInfo_lookup env v w0 p hp, h0]
theorem pathExists_of_below (fs : Node) (p q : Path) (h : p <+: q)
    (hq : FS.pathExists fs q = true) : FS.pathExists fs p = true := by
  obtain ⟨r, hr⟩ := h
  subst hr
  unfold FS.pathExists at hq ⊢
  rw [lookup_append] at hq
  cases hl : FS.lookup fs p with
  | none => rw [hl] at hq; simp at hq
  | some n => rfl

theorem mkdirp_lookup_self (fs fs1 : Node) (q : Path) (h : FS.mkdirp fs q = .ok fs1) :
    ∃ es, FS.lookup fs1 q = some (.dir es) := by
  induction q generalizing fs fs1 with
  | nil =>
    cases fs with
    | file c => simp [FS.mkdirp] at h
    | dir es =>
      simp only [FS.mkdirp, Except.ok.injEq] at h
      subst h
      exact ⟨es, rfl⟩
  | cons c rest ih =>
    cases fs with
    | file content => simp [FS.mkdirp] at h
    | dir es =>
      simp only [FS.mkdirp] at h
      cases hm : FS.mkdirp ((es.lookup c).getD (.dir [])) rest with
      | error e => rw [hm] at h; simp at h
      | ok n1 =>
        rw [hm] at h
        simp only [Except.ok.injEq] at h
        subst h
        obtain ⟨ds, hds⟩ := ih _ n1 hm
        exact ⟨ds, by rw [lookup_dir_cons, entries_lookup_setEntry_self]; simpa using hds⟩

theorem mkdirp_pathExists (fs fs1 : Node) (q p : Path) (h : FS.mkdirp fs q = .ok fs1)
    (hp : FS.pathExists fs p = true) : FS.pathExists fs1 p = true := by
  by_cases hpq : p <+: q
  · obtain ⟨es, hes⟩ := mkdirp_lookup_self fs fs1 q h
    exact pathExists_of_below fs1 p q hpq (by simp [FS.pathExists, hes])
  · unfold FS.pathExists at hp ⊢
    rw [lookup_mkdirp_frame fs fs1 q p h hpq]
    exact hp

theorem writeFile_pathExists (fs fs1 : Node) (t p : Path) (content : String)
    (h : FS.writeFile fs t content = .ok fs1) (hp : FS.pathExists fs p = true) :
    FS.pathExists fs1 p = true := by
  by_cases hpt : p <+: t
  · exact pathExists_of_below fs1 p t hpt
      (by simp [FS.pathExists, writeFile_lookup fs fs1 t content h])
  · unfold FS.pathExists at hp ⊢
    rw [lookup_writeFile_frame fs fs1 t p content h hpt]
    exact hp

theorem saveAuthorInfo_pathExists (env : Env) (v : JSValue) (w : World) (p : Path)
    (hp : FS.pathExists w.fs p = true) : FS.pathExists (saveAuthorInfo env v w).fs p = true := by
  obtain ⟨c1, c2, c3⟩ := saveAuthorInfo_cases env v w
  cases hm : FS.mkdirp w.fs (dirname (AUTHOR_FILE_PATH env)) with
  | error e => rw [c1 e hm]; exact hp
  | ok fs1 =>
    have h1 := mkdirp_pathExists w.fs fs1 _ p hm hp
    cases hw : writeJSON env fs1 (AUTHOR_FILE_PATH env) v 2 with
    | error e => rw [c2 fs1 e hm hw]; exact h1
    | ok fs2 =>
      rw [c3 fs1 fs2 hm hw]
      exact writeFile_pathExists fs1 fs2 _ p _ hw h1

theorem getAuthorInfo_pathExists (env : Env) (aa sa : Except Thrown JSValue) (w : World)
    (p : Path) (hp : FS.pathExists w.fs p = true) :
    FS.pathExists (getAuthorInfo env aa sa w).1.fs p = true := by
  rcases getAuthorInfo_fs_cases env aa sa w with h | ⟨v, w0, h0, h⟩
  · rw [h]; exact hp
  · rw [h]
    exact saveAuthorInfo_pathExists env v w0 p (by rw [h0]; exact hp)

/-- C8 (as stated, refuted): an existing destination does not always give the
already-exists report, nor is it always left as it was.  With `/work/demo` present and
an author without email the run stops at the validation, which comes first; started in
`/home` with the name `u`, the destination `/home/u` exists, the run ends with the
already-exists report, and the author resolver has created `.aurora/author.json`
under that destination. -/
theorem createExtension_existing_destination_cases :
    FS.pathExists occupiedWorld.fs (pathJoin sampleEnv.cwd ["demo"]) = true ∧
    (createExtension sampleEnv (.ok typedAuthor) (.ok declined) (.ok scenarioAnswers)
        occupiedWorld).1.trace.getLast?
      = some (Event.error "Validation failed: /author/email must match format \"email\"") ∧
    FS.pathExists sampleWorld.fs (pathJoin homeEnv.cwd ["u"]) = true ∧
    FS.stat sampleWorld.fs ["home", "u", ".aurora", "author.json"] = none ∧
    (createExtension homeEnv (.ok typedAuthorWithEmail) (.ok confirmed) (.ok homeAnswers)
        sampleWorld).1.trace.getLast?
      = some (Event.log "Directory \"u\" already exists in the current path.") ∧
    FS.stat (createExtension homeEnv (.ok typedAuthorWithEmail) (.ok confirmed)
        (.ok homeAnswers) sampleWorld).1.fs ["home", "u", ".aurora", "author.json"]
      = some (some "A\n") :=
  ⟨rfl, rfl, rfl, rfl, rfl, rfl⟩

/-- C8 (amended): in every file system in which `<cwd>/<name>` exists (file or
directory), when the author resolver returns a record and the manifest built from it
validates, `createExtension` prints the already-exists report and stops: the file
system is the one the author resolver left (no directory is created, nothing is written
or copied), the only events after the resolver are the prompt and two console messages
(no process is started), and unless the destination is the author file or a directory
above it, the destination and everything under it are as they were before the command. -/
theorem createExtension_existing_destination_untouched (env : Env)
    (authorAnswers saveAuthor : Except Thrown JSValue) (a authorInfo : JSValue)
    (name : String) (w : World)
    (hauthor : (getAuthorInfo env authorAnswers saveAuthor w).2 = .ok authorInfo)
    (hvalid : (validateExtensionManifest (extensionData a authorInfo)).2 = .ok ())
    (hname : a.getProp "name" = .string name)
    (hexists : FS.pathExists w.fs (pathJoin env.cwd [name]) = true) :
    (createExtension env authorAnswers saveAuthor (.ok a) w).1.fs
      = (getAuthorInfo env authorAnswers saveAuthor w).1.fs ∧
    (createExtension env authorAnswers saveAuthor (.ok a) w).1.trace
      = (getAuthorInfo env authorAnswers saveAuthor w).1.trace
          ++ [Event.prompt extensionQuestions, Event.log "Extension manifest is valid.",
              Event.log ("Directory \"" ++ name
                ++ "\" already exists in the current path.")] ∧
    (createExtension env authorAnswers saveAuthor (.ok a) w).2 = .ok () ∧
    (¬ pathJoin env.cwd [name] <+: AUTHOR_FILE_PATH env →
      FS.lookup (createExtension env authorAnswers saveAuthor (.ok a) w).1.fs
          (pathJoin env.cwd [name])
        = FS.lookup w.fs (pathJoin env.cwd [name])) := by
  have hcheck := getAuthorInfo_pathExists env authorAnswers saveAuthor w _ hexists
  have hrun : createExtension env authorAnswers saveAuthor (.ok a) w
      = (((((getAuthorInfo env authorAnswers saveAuthor w).1).ask extensionQuestions).log
          "Extension manifest is valid.").log
          ("Directory \"" ++ name ++ "\" already exists in the current path."), .ok ()) := by
    unfold createExtension
    apply withErrorHandling_ok
    cases hg : getAuthorInfo env authorAnswers saveAuthor w with
    | mk w1 r =>
      rw [hg] at hauthor hcheck
      simp only at hauthor hcheck
      subst hauthor
      simp only [materialize]
      cases hv : validateExtensionManifest (extensionData a authorInfo) with
      | mk d r2 =>
        rw [hv] at hvalid
        simp only at hvalid
        subst hvalid
        simp only [hname]
        have : FS.pathExists ((w1.ask extensionQuestions).log "Extension manifest is valid.").fs
            (pathJoin env.cwd [name]) = true := hcheck
        simp [this]
  rw [hrun]
  refine ⟨by simp [World.log, World.ask], by simp [World.log, World.ask, List.append_assoc],
    rfl, ?_⟩
  intro hp
  simp only [World.log, World.ask]
  exact getAuthorInfo_lookup env authorAnswers saveAuthor w _ hp

/-- Witness of C8 (amended): the destination `/work/demo` exists and keeps its file. -/
theorem createExtension_existing_destination_untouched_witness :
    (createExtension sampleEnv (.ok typedAuthorWithEmail) (.ok confirmed)
        (.ok scenarioAnswers) occupiedWorld).1.trace.getLast?
      = some (Event.log "Directory \"demo\" already exists in the current path.") ∧
    (createExtension sampleEnv (.ok typedAuthorWithEmail) (.ok confirmed)
        (.ok scenarioAnswers) occupiedWorld).2 = .ok () ∧
    FS.lookup (createExtension sampleEnv (.ok typedAuthorWithEmail) (.ok confirmed)
        (.ok scenarioAnswers) occupiedWorld).1.fs (pathJoin sampleEnv.cwd ["demo"])
      = some (.dir [("keep.txt", .file "kept")]) :=
  have h := createExtension_existing_destination_untouched sampleEnv
    (.ok typedAuthorWithEmail) (.ok confirmed) scenarioAnswers
    (spread (.object []) typedAuthorWithEmail) "demo" occupiedWorld rfl rfl rfl rfl
  ⟨by rw [h.2.1]; rfl, h.2.2.1, (h.2.2.2 (by decide)).trans rfl⟩
/-- C11 (as stated, refuted): a run with `gitSupport` true in which the module `execa`
cannot be loaded comes to the version-control step with the manifest written and the
template copied, and then ends with the report of an unexpected error instead of the
success message: the `import` stands outside the `try` of `initializeGitRepository`.
The files written before are still there. -/
theorem createExtension_git_step_rejects :
    (gitAnswers.getProp "gitSupport").truthy = true ∧
    FS.stat (createExtension missingExecaEnv (.ok typedAuthorWithEmail) (.ok declined)
        (.ok gitAnswers) plainTemplateWorld).1.fs ["work", "demo", "extension.json"]
      = some (some "demo\n") ∧
    FS.stat (createExtension missingExecaEnv (.ok typedAuthorWithEmail) (.ok declined)
        (.ok gitAnswers) plainTemplateWorld).1.fs ["work", "demo", "index.js"]
      = some (some "main") ∧
    (createExtension missingExecaEnv (.ok typedAuthorWithEmail) (.ok declined)
        (.ok gitAnswers) plainTemplateWorld).1.trace.getLast?
      = some (Event.error
          "An unexpected error occurred: Cannot find package \x27execa\x27") ∧
    Event.log "Extension \"demo\" created successfully at /work/demo."
      ∉ (createExtension missingExecaEnv (.ok typedAuthorWithEmail) (.ok declined)
          (.ok gitAnswers) plainTemplateWorld).1.trace :=
  ⟨rfl, rfl, rfl, rfl, by decide⟩

/-- C11 (amended): at the version-control step with `gitSupport` true, when the module
`execa` loads, then whatever the outcome of the external `git init` (success, or a
rejection with any message), the step does not fail, `createExtension` does nothing to
the file system itself (the tree is exactly the one `git` left, so every path whose kind
and content `git` left alone is as the earlier steps left it) and the success message
comes last; when the module does not load, the file system is left as it was, no process
is started, and the error is passed on instead of the success message. -/
theorem finishExtension_after_git (env : Env) (a : JSValue) (dest : Path) (w : World)
    (hsupport : (a.getProp "gitSupport").truthy = true) :
    (env.execaImport = none →
      (finishExtension env a dest w).2 = .ok () ∧
      (finishExtension env a dest w).1.trace.getLast?
        = some (Event.log (createdMessage a dest)) ∧
      (finishExtension env a dest w).1.fs = (env.execa "git" ["init"] dest w.fs).1 ∧
      (∀ p, FS.stat (env.execa "git" ["init"] dest w.fs).1 p = FS.stat w.fs p →
        FS.stat (finishExtension env a dest w).1.fs p = FS.stat w.fs p)) ∧
    (∀ message, env.execaImport = some message →
      finishExtension env a dest w = (w, .error (env.mkError message))) := by
  constructor
  · intro hi
    have hfs : (finishExtension env a dest w).1.fs = (env.execa "git" ["init"] dest w.fs).1 := by
      rw [finishExtension_loaded env a dest w hsupport hi]
      exact (initializeGitRepository_loaded env dest w hi).2
    refine ⟨?_, ?_, hfs, ?_⟩
    · rw [finishExtension_loaded env a dest w hsupport hi]
    · rw [finishExtension_loaded env a dest w hsupport hi]
      simp [World.log]
    · intro p hp
      rw [hfs]
      exact hp
  · intro message hi
    exact finishExtension_not_loaded env a dest w message hsupport hi

/-- Witness of C11 (amended): at the version-control step of a run on
`plainTemplateWorld`, a `git` that succeeds and creates `/work/demo/.git` leaves every
path outside `/work/demo/.git` as it was and the run ends with the success message; so
does a run in which `git` is missing. -/
theorem finishExtension_after_git_witness :
    createExtension workingGitEnv (.ok typedAuthorWithEmail) (.ok declined) (.ok gitAnswers)
        plainTemplateWorld
      = finishExtension workingGitEnv gitAnswers ["work", "demo"] gitStepWorld ∧
    (finishExtension workingGitEnv gitAnswers ["work", "demo"] gitStepWorld).2 = .ok () ∧
    (finishExtension workingGitEnv gitAnswers ["work", "demo"] gitStepWorld).1.trace.getLast?
      = some (Event.log "Extension \"demo\" created successfully at /work/demo.") ∧
    FS.stat (finishExtension workingGitEnv gitAnswers ["work", "demo"] gitStepWorld).1.fs
        ["work", "demo", ".git", "HEAD"] = some (some "ref: refs/heads/main\n") ∧
    FS.stat (finishExtension workingGitEnv gitAnswers ["work", "demo"] gitStepWorld).1.fs
        ["work", "demo", "extension.json"] = some (some "demo\n") ∧
    (∀ p, ¬ isBelow ["work", "demo", ".git"] p →
      FS.stat (finishExtension workingGitEnv gitAnswers ["work", "demo"] gitStepWorld).1.fs p
        = FS.stat gitStepWorld.fs p) ∧
    Event.error "Failed to initialize Git repository: Command failed with ENOENT: git init"
      ∈ (createExtension failingGitEnv (.ok typedAuthorWithEmail) (.ok declined)
          (.ok gitAnswers) plainTemplateWorld).1.trace ∧
    (createExtension failingGitEnv (.ok typedAuthorWithEmail) (.ok declined) (.ok gitAnswers)
        plainTemplateWorld).1.trace.getLast?
      = some (Event.log "Extension \"demo\" created successfully at /work/demo.") :=
  have h := (finishExtension_after_git workingGitEnv gitAnswers ["work", "demo"] gitStepWorld
    rfl).1 rfl
  ⟨rfl, h.1, h.2.1, rfl, rfl,
   fun p hp => h.2.2.2 p (stat_place_of_not_below gitStepWorld.fs _ p _ hp), by decide, rfl⟩
theorem author_lookup_after_mkdirp (env : Env) (fs fs1 : Node)
    (h : FS.mkdirp fs (dirname (AUTHOR_FILE_PATH env)) = .ok fs1) :
    FS.lookup fs1 (AUTHOR_FILE_PATH env) = FS.lookup fs (AUTHOR_FILE_PATH env) :=
  lookup_mkdirp_frame fs fs1 _ _ h (author_file_not_prefix_of_dirname env)

/-- C16: `getAuthorInfo` writes the author file only when at least one field was
collected and the user confirmed the single save prompt: with no question, with a
refusal, or with a prompt that fails, the file system is unchanged.  After a
confirmation it creates the directory and writes the file: when both calls succeed the
author file holds exactly the merged record that is returned and the save is reported;
when the directory cannot be created nothing changes, and when the file cannot be
written only the directory was created and the author file is as before; in both
failures the error is printed and not propagated, and the merged record is returned all
the same. -/
theorem getAuthorInfo_save (env : Env) (A s : JSValue) (w : World)
    (l : List (String × JSValue)) (hL : (loadAuthorInfo env w).1 = .object l) :
    (authorQuestions (.object l) = [] → ∀ aa sa, (getAuthorInfo env aa sa w).1.fs = w.fs) ∧
    (∀ t sa, (getAuthorInfo env (.error t) sa w).1.fs = w.fs) ∧
    (∀ t, (getAuthorInfo env (.ok A) (.error t) w).1.fs = w.fs) ∧
    (authorQuestions (.object l) ≠ [] → (s.getProp "save").truthy = false →
      (getAuthorInfo env (.ok A) (.ok s) w).1.fs = w.fs ∧
      (getAuthorInfo env (.ok A) (.ok s) w).2 = .ok (spread (.object l) A)) ∧
    (authorQuestions (.object l) ≠ [] → (s.getProp "save").truthy = true →
      (getAuthorInfo env (.ok A) (.ok s) w).2 = .ok (spread (.object l) A) ∧
      (∀ fs1 fs2, FS.mkdirp w.fs (dirname (AUTHOR_FILE_PATH env)) = .ok fs1 →
        writeJSON env fs1 (AUTHOR_FILE_PATH env) (spread (.object l) A) 2 = .ok fs2 →
        (getAuthorInfo env (.ok A) (.ok s) w).1.fs = fs2 ∧
        FS.readFile (getAuthorInfo env (.ok A) (.ok s) w).1.fs (AUTHOR_FILE_PATH env)
          = .ok (env.stringify (spread (.object l) A) 2 ++ "\n") ∧
        (getAuthorInfo env (.ok A) (.ok s) w).1.trace.getLast?
          = some (Event.log
              ("Author information saved to " ++ pathString (AUTHOR_FILE_PATH env)))) ∧
      (∀ e, FS.mkdirp w.fs (dirname (AUTHOR_FILE_PATH env)) = .error e →
        (getAuthorInfo env (.ok A) (.ok s) w).1.fs = w.fs ∧
        (getAuthorInfo env (.ok A) (.ok s) w).1.trace.getLast?
          = some (Event.error ("Error saving author information: " ++ e))) ∧
      (∀ fs1 e, FS.mkdirp w.fs (dirname (AUTHOR_FILE_PATH env)) = .ok fs1 →
        writeJSON env fs1 (AUTHOR_FILE_PATH env) (spread (.object l) A) 2 = .error e →
        (getAuthorInfo env (.ok A) (.ok s) w).1.fs = fs1 ∧
        FS.lookup (getAuthorInfo env (.ok A) (.ok s) w).1.fs (AUTHOR_FILE_PATH env)
          = FS.lookup w.fs (AUTHOR_FILE_PATH env) ∧
        (getAuthorInfo env (.ok A) (.ok s) w).1.trace.getLast?
          = some (Event.error ("Error saving author information: " ++ e)))) := by
  have hfs := loadAuthorInfo_fs env w
  refine ⟨?_, ?_, ?_, ?_, ?_⟩
  · intro hq aa sa
    rw [getAuthorInfo_of_no_question env aa sa w l hL hq]
    exact hfs
  · intro t sa
    unfold getAuthorInfo
    simp only [hL, member]
    split <;> exact hfs
  · intro t
    unfold getAuthorInfo
    simp only [hL, member]
    split <;> exact hfs
  · intro hq hs
    rw [getAuthorInfo_of_questions env A s w l hL hq]
    simp only [hs, Bool.false_eq_true, if_false]
    exact ⟨hfs, trivial⟩
  · intro hq hs
    rw [getAuthorInfo_of_questions env A s w l hL hq]
    simp only [hs, if_true]
    obtain ⟨c1, c2, c3⟩ := saveAuthorInfo_cases env (spread (.object l) A)
      (((loadAuthorInfo env w).2.ask (authorQuestions (.object l))).ask ["save"])
    have hw0 : (((loadAuthorInfo env w).2.ask (authorQuestions (.object l))).ask ["save"]).fs
        = w.fs := hfs
    rw [hw0] at c1 c2 c3
    refine ⟨trivial, ?_, ?_, ?_⟩
    · intro fs1 fs2 h1 h2
      rw [c3 fs1 fs2 h1 h2]
      refine ⟨rfl, ?_, by simp [World.log, World.setFs]⟩
      simp only [World.log, World.setFs]
      exact readFile_of_lookup _ _ _ (writeFile_lookup fs1 fs2 _ _ h2)
    · intro e h1
      rw [c1 e h1]
      exact ⟨hfs, by simp [World.err]⟩
    · intro fs1 e h1 h2
      rw [c2 fs1 e h1 h2]
      refine ⟨rfl, ?_, by simp [World.err, World.setFs]⟩
      simp only [World.err, World.setFs]
      exact author_lookup_after_mkdirp env w.fs fs1 h1

/-- Witness of C16: on first use, with the three fields typed and the save confirmed,
the author file is written and holds the returned record; when `.aurora` is a file the
directory cannot be created, the error is printed and the record is returned. -/
theorem getAuthorInfo_save_witness :
    (getAuthorInfo sampleEnv (.ok typedAuthor) (.ok confirmed) sampleWorld).2
      = .ok (spread (.object []) typedAuthor) ∧
    FS.readFile (getAuthorInfo sampleEnv (.ok typedAuthor) (.ok confirmed) sampleWorld).1.fs
        (AUTHOR_FILE_PATH sampleEnv)
      = .ok (sampleEnv.stringify (spread (.object []) typedAuthor) 2 ++ "\n") ∧
    (getAuthorInfo sampleEnv (.ok typedAuthor) (.ok confirmed) sampleWorld).1.trace.getLast?
      = some (Event.log "Author information saved to /home/u/.aurora/author.json") ∧
    (getAuthorInfo sampleEnv (.ok typedAuthor) (.ok confirmed) blockedAuthorWorld).2
      = .ok (spread (.object []) typedAuthor) ∧
    (getAuthorInfo sampleEnv (.ok typedAuthor) (.ok confirmed) blockedAuthorWorld).1.fs
      = blockedAuthorWorld.fs ∧
    (getAuthorInfo sampleEnv (.ok typedAuthor) (.ok confirmed)
        blockedAuthorWorld).1.trace.getLast?
      = some (Event.error "Error saving author information: EEXIST") :=
  have h := (getAuthorInfo_save sampleEnv typedAuthor confirmed sampleWorld [] rfl).2.2.2.2
    (by decide) rfl
  have hb := (getAuthorInfo_save sampleEnv typedAuthor confirmed blockedAuthorWorld [] rfl).2.2.2.2
    (by decide) rfl
  ⟨h.1, (h.2.1 _ _ rfl rfl).2.1, (h.2.1 _ _ rfl rfl).2.2, hb.1,
   (hb.2.2.1 "EEXIST" rfl).1, (hb.2.2.1 "EEXIST" rfl).2⟩

end Aurora
